import Mathlib

/-! # Witty Pi 5 host software: codec, packet protocol and I2C transaction engine

A shallow embedding of the C sources `wp5lib.h`, `wp5lib.c` and `wp5.c`: codec,
packet protocol, listing parser, transaction engine and its callers.

Conventions of the embedding:

* a `uint8_t` is a `Nat` below 256; where the C code truncates to eight bits
  the embedding writes `% 256`;
* a C `int` is an `Int`;
* a C string / byte buffer is a `List Nat`; reading past the end of the list
  yields the byte 0, so a list without a 0 byte denotes the string with its
  terminator directly behind it;
* a pointer into a buffer that is only moved forward is the remaining suffix
  of the list.
-/

namespace WittyPi5

/-! ## Constants (`wp5lib.h`, `wp5lib.c`, `wp5.c`) -/

/-- The constant `PACKET_BEGIN`, the character `<`. -/
def PACKET_BEGIN : Nat := 0x3C
/-- The constant `PACKET_DELIMITER`, the character `|`. -/
def PACKET_DELIMITER : Nat := 0x7C
/-- The constant `PACKET_END`, the character `>`. -/
def PACKET_END : Nat := 0x3E
/-- The constant `CRC8_POLYNOMIAL`, x^8 + x^5 + x^4 + 1. -/
def CRC8_POLYNOMIAL : Nat := 0x31
/-- The constant `LIST_BEGIN`, the character `<`. -/
def LIST_BEGIN : Nat := 0x3C
/-- The constant `LIST_DELIMITER`, the character `|`. -/
def LIST_DELIMITER : Nat := 0x7C
/-- The constant `LIST_END`, the character `>`. -/
def LIST_END : Nat := 0x3E
/-- The constant `IN_USE_SCRIPT_NAME`, the string "schedule". -/
def IN_USE_SCRIPT_NAME : List Nat := [115, 99, 104, 101, 100, 117, 108, 101]
/-- The constant `I2C_WRITE_MAX_ATTEMPTS`. -/
def I2C_WRITE_MAX_ATTEMPTS : Nat := 10
/-- The constant `I2C_WRITE_VALIDATE_DELAY_US`. -/
def I2C_WRITE_VALIDATE_DELAY_US : Nat := 100
/-- The constant `I2C_READ_MAX_ATTEMPTS`. -/
def I2C_READ_MAX_ATTEMPTS : Nat := 10
/-- The constant `I2C_READ_VALIDATE_COUNT`. -/
def I2C_READ_VALIDATE_COUNT : Nat := 2

/-! ## Codec (`wp5lib.h`, `wp5lib.c`) -/

/-- The function `bcd_to_dec`: `((bcd >> 4) * 10) + (bcd & 0x0F)`, returned as `uint8_t`. -/
def bcd_to_dec (bcd : Nat) : Nat :=
  (((bcd >>> 4) * 10) + (bcd &&& 0x0F)) % 256

/-- The function `dec_to_bcd`: `((dec / 10) << 4) | (dec % 10)`, returned as `uint8_t`. -/
def dec_to_bcd (dec : Nat) : Nat :=
  (((dec / 10) <<< 4) ||| (dec % 10)) % 256

/-- One pass of the inner loop body of `calculate_crc8`: test the most
significant bit, shift left and, when the bit was set, XOR the polynomial. -/
def crc8_shift (crc : Nat) : Nat :=
  if crc &&& 0x80 ≠ 0 then ((crc <<< 1) ^^^ CRC8_POLYNOMIAL) % 256
  else (crc <<< 1) % 256

/-- The inner loop `for (j = 0; j < 8; j++)` of `calculate_crc8`, run `j` times. -/
def crc8_bits : Nat → Nat → Nat
  | 0, crc => crc
  | j + 1, crc => crc8_bits j (crc8_shift crc)

/-- The outer loop body of `calculate_crc8`: `crc ^= data[i]` and eight shifts. -/
def crc8_byte (crc b : Nat) : Nat :=
  crc8_bits 8 (crc ^^^ b)

/-- The function `calculate_crc8(data, len)`: the checksum of the first `len` bytes of `data`,
starting from `crc = 0x00`. -/
def calculate_crc8 (data : List Nat) (len : Nat) : Nat :=
  (data.take len).foldl crc8_byte 0

/-! ## C string and buffer helpers -/

/-- The function `strlen`: the number of bytes in front of the first 0 byte. -/
def strlen : List Nat → Nat
  | [] => 0
  | c :: cs => if c = 0 then 0 else strlen cs + 1

/-- The `n` bytes found at the start of a buffer. -/
def read_bytes (buf : List Nat) (n : Nat) : List Nat :=
  (List.range n).map (fun i => buf.getD i 0)

/-- Store `bytes` into `buf` from offset `off` on (`memmove`, `snprintf`). -/
def write_bytes (buf : List Nat) (off : Nat) (bytes : List Nat) : List Nat :=
  buf.take off ++ bytes ++ buf.drop (off + bytes.length)

/-! ## Packet protocol: `pack_filename` (`wp5.c`) -/

/-- The function `pack_filename(filename, output)`. A null pointer is `none`. The result is
the returned flag and the output buffer afterwards. The filename is read
completely before the output is written (`memmove`), so the two buffers may
be the same memory. -/
def pack_filename (filename output : Option (List Nat)) : Bool × Option (List Nat) :=
  match filename, output with
  | none, _ => (false, output)
  | _, none => (false, output)
  | some fn, some out =>
    if strlen fn = 0 then (false, some out)
    else
      let filename_len := strlen fn
      let out1 := write_bytes out 1 (read_bytes fn (filename_len + 1))
      let out2 := out1.set 0 PACKET_BEGIN
      let crc8 := calculate_crc8 out2 (filename_len + 1)
      let out3 := out2.set (filename_len + 1) PACKET_DELIMITER
      let out4 := out3.set (filename_len + 2) crc8
      let out5 := out4.set (filename_len + 3) PACKET_END
      let out6 := out5.set (filename_len + 4) 0
      (true, some out6)

/-- The buffer `data` with bit `j` of byte `i` inverted. -/
def flip_bit (data : List Nat) (i j : Nat) : List Nat :=
  data.set i (data.getD i 0 ^^^ (1 <<< j))

/-- The inverse of `crc8_shift` on bytes: the polynomial is odd, so the lowest
bit of a shifted value tells whether the polynomial was XOR-ed in. -/
def crc8_unshift (c : Nat) : Nat :=
  if c % 2 = 1 then ((c ^^^ CRC8_POLYNOMIAL) / 2) + 128 else c / 2

/-! ## Listing parser: `list_or_select_file` (`wp5.c`) -/

/-- The function `strncmp(s1, s2, n)`: compare at most `n` bytes, stopping behind a common
0 byte; the result is the difference of the first pair of distinct bytes. -/
def strncmp : List Nat → List Nat → Nat → Int
  | _, _, 0 => 0
  | s1, s2, n + 1 =>
    if s1.headD 0 ≠ s2.headD 0 then (s1.headD 0 : Int) - (s2.headD 0 : Int)
    else if s1.headD 0 = 0 then 0
    else strncmp s1.tail s2.tail n

/-- The inner loop of `list_or_select_file`,
`while (*current && *current != '|' && *current != '>') current++;`:
the position of `current` afterwards. -/
def skip_filename : List Nat → List Nat
  | [] => []
  | c :: cs =>
    if c ≠ 0 ∧ c ≠ LIST_DELIMITER ∧ c ≠ LIST_END then skip_filename cs else c :: cs

/-- The bytes the conversion `%.*s` produces for precision `len` and string `s`:
at most `len` bytes, none of them behind a 0 byte. -/
def fmt_str (len : Nat) (s : List Nat) : List Nat :=
  (s.takeWhile (fun c => c ≠ 0)).take len

/-- The call `snprintf(output, size, "%.*s", len, s)`: at most `size - 1` bytes of the
formatted text and a terminating 0; nothing is written when `size` is 0. -/
def snprintf_str (output : List Nat) (size len : Nat) (s : List Nat) : List Nat :=
  if size = 0 then output
  else write_bytes output 0 ((fmt_str len s).take (size - 1) ++ [0])

/-- The conversion of an `int` argument to `size_t` (64 bits wide). -/
def to_size_t (n : Int) : Nat := (n % 2 ^ 64).toNat

/-- What a call of `list_or_select_file` leaves behind: the returned value, the
output buffer, and the lines printed, one pair (number, name) for every
`printf("  [%d] %.*s\n", file_count, len, filename_start)`. -/
structure ListResult where
  ret : Int
  output : Option (List Nat)
  printed : List (Nat × List Nat)
  deriving DecidableEq, Repr

/-- The outer loop of `list_or_select_file`. `current` is the rest of the input
from the pointer of that name on; `fuel` bounds the number of iterations. -/
def list_loop (select : Int) (output : Option (List Nat)) (output_len : Int) :
    Nat → List Nat → Nat → List (Nat × List Nat) → Option ListResult
  | 0, _, _, _ => none
  | fuel + 1, current, file_count, printed =>
    if current.headD 0 ≠ 0 ∧ current.headD 0 ≠ LIST_END then
      let filename_start := current
      let current := skip_filename current
      let next := if current.headD 0 = LIST_DELIMITER then current.tail else current
      if current.headD 0 ≠ LIST_END ∧
          strncmp filename_start IN_USE_SCRIPT_NAME (strlen IN_USE_SCRIPT_NAME) ≠ 0 then
        let file_count := file_count + 1
        let len := filename_start.length - current.length
        if select ≤ 0 then
          list_loop select output output_len fuel next file_count
            (printed ++ [(file_count, fmt_str len filename_start)])
        else if select = (file_count : Int) ∧ output.isSome ∧ output_len ≠ 0 then
          some { ret := select
                 output := output.map
                   (fun o => snprintf_str o (to_size_t output_len) len filename_start)
                 printed := printed }
        else list_loop select output output_len fuel next file_count printed
      else list_loop select output output_len fuel next file_count printed
    else some { ret := (file_count : Int), output := output, printed := printed }

/-- The function `list_or_select_file(input, select, output, output_len)`. Every iteration of
the outer loop moves `current` forward, so `input.length + 1` iterations are
enough. -/
def list_or_select_file (input : List Nat) (select : Int) (output : Option (List Nat))
    (output_len : Int) : Option ListResult :=
  list_loop select output output_len (input.length + 1) input.tail 0 []

/-- The listing `<e1|e2|...|en>` without its two markers. -/
def join_entries : List (List Nat) → List Nat
  | [] => []
  | [e] => e
  | e :: es => e ++ LIST_DELIMITER :: join_entries es

/-- The listing `<e1|e2|...|en>`. -/
def listing (es : List (List Nat)) : List Nat :=
  LIST_BEGIN :: (join_entries es ++ [LIST_END])

/-! ## Transaction engine (`wp5lib.c`) -/

/-- The calls a transaction makes to the operating system, in order. -/
inductive Event where
  | open_device (ok : Bool)
  | close_device
  | lock_file (ok : Bool)
  | unlock_file
  | usleep (us : Nat)
  | ioctl_write (index value : Nat) (ok : Bool)
  | ioctl_read (index : Nat) (ok : Bool)
  deriving DecidableEq, Repr

/-- The number of `ioctl` exchanges in a trace. -/
def ioctl_count (tr : List Event) : Nat :=
  tr.countP (fun e => match e with
    | .ioctl_write _ _ _ => true
    | .ioctl_read _ _ => true
    | _ => false)

/-- The number of write exchanges in a trace. -/
def write_count (tr : List Event) : Nat :=
  tr.countP (fun e => match e with
    | .ioctl_write _ _ _ => true
    | _ => false)

/-- The number of read exchanges in a trace. -/
def read_count (tr : List Event) : Nat :=
  tr.countP (fun e => match e with
    | .ioctl_read _ _ => true
    | _ => false)

/-- The number of calls of `lock_file` in a trace: every attempt of
`i2c_get_impl` and of `i2c_set_impl` starts with one. -/
def lock_calls (tr : List Event) : Nat :=
  tr.countP (fun e => match e with
    | .lock_file _ => true
    | _ => false)

/-- What the environment does in one attempt of `i2c_get_impl`. -/
inductive ReadOutcome where
  /-- The call `lock_file()` returns a negative descriptor. -/
  | lock_failed
  /-- The lock is taken and the `ioctl` fails; `read_buffer[0]`, which the code
  never initialises, holds the byte `stale`. -/
  | ioctl_failed (stale : Nat)
  /-- The lock is taken and the `ioctl` delivers the byte `b` in `read_buffer[0]`. -/
  | ioctl_ok (b : Nat)
  deriving DecidableEq, Repr

/-- The local variables of `i2c_get_impl` and the trace so far. -/
structure GetState where
  attempts : Nat
  same_value_count : Nat
  last_read_value : Nat
  value : Int
  trace : List Event
  deriving DecidableEq, Repr

/-- The `while` loop of `i2c_get_impl`. `bus k` is the outcome of attempt
`k + 1`; `fuel` bounds the number of iterations. -/
def i2c_get_loop (bus : Nat → ReadOutcome) (index : Nat) (validate : Bool) :
    Nat → GetState → Option GetState
  | 0, _ => none
  | fuel + 1, s =>
    if s.attempts < I2C_READ_MAX_ATTEMPTS ∧
        s.same_value_count < (if validate then I2C_READ_VALIDATE_COUNT else 1) then
      let attempts := s.attempts + 1
      match bus s.attempts with
      | .lock_failed =>
        i2c_get_loop bus index validate fuel
          { s with attempts := attempts
                   trace := s.trace ++ [.lock_file false, .usleep 1000] }
      | .ioctl_failed stale =>
        let tr := s.trace ++ [.lock_file true, .ioctl_read index false, .unlock_file, .usleep 1000]
        if validate then
          i2c_get_loop bus index validate fuel { s with attempts := attempts, trace := tr }
        else
          -- no `continue`: the code goes on with the unwritten `read_buffer`
          some { s with attempts := attempts
                        value := (stale : Int)
                        trace := tr ++ [.unlock_file] }
      | .ioctl_ok current_read_value =>
        let tr := s.trace ++ [.lock_file true, .ioctl_read index true, .unlock_file]
        if validate then
          let last_read_value :=
            if attempts = 1 then current_read_value
            else if current_read_value = s.last_read_value then s.last_read_value
            else current_read_value
          let same_value_count :=
            if attempts = 1 then 1
            else if current_read_value = s.last_read_value then s.same_value_count + 1
            else 1
          if same_value_count ≥ I2C_READ_VALIDATE_COUNT then
            some { attempts := attempts
                   same_value_count := same_value_count
                   last_read_value := last_read_value
                   value := (current_read_value : Int)
                   trace := tr }
          else
            i2c_get_loop bus index validate fuel
              { attempts := attempts
                same_value_count := same_value_count
                last_read_value := last_read_value
                value := s.value
                trace := tr }
        else
          some { s with attempts := attempts
                        value := (current_read_value : Int)
                        trace := tr }
    else some s

/-- The outcome of `i2c_get_impl`: the returned value, the number of attempts
made and the trace of operating-system calls. -/
structure GetResult where
  value : Int
  attempts : Nat
  trace : List Event
  deriving DecidableEq, Repr

/-- The function `i2c_get_impl(i2c_dev, index, validate)`. `dev_open` is what
`open_i2c_device()` returns if it is called. The loop leaves after at most
`I2C_READ_MAX_ATTEMPTS` iterations; one more unit of fuel lets it evaluate
the loop condition a last time. -/
def i2c_get_impl (dev_open : Int) (bus : Nat → ReadOutcome) (i2c_dev : Int) (index : Nat)
    (validate : Bool) : Option GetResult :=
  if i2c_dev < 0 ∧ dev_open < 0 then
    some { value := -1, attempts := 0, trace := [.open_device false] }
  else
    let need_to_close : Bool := decide (i2c_dev < 0)
    let s0 : GetState :=
      { attempts := 0
        same_value_count := 0
        last_read_value := 0
        value := -1
        trace := if need_to_close then [.open_device true] else [] }
    match i2c_get_loop bus index validate (I2C_READ_MAX_ATTEMPTS + 1) s0 with
    | none => none
    | some s =>
      let value : Int :=
        if s.attempts ≥ I2C_READ_MAX_ATTEMPTS ∧
            (validate = true ∧ s.same_value_count < I2C_READ_VALIDATE_COUNT) then -1
        else s.value
      some { value := value
             attempts := s.attempts
             trace := s.trace ++ (if need_to_close then [.close_device] else []) }

/-- What `i2c_read_stream_util` leaves behind: the returned length, the buffer,
the bytes it stored into `buf[0]`, `buf[1]`, ... in this order, and the trace. -/
structure StreamResult where
  len : Int
  buf : List Nat
  stored : List Nat
  trace : List Event
  deriving DecidableEq, Repr

/-- The `for` loop of `i2c_read_stream_util`, from index `i` on. `pos` is the
number of bus attempts used up by the reads before. The result is the final
value of `i`, the buffer, the bytes stored and the trace. -/
def i2c_read_stream_loop (dev_open : Int) (bus : Nat → ReadOutcome) (i2c_dev : Int)
    (index : Nat) (size : Int) (expected : Nat) :
    Nat → Nat → Nat → List Nat → List Nat → List Event →
      Option (Nat × List Nat × List Nat × List Event)
  | 0, _, _, _, _, _ => none
  | fuel + 1, i, pos, buf, stored, tr =>
    if (i : Int) < size then
      match i2c_get_impl dev_open (fun k => bus (pos + k)) i2c_dev index false with
      | none => none
      | some r =>
        let byte := (r.value % 256).toNat
        let buf := buf.set i byte
        if byte = expected then some (i, buf, stored ++ [byte], tr ++ r.trace)
        else
          i2c_read_stream_loop dev_open bus i2c_dev index size expected fuel (i + 1)
            (pos + r.attempts) buf (stored ++ [byte]) (tr ++ r.trace)
    else some (i, buf, stored, tr)

/-- The function `i2c_read_stream_util(i2c_dev, index, buf, size, expected)`. The loop runs
at most `size` times; one more unit of fuel lets it evaluate its condition a
last time. -/
def i2c_read_stream_util (dev_open : Int) (bus : Nat → ReadOutcome) (i2c_dev : Int)
    (index : Nat) (buf : List Nat) (size : Int) (expected : Nat) : Option StreamResult :=
  if i2c_dev < 0 ∧ dev_open < 0 then
    some { len := -1, buf := buf, stored := [], trace := [.open_device false] }
  else
    let need_to_close : Bool := decide (i2c_dev < 0)
    let i2c_dev : Int := if need_to_close then dev_open else i2c_dev
    match i2c_read_stream_loop dev_open bus i2c_dev index size expected (size.toNat + 1) 0 0 buf []
        (if need_to_close then [.open_device true] else []) with
    | none => none
    | some (i, buf, stored, tr) =>
      some { len := (i : Int) + 1
             buf := buf
             stored := stored
             trace := tr ++ (if need_to_close then [.close_device] else []) }

/-- What the environment does in one attempt of `i2c_set_impl`. -/
inductive WriteOutcome where
  /-- The call `lock_file()` returns a negative descriptor. -/
  | lock_failed
  /-- The lock is taken and the write `ioctl` fails. -/
  | write_failed
  /-- The write `ioctl` succeeds; the read-back `ioctl`, if issued, fails. -/
  | readback_failed
  /-- The write `ioctl` succeeds; the read-back `ioctl`, if issued, delivers `b`. -/
  | readback (b : Nat)
  deriving DecidableEq, Repr

/-- The local variables of `i2c_set_impl` and the trace so far. -/
structure SetState where
  attempts : Nat
  success : Bool
  trace : List Event
  deriving DecidableEq, Repr

/-- The `while (true)` loop of `i2c_set_impl`. `bus k` is the outcome of attempt
`k + 1`; `fuel` bounds the number of iterations. -/
def i2c_set_loop (bus : Nat → WriteOutcome) (index value : Nat) (validate : Bool) :
    Nat → SetState → Option SetState
  | 0, _ => none
  | fuel + 1, s =>
    let attempts := s.attempts + 1
    if attempts > I2C_WRITE_MAX_ATTEMPTS then
      some { attempts := attempts, success := false, trace := s.trace }
    else
      match bus s.attempts with
      | .lock_failed =>
        i2c_set_loop bus index value validate fuel
          { attempts := attempts
            success := false
            trace := s.trace ++ [.lock_file false, .usleep 1000] }
      | .write_failed =>
        let tr := s.trace ++ [.lock_file true, .ioctl_write index value false, .unlock_file]
        if !validate then some { attempts := attempts, success := false, trace := tr }
        else
          i2c_set_loop bus index value validate fuel
            { attempts := attempts, success := false, trace := tr }
      | .readback_failed =>
        if !validate then
          some { attempts := attempts
                 success := s.success
                 trace := s.trace ++
                   [.lock_file true, .ioctl_write index value true, .unlock_file] }
        else
          i2c_set_loop bus index value validate fuel
            { attempts := attempts
              success := false
              trace := s.trace ++
                [.lock_file true, .ioctl_write index value true,
                 .usleep I2C_WRITE_VALIDATE_DELAY_US, .ioctl_read index false, .unlock_file] }
      | .readback b =>
        if !validate then
          some { attempts := attempts
                 success := s.success
                 trace := s.trace ++
                   [.lock_file true, .ioctl_write index value true, .unlock_file] }
        else
          let tr := s.trace ++
            [.lock_file true, .ioctl_write index value true,
             .usleep I2C_WRITE_VALIDATE_DELAY_US, .ioctl_read index true, .unlock_file]
          if b = value then some { attempts := attempts, success := true, trace := tr }
          else
            i2c_set_loop bus index value validate fuel
              { attempts := attempts, success := s.success, trace := tr }

/-- The outcome of `i2c_set_impl`: the returned flag and the trace of
operating-system calls. -/
structure SetResult where
  success : Bool
  trace : List Event
  deriving DecidableEq, Repr

/-- The function `i2c_set_impl(i2c_dev, index, value, validate)`. `dev_open` is what
`open_i2c_device()` returns if it is called. The loop gives up in iteration
`I2C_WRITE_MAX_ATTEMPTS + 1` at the latest. -/
def i2c_set_impl (dev_open : Int) (bus : Nat → WriteOutcome) (i2c_dev : Int)
    (index value : Nat) (validate : Bool) : Option SetResult :=
  if i2c_dev < 0 ∧ dev_open < 0 then
    some { success := false, trace := [.open_device false] }
  else
    let need_to_close : Bool := decide (i2c_dev < 0)
    let s0 : SetState :=
      { attempts := 0
        success := true
        trace := if need_to_close then [.open_device true] else [] }
    match i2c_set_loop bus index value validate (I2C_WRITE_MAX_ATTEMPTS + 1) s0 with
    | none => none
    | some s =>
      some { success := s.success
             trace := s.trace ++ (if need_to_close then [.close_device] else []) }

/-! ## Register map (`wp5lib.h`) -/

/-- The register `I2C_FW_ID`: Firmware id. -/
def I2C_FW_ID : Nat := 0
/-- The register `I2C_FW_VERSION_MAJOR`: Firmware major version. -/
def I2C_FW_VERSION_MAJOR : Nat := 1
/-- The register `I2C_FW_VERSION_MINOR`: Firmware minor version (x100). -/
def I2C_FW_VERSION_MINOR : Nat := 2
/-- The register `I2C_VUSB_MV_MSB`: Most significant byte of Vusb (unit: mV). -/
def I2C_VUSB_MV_MSB : Nat := 3
/-- The register `I2C_VUSB_MV_LSB`: Least significant byte of Vusb (unit: mV). -/
def I2C_VUSB_MV_LSB : Nat := 4
/-- The register `I2C_VIN_MV_MSB`: Most significant byte of Vin (unit: mV). -/
def I2C_VIN_MV_MSB : Nat := 5
/-- The register `I2C_VIN_MV_LSB`: Least significant byte of Vin (unit: mV). -/
def I2C_VIN_MV_LSB : Nat := 6
/-- The register `I2C_VOUT_MV_MSB`: Most significant byte of Vout (unit: mV). -/
def I2C_VOUT_MV_MSB : Nat := 7
/-- The register `I2C_VOUT_MV_LSB`: Least significant byte of Vout (unit: mV). -/
def I2C_VOUT_MV_LSB : Nat := 8
/-- The register `I2C_IOUT_MA_MSB`: Most significant byte of Iout (unit: mA). -/
def I2C_IOUT_MA_MSB : Nat := 9
/-- The register `I2C_IOUT_MA_LSB`: Least significant byte of Iout (unit: mA). -/
def I2C_IOUT_MA_LSB : Nat := 10
/-- The register `I2C_POWER_MODE`: Power mode: 0=via Vusb, 1=via Vin. -/
def I2C_POWER_MODE : Nat := 11
/-- The register `I2C_MISSED_HEARTBEAT`: Missed heartbeat count. -/
def I2C_MISSED_HEARTBEAT : Nat := 12
/-- The register `I2C_RPI_STATE`: Current Raspberry Pi state: 0=OFF, 1=STARTING, 2=ON, 3=STOPPING. -/
def I2C_RPI_STATE : Nat := 13
/-- The register `I2C_ACTION_REASON`: The latest action reason (see ACTION_REASON_???). Higher 4 bits for startup and lower 4 bits for shutdown. -/
def I2C_ACTION_REASON : Nat := 14
/-- The register `I2C_MISC`: Miscellaneous state: b0-schedule script in use. -/
def I2C_MISC : Nat := 15
/-- The range marker `I2C_CONF_FIRST`. -/
def I2C_CONF_FIRST : Nat := 16
/-- The register `I2C_CONF_ADDRESS`: I2C slave address: defaul=0x51. -/
def I2C_CONF_ADDRESS : Nat := 16
/-- The register `I2C_CONF_DEFAULT_ON_DELAY`: The delay (in second) between power connection and turning on Pi: default=255(off). -/
def I2C_CONF_DEFAULT_ON_DELAY : Nat := 17
/-- The register `I2C_CONF_POWER_CUT_DELAY`: The delay (in second) between Pi shutdown and power cut: default=15. -/
def I2C_CONF_POWER_CUT_DELAY : Nat := 18
/-- The register `I2C_CONF_PULSE_INTERVAL`: Pulse interval in seconds, for LED and dummy load: default=5. -/
def I2C_CONF_PULSE_INTERVAL : Nat := 19
/-- The register `I2C_CONF_BLINK_LED`: How long the white LED should stay on (in ms), 0 if white LED should not blink. -/
def I2C_CONF_BLINK_LED : Nat := 20
/-- The register `I2C_CONF_DUMMY_LOAD`: How long the dummy load should be applied (in ms), 0 if dummy load is off. -/
def I2C_CONF_DUMMY_LOAD : Nat := 21
/-- The register `I2C_CONF_LOW_VOLTAGE`: Low voltage threshold (x10), 0=disabled. -/
def I2C_CONF_LOW_VOLTAGE : Nat := 22
/-- The register `I2C_CONF_RECOVERY_VOLTAGE`: Voltage (x10) that triggers recovery, 0=disabled. -/
def I2C_CONF_RECOVERY_VOLTAGE : Nat := 23
/-- The register `I2C_CONF_PS_PRIORITY`: Power source priority, 0=Vusb first, 1=Vin first. -/
def I2C_CONF_PS_PRIORITY : Nat := 24
/-- The register `I2C_CONF_ADJ_VUSB`: Adjustment for measured Vusb (x100), range from -127 to 127. -/
def I2C_CONF_ADJ_VUSB : Nat := 25
/-- The register `I2C_CONF_ADJ_VIN`: Adjustment for measured Vin (x100), range from -127 to 127. -/
def I2C_CONF_ADJ_VIN : Nat := 26
/-- The register `I2C_CONF_ADJ_VOUT`: Adjustment for measured Vout (x100), range from -127 to 127. -/
def I2C_CONF_ADJ_VOUT : Nat := 27
/-- The register `I2C_CONF_ADJ_IOUT`: Adjustment for measured Iout (x1000), range from -127 to 127. -/
def I2C_CONF_ADJ_IOUT : Nat := 28
/-- The register `I2C_CONF_WATCHDOG`: Allowed missing heartbeats before power cycle by watchdog, default=0(disable watchdog). -/
def I2C_CONF_WATCHDOG : Nat := 29
/-- The register `I2C_CONF_LOG_TO_FILE`: Whether to write log into file: 1=allowed, 0=not allowed. -/
def I2C_CONF_LOG_TO_FILE : Nat := 30
/-- The register `I2C_CONF_BOOTSEL_FTY_RST`: Whether to allow long press BOOTSEL and then click button for factory reset: 1=allowed, 0=not allowed. -/
def I2C_CONF_BOOTSEL_FTY_RST : Nat := 31
/-- The register `I2C_CONF_ALARM1_SECOND`: Second register for startup alarm (BCD format). -/
def I2C_CONF_ALARM1_SECOND : Nat := 32
/-- The register `I2C_CONF_ALARM1_MINUTE`: Minute register for startup alarm (BCD format). -/
def I2C_CONF_ALARM1_MINUTE : Nat := 33
/-- The register `I2C_CONF_ALARM1_HOUR`: Hour register for startup alarm (BCD format). -/
def I2C_CONF_ALARM1_HOUR : Nat := 34
/-- The register `I2C_CONF_ALARM1_DAY`: Day register for startup alarm (BCD format). -/
def I2C_CONF_ALARM1_DAY : Nat := 35
/-- The register `I2C_CONF_ALARM2_SECOND`: Second register for shutdown alarm (BCD format). -/
def I2C_CONF_ALARM2_SECOND : Nat := 36
/-- The register `I2C_CONF_ALARM2_MINUTE`: Minute register for shutdown alarm (BCD format). -/
def I2C_CONF_ALARM2_MINUTE : Nat := 37
/-- The register `I2C_CONF_ALARM2_HOUR`: Hour register for shutdown alarm (BCD format). -/
def I2C_CONF_ALARM2_HOUR : Nat := 38
/-- The register `I2C_CONF_ALARM2_DAY`: Day register for shutdown alarm (BCD format). -/
def I2C_CONF_ALARM2_DAY : Nat := 39
/-- The register `I2C_CONF_BELOW_TEMP_ACTION`: Action for below temperature: 0-do nothing; 1-startup; 2-shutdown. -/
def I2C_CONF_BELOW_TEMP_ACTION : Nat := 40
/-- The register `I2C_CONF_BELOW_TEMP_POINT`: Set point for below temperature (signed degrees of Celsius). -/
def I2C_CONF_BELOW_TEMP_POINT : Nat := 41
/-- The register `I2C_CONF_OVER_TEMP_ACTION`: Action for over temperature: 0-do nothing; 1-startup; 2-shutdown. -/
def I2C_CONF_OVER_TEMP_ACTION : Nat := 42
/-- The register `I2C_CONF_OVER_TEMP_POINT`: Set point for over temperature (signed degrees of Celsius). -/
def I2C_CONF_OVER_TEMP_POINT : Nat := 43
/-- The register `I2C_CONF_DST_OFFSET`: b7=mode; b6~b0: DST offset in minute, default=0(disable DST). -/
def I2C_CONF_DST_OFFSET : Nat := 44
/-- The register `I2C_CONF_DST_BEGIN_MON`: DST begin month in BCD format. -/
def I2C_CONF_DST_BEGIN_MON : Nat := 45
/-- The register `I2C_CONF_DST_BEGIN_DAY`: mode=0: b7~b4=week in BCD, b3~b0=day in BCD; mode=1: b7~b0=date in BCD. -/
def I2C_CONF_DST_BEGIN_DAY : Nat := 46
/-- The register `I2C_CONF_DST_BEGIN_HOUR`: DST begin hour in BCD format. -/
def I2C_CONF_DST_BEGIN_HOUR : Nat := 47
/-- The register `I2C_CONF_DST_BEGIN_MIN`: DST begin minute in BCD format. -/
def I2C_CONF_DST_BEGIN_MIN : Nat := 48
/-- The register `I2C_CONF_DST_END_MON`: DST end month in BCD format. -/
def I2C_CONF_DST_END_MON : Nat := 49
/-- The register `I2C_CONF_DST_END_DAY`: mode=0: b7~b4=week in BCD, b3~b0=day in BCD; mode=1: b7~b0=date in BCD. -/
def I2C_CONF_DST_END_DAY : Nat := 50
/-- The register `I2C_CONF_DST_END_HOUR`: DST end hour in BCD format. -/
def I2C_CONF_DST_END_HOUR : Nat := 51
/-- The register `I2C_CONF_DST_END_MIN`: DST end minute in BCD format. -/
def I2C_CONF_DST_END_MIN : Nat := 52
/-- The register `I2C_CONF_DST_APPLIED`: Whether DST has been applied. -/
def I2C_CONF_DST_APPLIED : Nat := 53
/-- The register `I2C_CONF_SYS_CLOCK_MHZ`: System clock (in MHz) for RP2350: default=48 (required for USB drive and USB-uart). -/
def I2C_CONF_SYS_CLOCK_MHZ : Nat := 54
/-- The range marker `I2C_CONF_LAST`. -/
def I2C_CONF_LAST : Nat := 63
/-- The range marker `I2C_ADMIN_FIRST`. -/
def I2C_ADMIN_FIRST : Nat := 64
/-- The register `I2C_ADMIN_DIR`: Register to specify directory. -/
def I2C_ADMIN_DIR : Nat := 64
/-- The register `I2C_ADMIN_CONTEXT`: Register to provide extra context. -/
def I2C_ADMIN_CONTEXT : Nat := 65
/-- The register `I2C_ADMIN_DOWNLOAD`: Register to provide download stream. -/
def I2C_ADMIN_DOWNLOAD : Nat := 66
/-- The register `I2C_ADMIN_UPLOAD`: Register to provide upload stream. -/
def I2C_ADMIN_UPLOAD : Nat := 67
/-- The register `I2C_ADMIN_PASSWORD`: Password for administrative command, will be cleared automatically after running the command. -/
def I2C_ADMIN_PASSWORD : Nat := 68
/-- The register `I2C_ADMIN_COMMAND`: Administrative command to run, will be cleared automatically after running the command. -/
def I2C_ADMIN_COMMAND : Nat := 69
/-- The register `I2C_ADMIN_HEARTBEAT`: Heartbeat register for watchdog. -/
def I2C_ADMIN_HEARTBEAT : Nat := 70
/-- The register `I2C_ADMIN_SHUTDOWN`: Register for shutdown request. -/
def I2C_ADMIN_SHUTDOWN : Nat := 71
/-- The range marker `I2C_ADMIN_LAST`. -/
def I2C_ADMIN_LAST : Nat := 79
/-- The range marker `I2C_VREG_FIRST`. -/
def I2C_VREG_FIRST : Nat := 80
/-- The register `I2C_VREG_RX8025_SEC`: Second in RTC time (0~59). -/
def I2C_VREG_RX8025_SEC : Nat := 80
/-- The register `I2C_VREG_RX8025_MIN`: Minute in RTC time (0~59). -/
def I2C_VREG_RX8025_MIN : Nat := 81
/-- The register `I2C_VREG_RX8025_HOUR`: Hour in RTC time (0~23). -/
def I2C_VREG_RX8025_HOUR : Nat := 82
/-- The register `I2C_VREG_RX8025_WEEKDAY`: Weekday in RTC time (0~6). -/
def I2C_VREG_RX8025_WEEKDAY : Nat := 83
/-- The register `I2C_VREG_RX8025_DAY`: Date in RTC time (1~28/29/30/31). -/
def I2C_VREG_RX8025_DAY : Nat := 84
/-- The register `I2C_VREG_RX8025_MONTH`: Month in RTC time (1~12). -/
def I2C_VREG_RX8025_MONTH : Nat := 85
/-- The register `I2C_VREG_RX8025_YEAR`: Year in RTC time (0~99). -/
def I2C_VREG_RX8025_YEAR : Nat := 86
/-- The register `I2C_VREG_RX8025_RAM`: RTC RAM register. -/
def I2C_VREG_RX8025_RAM : Nat := 87
/-- The register `I2C_VREG_RX8025_MIN_ALARM`: RTC minute alarm register. -/
def I2C_VREG_RX8025_MIN_ALARM : Nat := 88
/-- The register `I2C_VREG_RX8025_HOUR_ALARM`: RTC hour alarm register. -/
def I2C_VREG_RX8025_HOUR_ALARM : Nat := 89
/-- The register `I2C_VREG_RX8025_DAY_ALARM`: RTC day alarm register. -/
def I2C_VREG_RX8025_DAY_ALARM : Nat := 90
/-- The register `I2C_VREG_RX8025_TIMER_COUNTER0`: RTC timer Counter 0. -/
def I2C_VREG_RX8025_TIMER_COUNTER0 : Nat := 91
/-- The register `I2C_VREG_RX8025_TIMER_COUNTER1`: RTC timer Counter 1. -/
def I2C_VREG_RX8025_TIMER_COUNTER1 : Nat := 92
/-- The register `I2C_VREG_RX8025_EXTENSION_REGISTER`: RTC extension register. -/
def I2C_VREG_RX8025_EXTENSION_REGISTER : Nat := 93
/-- The register `I2C_VREG_RX8025_FLAG_REGISTER`: RTC flag register. -/
def I2C_VREG_RX8025_FLAG_REGISTER : Nat := 94
/-- The register `I2C_VREG_RX8025_CONTROL_REGISTER`: RTC control register. -/
def I2C_VREG_RX8025_CONTROL_REGISTER : Nat := 95
/-- The register `I2C_VREG_TMP112_TEMP_MSB`: MSB of temperature. -/
def I2C_VREG_TMP112_TEMP_MSB : Nat := 96
/-- The register `I2C_VREG_TMP112_TEMP_LSB`: LSB of temperature. -/
def I2C_VREG_TMP112_TEMP_LSB : Nat := 97
/-- The register `I2C_VREG_TMP112_CONF_MSB`: MSB of configuration. -/
def I2C_VREG_TMP112_CONF_MSB : Nat := 98
/-- The register `I2C_VREG_TMP112_CONF_LSB`: LSB of configuration. -/
def I2C_VREG_TMP112_CONF_LSB : Nat := 99
/-- The register `I2C_VREG_TMP112_TLOW_MSB`: MSB of low-temperature threshold. -/
def I2C_VREG_TMP112_TLOW_MSB : Nat := 100
/-- The register `I2C_VREG_TMP112_TLOW_LSB`: LSB of low-temperature threshold. -/
def I2C_VREG_TMP112_TLOW_LSB : Nat := 101
/-- The register `I2C_VREG_TMP112_THIGH_MSB`: MSB of high-temperature threshold. -/
def I2C_VREG_TMP112_THIGH_MSB : Nat := 102
/-- The register `I2C_VREG_TMP112_THIGH_LSB`: LSB of high-temperature threshold. -/
def I2C_VREG_TMP112_THIGH_LSB : Nat := 103
/-- The range marker `I2C_VREG_LAST`. -/
def I2C_VREG_LAST : Nat := 103

/-- The read-only registers, in the order of the header. -/
def read_only_registers : List Nat :=
  [I2C_FW_ID, I2C_FW_VERSION_MAJOR, I2C_FW_VERSION_MINOR,
   I2C_VUSB_MV_MSB, I2C_VUSB_MV_LSB, I2C_VIN_MV_MSB,
   I2C_VIN_MV_LSB, I2C_VOUT_MV_MSB, I2C_VOUT_MV_LSB,
   I2C_IOUT_MA_MSB, I2C_IOUT_MA_LSB, I2C_POWER_MODE,
   I2C_MISSED_HEARTBEAT, I2C_RPI_STATE, I2C_ACTION_REASON,
   I2C_MISC]

/-- The registers named `I2C_CONF_*`, without the two range markers. -/
def conf_registers : List Nat :=
  [I2C_CONF_ADDRESS, I2C_CONF_DEFAULT_ON_DELAY, I2C_CONF_POWER_CUT_DELAY,
   I2C_CONF_PULSE_INTERVAL, I2C_CONF_BLINK_LED, I2C_CONF_DUMMY_LOAD,
   I2C_CONF_LOW_VOLTAGE, I2C_CONF_RECOVERY_VOLTAGE, I2C_CONF_PS_PRIORITY,
   I2C_CONF_ADJ_VUSB, I2C_CONF_ADJ_VIN, I2C_CONF_ADJ_VOUT,
   I2C_CONF_ADJ_IOUT, I2C_CONF_WATCHDOG, I2C_CONF_LOG_TO_FILE,
   I2C_CONF_BOOTSEL_FTY_RST, I2C_CONF_ALARM1_SECOND, I2C_CONF_ALARM1_MINUTE,
   I2C_CONF_ALARM1_HOUR, I2C_CONF_ALARM1_DAY, I2C_CONF_ALARM2_SECOND,
   I2C_CONF_ALARM2_MINUTE, I2C_CONF_ALARM2_HOUR, I2C_CONF_ALARM2_DAY,
   I2C_CONF_BELOW_TEMP_ACTION, I2C_CONF_BELOW_TEMP_POINT, I2C_CONF_OVER_TEMP_ACTION,
   I2C_CONF_OVER_TEMP_POINT, I2C_CONF_DST_OFFSET, I2C_CONF_DST_BEGIN_MON,
   I2C_CONF_DST_BEGIN_DAY, I2C_CONF_DST_BEGIN_HOUR, I2C_CONF_DST_BEGIN_MIN,
   I2C_CONF_DST_END_MON, I2C_CONF_DST_END_DAY, I2C_CONF_DST_END_HOUR,
   I2C_CONF_DST_END_MIN, I2C_CONF_DST_APPLIED, I2C_CONF_SYS_CLOCK_MHZ]

/-- The registers named `I2C_ADMIN_*`, without the two range markers. -/
def admin_registers : List Nat :=
  [I2C_ADMIN_DIR, I2C_ADMIN_CONTEXT, I2C_ADMIN_DOWNLOAD,
   I2C_ADMIN_UPLOAD, I2C_ADMIN_PASSWORD, I2C_ADMIN_COMMAND,
   I2C_ADMIN_HEARTBEAT, I2C_ADMIN_SHUTDOWN]

/-- The registers named `I2C_VREG_*`, without the two range markers. -/
def vreg_registers : List Nat :=
  [I2C_VREG_RX8025_SEC, I2C_VREG_RX8025_MIN, I2C_VREG_RX8025_HOUR,
   I2C_VREG_RX8025_WEEKDAY, I2C_VREG_RX8025_DAY, I2C_VREG_RX8025_MONTH,
   I2C_VREG_RX8025_YEAR, I2C_VREG_RX8025_RAM, I2C_VREG_RX8025_MIN_ALARM,
   I2C_VREG_RX8025_HOUR_ALARM, I2C_VREG_RX8025_DAY_ALARM, I2C_VREG_RX8025_TIMER_COUNTER0,
   I2C_VREG_RX8025_TIMER_COUNTER1, I2C_VREG_RX8025_EXTENSION_REGISTER, I2C_VREG_RX8025_FLAG_REGISTER,
   I2C_VREG_RX8025_CONTROL_REGISTER, I2C_VREG_TMP112_TEMP_MSB, I2C_VREG_TMP112_TEMP_LSB,
   I2C_VREG_TMP112_CONF_MSB, I2C_VREG_TMP112_CONF_LSB, I2C_VREG_TMP112_TLOW_MSB,
   I2C_VREG_TMP112_TLOW_LSB, I2C_VREG_TMP112_THIGH_MSB, I2C_VREG_TMP112_THIGH_LSB]

/-- The firmware id `FW_ID_WITTYPI_5`. -/
def FW_ID_WITTYPI_5 : Int := 0x51
/-- The firmware id `FW_ID_WITTYPI_5_MINI`. -/
def FW_ID_WITTYPI_5_MINI : Int := 0x52
/-- The firmware id `FW_ID_WITTYPI_5_L3V7`. -/
def FW_ID_WITTYPI_5_L3V7 : Int := 0x53
/-- The model number `MODEL_UNKNOWN`. -/
def MODEL_UNKNOWN : Int := 0
/-- The model number `MODEL_WITTYPI_5`. -/
def MODEL_WITTYPI_5 : Int := 1
/-- The model number `MODEL_WITTYPI_5_MINI`. -/
def MODEL_WITTYPI_5_MINI : Int := 2
/-- The model number `MODEL_WITTYPI_5_L3V7`. -/
def MODEL_WITTYPI_5_L3V7 : Int := 3
/-- The number of entries of the table `wittypi_models`. -/
def wittypi_models_count : Int := 4

/-! ## Callers of the transaction engine (`wp5lib.c`) -/

/-- The environment of a function that reads several registers: the outcome of
bus attempt number `pos` (counted from 0 over the whole call) when it asks for
register `index`. -/
abbrev ReadEnv := Nat → Nat → ReadOutcome

/-- The environment of a function that writes several registers: the outcome of
bus attempt number `pos` (counted from 0 over the whole call) when it writes
`value` to register `index`. -/
abbrev WriteEnv := Nat → Nat → Nat → WriteOutcome

/-- The function `i2c_get(i2c_dev, index)`: the validated read. -/
def i2c_get (dev_open : Int) (bus : Nat → ReadOutcome) (i2c_dev : Int) (index : Nat) :
    Option GetResult :=
  i2c_get_impl dev_open bus i2c_dev index true

/-- The function `i2c_set(i2c_dev, index, value)`: the validated write. -/
def i2c_set (dev_open : Int) (bus : Nat → WriteOutcome) (i2c_dev : Int) (index value : Nat) :
    Option SetResult :=
  i2c_set_impl dev_open bus i2c_dev index value true

/-- The number of bus attempts a call of `i2c_set_impl` has used: every attempt
starts with one call of `lock_file`. -/
def set_attempts (r : SetResult) : Nat := lock_calls r.trace

/-- What `i2c_write_stream_util` leaves behind: the returned length, the bytes it
handed to `i2c_set_impl` in this order, and the trace. -/
structure WriteStreamResult where
  len : Int
  written : List Nat
  trace : List Event
  deriving DecidableEq, Repr

/-- The `for` loop of `i2c_write_stream_util`, from index `i` on. `pos` is the
number of bus attempts used up by the writes before. The result is the final
value of `i`, the bytes written and the trace. The value of a `bool` compared
with -1 is the `int` 0 or 1. -/
def i2c_write_stream_loop (dev_open : Int) (env : WriteEnv) (i2c_dev : Int) (index : Nat)
    (buf : List Nat) (size : Int) (expected : Nat) :
    Nat → Nat → Nat → List Nat → List Event → Option (Int × List Nat × List Event)
  | 0, _, _, _, _ => none
  | fuel + 1, i, pos, written, tr =>
    if (i : Int) < size then
      match i2c_set_impl dev_open (fun k => env (pos + k) index (buf.getD i 0)) i2c_dev index
          (buf.getD i 0) false with
      | none => none
      | some r =>
        let ret : Int := if r.success then 1 else 0
        if (-1 : Int) = ret then
          some (-2, written ++ [buf.getD i 0], tr ++ r.trace)
        else if buf.getD i 0 = expected then
          some ((i : Int), written ++ [buf.getD i 0], tr ++ r.trace)
        else
          i2c_write_stream_loop dev_open env i2c_dev index buf size expected fuel (i + 1)
            (pos + set_attempts r) (written ++ [buf.getD i 0]) (tr ++ r.trace)
    else some ((i : Int), written, tr)

/-- The function `i2c_write_stream_util(i2c_dev, index, buf, size, expected)`. The loop
runs at most `size` times; one more unit of fuel lets it evaluate its
condition a last time. -/
def i2c_write_stream_util (dev_open : Int) (env : WriteEnv) (i2c_dev : Int) (index : Nat)
    (buf : List Nat) (size : Int) (expected : Nat) : Option WriteStreamResult :=
  if i2c_dev < 0 ∧ dev_open < 0 then
    some { len := -1, written := [], trace := [.open_device false] }
  else
    let need_to_close : Bool := decide (i2c_dev < 0)
    let i2c_dev : Int := if need_to_close then dev_open else i2c_dev
    match i2c_write_stream_loop dev_open env i2c_dev index buf size expected (size.toNat + 1) 0 0 []
        (if need_to_close then [.open_device true] else []) with
    | none => none
    | some (i, written, tr) =>
      some { len := i + 1
             written := written
             trace := tr ++ (if need_to_close then [.close_device] else []) }

/-- The function `run_admin_command(psw_cmd)`: the password byte goes to
`I2C_ADMIN_PASSWORD` with validation, the command byte to `I2C_ADMIN_COMMAND`
without; both writes are made whatever the first one returns. -/
def run_admin_command (dev_open : Int) (env : WriteEnv) (psw_cmd : Nat) : Option SetResult :=
  if dev_open < 0 then some { success := false, trace := [.open_device false] }
  else
    let psw := (psw_cmd >>> 8) % 256
    let cmd := (psw_cmd &&& 0xFF) % 256
    match i2c_set dev_open (fun k => env k I2C_ADMIN_PASSWORD psw) dev_open
        I2C_ADMIN_PASSWORD psw with
    | none => none
    | some r1 =>
      match i2c_set_impl dev_open (fun k => env (set_attempts r1 + k) I2C_ADMIN_COMMAND cmd)
          dev_open I2C_ADMIN_COMMAND cmd false with
      | none => none
      | some r2 =>
        some { success := (true && r1.success) && r2.success
               trace := [.open_device true] ++ r1.trace ++ r2.trace ++ [.close_device] }

/-- The events of a trace concern no register but `index`, and every write
carries `value`. -/
def touches_only (index value : Nat) (tr : List Event) : Bool :=
  tr.all (fun e => match e with
    | .ioctl_write i v _ => decide (i = index) && decide (v = value)
    | .ioctl_read i _ => decide (i = index)
    | _ => true)

/-- The structure `DateTime`; `year` is an `int16_t`, the other fields are
`int8_t`. -/
structure DateTime where
  year : Int
  month : Int
  day : Int
  hour : Int
  min : Int
  sec : Int
  wday : Int
  deriving DecidableEq, Repr

/-- The function `is_time_valid(dt)`; a null pointer is `none`. -/
def is_time_valid (dt : Option DateTime) : Bool :=
  match dt with
  | none => false
  | some dt =>
    decide (dt.sec < 60) && decide (dt.min < 60) && decide (dt.hour < 24) &&
      decide (dt.day > 0) && decide (dt.day ≤ 31) && decide (dt.month > 0) &&
      decide (dt.month ≤ 12) && decide (dt.year > 2024)

/-- The ranges the header documents for the fields of a `DateTime`, with the
year floor of `is_time_valid`. -/
def documented_time (dt : DateTime) : Prop :=
  0 ≤ dt.sec ∧ dt.sec ≤ 59 ∧ 0 ≤ dt.min ∧ dt.min ≤ 59 ∧ 0 ≤ dt.hour ∧ dt.hour ≤ 23 ∧
    1 ≤ dt.day ∧ dt.day ≤ 31 ∧ 1 ≤ dt.month ∧ dt.month ≤ 12 ∧ 0 ≤ dt.wday ∧ dt.wday ≤ 6 ∧
    2024 < dt.year ∧ dt.year ≤ 2099

/-- What `get_startup_time` and `get_shutdown_time` leave behind: the returned
flag, the four bytes behind the pointers (`none` for a null pointer) and the
trace. -/
structure AlarmResult where
  ret : Bool
  date : Option Nat
  hour : Option Nat
  minute : Option Nat
  second : Option Nat
  trace : List Event
  deriving DecidableEq, Repr

/-- The common body of `get_startup_time` and `get_shutdown_time`, which differ
in the four registers only. -/
def get_alarm_time (second_reg minute_reg hour_reg day_reg : Nat) (dev_open : Int)
    (env : ReadEnv) (date hour minute second : Option Nat) : Option AlarmResult :=
  if date.isNone ∨ hour.isNone ∨ minute.isNone ∨ second.isNone then
    some { ret := false, date := date, hour := hour, minute := minute, second := second,
           trace := [] }
  else if dev_open < 0 then
    some { ret := false, date := date, hour := hour, minute := minute, second := second,
           trace := [.open_device false] }
  else
    match i2c_get dev_open (fun k => env k second_reg) dev_open second_reg with
    | none => none
    | some r1 =>
      match i2c_get dev_open (fun k => env (r1.attempts + k) minute_reg) dev_open minute_reg with
      | none => none
      | some r2 =>
        match i2c_get dev_open (fun k => env (r1.attempts + r2.attempts + k) hour_reg) dev_open
            hour_reg with
        | none => none
        | some r3 =>
          match i2c_get dev_open
              (fun k => env (r1.attempts + r2.attempts + r3.attempts + k) day_reg) dev_open
              day_reg with
          | none => none
          | some r4 =>
            let sec_val := r1.value
            let min_val := r2.value
            let hour_val := r3.value
            let day_val := r4.value
            let tr := [.open_device true] ++ r1.trace ++ r2.trace ++ r3.trace ++ r4.trace ++
              [.close_device]
            if sec_val < 0 ∨ min_val < 0 ∨ hour_val < 0 ∨ day_val < 0 then
              some { ret := false, date := date, hour := hour, minute := minute,
                     second := second, trace := tr }
            else
              let second' := bcd_to_dec (sec_val % 256).toNat
              let minute' := bcd_to_dec (min_val % 256).toNat
              let hour' := bcd_to_dec (hour_val % 256).toNat
              let date' := bcd_to_dec (day_val % 256).toNat
              some { ret := !(decide (second' > 59 ∨ minute' > 59 ∨ hour' > 23 ∨ date' = 0 ∨
                       date' > 31))
                     date := some date', hour := some hour', minute := some minute',
                     second := some second', trace := tr }

/-- The function `get_startup_time(date, hour, minute, second)`. -/
def get_startup_time (dev_open : Int) (env : ReadEnv) (date hour minute second : Option Nat) :
    Option AlarmResult :=
  get_alarm_time I2C_CONF_ALARM1_SECOND I2C_CONF_ALARM1_MINUTE I2C_CONF_ALARM1_HOUR
    I2C_CONF_ALARM1_DAY dev_open env date hour minute second

/-- The function `get_shutdown_time(date, hour, minute, second)`. -/
def get_shutdown_time (dev_open : Int) (env : ReadEnv) (date hour minute second : Option Nat) :
    Option AlarmResult :=
  get_alarm_time I2C_CONF_ALARM2_SECOND I2C_CONF_ALARM2_MINUTE I2C_CONF_ALARM2_HOUR
    I2C_CONF_ALARM2_DAY dev_open env date hour minute second

/-- The common body of `set_startup_time` and `set_shutdown_time`, which differ
in the four registers only. The arguments are `uint8_t` values. -/
def set_alarm_time (second_reg minute_reg hour_reg day_reg : Nat) (dev_open : Int)
    (env : WriteEnv) (date hour minute second : Nat) : Option SetResult :=
  if date < 1 ∨ date > 31 ∨ hour > 23 ∨ minute > 59 ∨ second > 59 then
    some { success := false, trace := [] }
  else if dev_open < 0 then
    some { success := false, trace := [.open_device false] }
  else
    let bcd_second := dec_to_bcd second
    let bcd_minute := dec_to_bcd minute
    let bcd_hour := dec_to_bcd hour
    let bcd_date := dec_to_bcd date
    match i2c_set dev_open (fun k => env k second_reg bcd_second) dev_open second_reg
        bcd_second with
    | none => none
    | some r1 =>
      match i2c_set dev_open (fun k => env (set_attempts r1 + k) minute_reg bcd_minute) dev_open
          minute_reg bcd_minute with
      | none => none
      | some r2 =>
        match i2c_set dev_open
            (fun k => env (set_attempts r1 + set_attempts r2 + k) hour_reg bcd_hour) dev_open
            hour_reg bcd_hour with
        | none => none
        | some r3 =>
          match i2c_set dev_open
              (fun k => env (set_attempts r1 + set_attempts r2 + set_attempts r3 + k) day_reg
                bcd_date) dev_open day_reg bcd_date with
          | none => none
          | some r4 =>
            some { success := (((true && r1.success) && r2.success) && r3.success) && r4.success
                   trace := [.open_device true] ++ r1.trace ++ r2.trace ++ r3.trace ++
                     r4.trace ++ [.close_device] }

/-- The function `set_startup_time(date, hour, minute, second)`. -/
def set_startup_time (dev_open : Int) (env : WriteEnv) (date hour minute second : Nat) :
    Option SetResult :=
  set_alarm_time I2C_CONF_ALARM1_SECOND I2C_CONF_ALARM1_MINUTE I2C_CONF_ALARM1_HOUR
    I2C_CONF_ALARM1_DAY dev_open env date hour minute second

/-- The function `set_shutdown_time(date, hour, minute, second)`. -/
def set_shutdown_time (dev_open : Int) (env : WriteEnv) (date hour minute second : Nat) :
    Option SetResult :=
  set_alarm_time I2C_CONF_ALARM2_SECOND I2C_CONF_ALARM2_MINUTE I2C_CONF_ALARM2_HOUR
    I2C_CONF_ALARM2_DAY dev_open env date hour minute second

/-- The state of the check of the discipline of the specification: the bus lock
is released, or held with `exchanges` exchanges issued since it was taken. -/
inductive LockState where
  | released
  | held (exchanges : Nat)
  deriving DecidableEq, Repr

/-- One step of the check of the discipline of the specification; `none` is a
violation. The lock is taken only when it is released, an `ioctl` exchange is
issued only while the lock is held and only as the first one since the
acquisition, and no sleep is made while the lock is held. A release of the
released lock changes nothing. -/
def lock_step (st : LockState) (e : Event) : Option LockState :=
  match e, st with
  | .lock_file true, .released => some (.held 0)
  | .lock_file true, .held _ => none
  | .lock_file false, .released => some .released
  | .lock_file false, .held _ => none
  | .unlock_file, _ => some .released
  | .usleep _, .released => some .released
  | .usleep _, .held _ => none
  | .ioctl_write _ _ _, .held 0 => some (.held 1)
  | .ioctl_write _ _ _, _ => none
  | .ioctl_read _ _, .held 0 => some (.held 1)
  | .ioctl_read _ _, _ => none
  | .open_device _, st => some st
  | .close_device, st => some st

/-- The state of the check of the discipline of the validated write: the lock
is released; held with no exchange yet; held after a successful write whose
read-back is outstanding; held after the last exchange of the attempt. -/
inductive VerifyState where
  | released
  | acquired
  | written
  | finished
  deriving DecidableEq, Repr

/-- One step of the check of the discipline of the validated write; `none` is a
violation. The lock is taken only when it is released; the first exchange of
a hold is the write; after a successful write the lock is kept until the
read-back, which is the second and last exchange of the hold; the only sleep
while the lock is held is the delay `I2C_WRITE_VALIDATE_DELAY_US` between
the write and the read-back. -/
def verify_step (st : VerifyState) (e : Event) : Option VerifyState :=
  match e, st with
  | .lock_file true, .released => some .acquired
  | .lock_file true, _ => none
  | .lock_file false, .released => some .released
  | .lock_file false, _ => none
  | .unlock_file, .written => none
  | .unlock_file, _ => some .released
  | .usleep _, .released => some .released
  | .usleep us, .written => if us = I2C_WRITE_VALIDATE_DELAY_US then some .written else none
  | .usleep _, _ => none
  | .ioctl_write _ _ ok, .acquired => some (if ok then .written else .finished)
  | .ioctl_write _ _ _, _ => none
  | .ioctl_read _ _, .written => some .finished
  | .ioctl_read _ _, _ => none
  | .open_device _, st => some st
  | .close_device, st => some st

/-- A check run over a trace, from the state `st` on. -/
def lock_run {σ : Type} (step : σ → Event → Option σ) : σ → List Event → Option σ
  | st, [] => some st
  | st, e :: es =>
    match step st e with
    | none => none
    | some st' => lock_run step st' es

/-- The discipline of the specification: every `ioctl` exchange is issued while
the bus lock is held, at most one between an acquisition and the release, no
sleep is made while the lock is held, and the lock is released at the end. -/
def lock_discipline (tr : List Event) : Bool :=
  decide (lock_run lock_step .released tr = some .released)

/-- The discipline of the validated write: the lock is held over a whole
write-then-verify attempt. Every exchange is issued while the lock is held,
at most two between an acquisition and the release, the write and then its
read-back; the lock is not released between a successful write and its
read-back; the only sleep while the lock is held is the settle delay
`I2C_WRITE_VALIDATE_DELAY_US` between them; the lock is released at the
end. -/
def lock_discipline_validated_write (tr : List Event) : Bool :=
  decide (lock_run verify_step .released tr = some .released)

/-- What `get_wittypi_model` leaves behind: the returned model and the trace. -/
structure ModelResult where
  model : Int
  trace : List Event
  deriving DecidableEq, Repr

/-- The `switch` at the end of `get_wittypi_model`. -/
def model_of_fw_id (fw_id : Int) : Int :=
  if fw_id = FW_ID_WITTYPI_5 then MODEL_WITTYPI_5
  else if fw_id = FW_ID_WITTYPI_5_MINI then MODEL_WITTYPI_5_MINI
  else if fw_id = FW_ID_WITTYPI_5_L3V7 then MODEL_WITTYPI_5_L3V7
  else MODEL_UNKNOWN

/-- The loop `while (fw_id == -1)` of `get_wittypi_model`, entered with its
condition true, and what follows it. `attempts` is the local variable of that
name, `pos` the number of bus attempts used up before. The log mode, which
the function switches off and restores, is not part of the embedding. -/
def get_wittypi_model_loop (dev : Int) (env : ReadEnv) :
    Nat → Nat → Nat → List Event → Option ModelResult
  | 0, _, _, _ => none
  | fuel + 1, attempts, pos, tr =>
    match i2c_get_impl dev (fun k => env (pos + k) I2C_FW_ID) dev I2C_FW_ID false with
    | none => none
    | some r =>
      let fw_id := r.value
      let attempts := attempts + 1
      if attempts ≥ 3 then
        some { model := MODEL_UNKNOWN, trace := tr ++ r.trace }
      else if fw_id = -1 then
        get_wittypi_model_loop dev env fuel attempts (pos + r.attempts)
          (tr ++ r.trace ++ [.usleep 100000])
      else
        some { model := model_of_fw_id fw_id, trace := tr ++ r.trace ++ [.close_device] }

/-- The function `get_wittypi_model()`. The loop returns in its third iteration at the
latest. -/
def get_wittypi_model (dev_open : Int) (env : ReadEnv) : Option ModelResult :=
  if dev_open < 0 then some { model := MODEL_UNKNOWN, trace := [.open_device false] }
  else get_wittypi_model_loop dev_open env 3 0 0 [.open_device true]

/-- The runs of events `i2c_get_impl` can add to its trace in one step. -/
def get_blocks (index : Nat) : List (List Event) :=
  [[.open_device true],
   [.open_device false],
   [.close_device],
   [.lock_file false, .usleep 1000],
   [.lock_file true, .ioctl_read index false, .unlock_file, .usleep 1000],
   [.lock_file true, .ioctl_read index false, .unlock_file, .usleep 1000, .unlock_file],
   [.lock_file true, .ioctl_read index true, .unlock_file]]

/-- The runs of events `i2c_set_impl` can add to its trace in one step. -/
def set_blocks (index value : Nat) (validate : Bool) : List (List Event) :=
  [[.open_device true],
   [.open_device false],
   [.close_device],
   [.lock_file false, .usleep 1000],
   [.lock_file true, .ioctl_write index value false, .unlock_file]] ++
  (if validate then
    [[.lock_file true, .ioctl_write index value true,
      .usleep I2C_WRITE_VALIDATE_DELAY_US, .ioctl_read index false, .unlock_file],
     [.lock_file true, .ioctl_write index value true,
      .usleep I2C_WRITE_VALIDATE_DELAY_US, .ioctl_read index true, .unlock_file]]
  else
    [[.lock_file true, .ioctl_write index value true, .unlock_file]])


/-! ## Reasons and flags (`wp5lib.c`) -/

/-- The constant `ACTION_REASON_UNKNOWN`. -/
def ACTION_REASON_UNKNOWN : Int := 0

/-- What a function that returns an `int` leaves behind: the value and the trace. -/
structure IntResult where
  ret : Int
  trace : List Event
  deriving DecidableEq, Repr

/-- What a function that returns a `bool` leaves behind: the value and the trace. -/
structure BoolResult where
  ret : Bool
  trace : List Event
  deriving DecidableEq, Repr

/-- The function `get_startup_reason()`: `(reg & 0xF0) >> 4` of the validated read of
`I2C_ACTION_REASON`, which is not negative where the expression is evaluated. -/
def get_startup_reason (dev_open : Int) (bus : Nat → ReadOutcome) : Option IntResult :=
  match i2c_get dev_open bus (-1) I2C_ACTION_REASON with
  | none => none
  | some g =>
    let reg := g.value
    if reg < 0 then some { ret := ACTION_REASON_UNKNOWN, trace := g.trace }
    else some { ret := (((reg.toNat &&& 0xF0) >>> 4 : Nat) : Int), trace := g.trace }

/-- The function `get_shutdown_reason()`: `reg & 0x0F` of the validated read of
`I2C_ACTION_REASON`, which is not negative where the expression is evaluated. -/
def get_shutdown_reason (dev_open : Int) (bus : Nat → ReadOutcome) : Option IntResult :=
  match i2c_get dev_open bus (-1) I2C_ACTION_REASON with
  | none => none
  | some g =>
    let reg := g.value
    if reg < 0 then some { ret := ACTION_REASON_UNKNOWN, trace := g.trace }
    else some { ret := ((reg.toNat &&& 0x0F : Nat) : Int), trace := g.trace }

/-- The function `is_script_in_use()`: `misc & 0x01` converted to `bool`. Bit 0 of a
two's-complement `int` is its remainder modulo 2, also for a negative value. -/
def is_script_in_use (dev_open : Int) (bus : Nat → ReadOutcome) : Option BoolResult :=
  match i2c_get dev_open bus (-1) I2C_MISC with
  | none => none
  | some g =>
    let misc := g.value
    some { ret := decide (misc % 2 ≠ 0), trace := g.trace }

/-- A failed attempt of `i2c_get_impl`: no lock, or a failed exchange. -/
def ReadOutcome.failed : ReadOutcome → Bool
  | .lock_failed => true
  | .ioctl_failed _ => true
  | .ioctl_ok _ => false

/-! ## Bus lock: `lock_file` (`wp5lib.c`) -/

/-- The constant `ACQUIRE_I2C_LOCK_MAX_ATTEMPTS`. -/
def ACQUIRE_I2C_LOCK_MAX_ATTEMPTS : Nat := 5
/-- The constant `ACQUIRE_I2C_LOCK_INTERVAL_US`. -/
def ACQUIRE_I2C_LOCK_INTERVAL_US : Nat := 200000

/-- What the operating system answers in one pass of the loop of `lock_file`:
the value `open` returns and the value `flock` returns if it is called. -/
structure LockAnswer where
  fd : Int
  flock : Int
  deriving DecidableEq, Repr

/-- The system calls of `lock_file`, in order. -/
inductive LockEvent where
  | sys_open (fd : Int)
  | sys_flock (fd : Int) (ret : Int)
  | sys_close (fd : Int)
  | sys_usleep (us : Nat)
  deriving DecidableEq, Repr

/-- What `lock_file` leaves behind: the returned descriptor, the final value of
`attempts`, whether it returned through the branch `attempts >= ACQUIRE_I2C_LOCK_MAX_ATTEMPTS`,
and the system calls it made. -/
structure LockResult where
  ret : Int
  attempts : Nat
  gave_up : Bool
  trace : List LockEvent
  deriving DecidableEq, Repr

/-- The loop `while (lock_fd < 0)` of `lock_file`. `os k` is the answer of the
operating system in pass `k + 1`; `fuel` bounds the number of passes. -/
def lock_file_loop (os : Nat → LockAnswer) :
    Nat → Int → Nat → List LockEvent → Option LockResult
  | 0, _, _, _ => none
  | fuel + 1, lock_fd, attempts, tr =>
    if lock_fd < 0 then
      let fd := (os attempts).fd
      let attempts' := attempts + 1
      if fd < 0 then
        some { ret := -1, attempts := attempts', gave_up := false, trace := tr ++ [.sys_open fd] }
      else if (os attempts).flock < 0 then
        let tr' := tr ++ [.sys_open fd, .sys_flock fd (os attempts).flock, .sys_close fd]
        if attempts' ≥ ACQUIRE_I2C_LOCK_MAX_ATTEMPTS then
          some { ret := -1, attempts := attempts', gave_up := true, trace := tr' }
        else
          lock_file_loop os fuel fd attempts' (tr' ++ [.sys_usleep ACQUIRE_I2C_LOCK_INTERVAL_US])
      else
        lock_file_loop os fuel fd attempts'
          (tr ++ [.sys_open fd, .sys_flock fd (os attempts).flock])
    else some { ret := lock_fd, attempts := attempts, gave_up := false, trace := tr }

/-- The function `lock_file()`. A pass either returns or raises `attempts`, and the
pass with `attempts` equal to `ACQUIRE_I2C_LOCK_MAX_ATTEMPTS` returns or
leaves the loop, so that many passes and one more evaluation of the
condition are enough. -/
def lock_file (os : Nat → LockAnswer) : Option LockResult :=
  lock_file_loop os (ACQUIRE_I2C_LOCK_MAX_ATTEMPTS + 1) (-1) 0 []

/-! ## Real-time clock (`wp5lib.c`) -/

/-- The conversion of an `int` to `uint8_t`. -/
def to_uint8 (x : Int) : Nat := (x % 256).toNat

/-- The conversion of a `uint8_t` to `int8_t`. -/
def to_int8 (x : Nat) : Int :=
  if x % 256 < 128 then ((x % 256 : Nat) : Int) else ((x % 256 : Nat) : Int) - 256

/-- The macro `BIT_VALUE(bit)`, `1 << bit`. -/
def BIT_VALUE (bit : Nat) : Nat := 1 <<< bit

/-- The function `system_to_rtc()`. `sys_dt` is what `get_system_time` delivers, `none`
when it returns false. All seven writes are made whatever the earlier ones
return. -/
def system_to_rtc (sys_dt : Option DateTime) (dev_open : Int) (env : WriteEnv) :
    Option SetResult :=
  match sys_dt with
  | none => some { success := false, trace := [] }
  | some sys_dt =>
    if dev_open < 0 then some { success := false, trace := [.open_device false] }
    else do
      let v_sec := dec_to_bcd (to_uint8 sys_dt.sec)
      let v_min := dec_to_bcd (to_uint8 sys_dt.min)
      let v_hour := dec_to_bcd (to_uint8 sys_dt.hour)
      let v_wday := (BIT_VALUE (dec_to_bcd (to_uint8 sys_dt.wday))) % 256
      let v_day := dec_to_bcd (to_uint8 sys_dt.day)
      let v_month := dec_to_bcd (to_uint8 sys_dt.month)
      let v_year := dec_to_bcd (to_uint8 (sys_dt.year - 2000))
      let r1 ← i2c_set dev_open (fun k => env k I2C_VREG_RX8025_SEC v_sec) dev_open
        I2C_VREG_RX8025_SEC v_sec
      let p1 := set_attempts r1
      let r2 ← i2c_set dev_open (fun k => env (p1 + k) I2C_VREG_RX8025_MIN v_min) dev_open
        I2C_VREG_RX8025_MIN v_min
      let p2 := p1 + set_attempts r2
      let r3 ← i2c_set dev_open (fun k => env (p2 + k) I2C_VREG_RX8025_HOUR v_hour) dev_open
        I2C_VREG_RX8025_HOUR v_hour
      let p3 := p2 + set_attempts r3
      let r4 ← i2c_set dev_open (fun k => env (p3 + k) I2C_VREG_RX8025_WEEKDAY v_wday) dev_open
        I2C_VREG_RX8025_WEEKDAY v_wday
      let p4 := p3 + set_attempts r4
      let r5 ← i2c_set dev_open (fun k => env (p4 + k) I2C_VREG_RX8025_DAY v_day) dev_open
        I2C_VREG_RX8025_DAY v_day
      let p5 := p4 + set_attempts r5
      let r6 ← i2c_set dev_open (fun k => env (p5 + k) I2C_VREG_RX8025_MONTH v_month) dev_open
        I2C_VREG_RX8025_MONTH v_month
      let p6 := p5 + set_attempts r6
      let r7 ← i2c_set dev_open (fun k => env (p6 + k) I2C_VREG_RX8025_YEAR v_year) dev_open
        I2C_VREG_RX8025_YEAR v_year
      pure { success := ((((((true && r1.success) && r2.success) && r3.success) && r4.success) &&
               r5.success) && r6.success) && r7.success
             trace := [.open_device true] ++ r1.trace ++ r2.trace ++ r3.trace ++ r4.trace ++
               r5.trace ++ r6.trace ++ r7.trace ++ [.close_device] }

/-- What `get_rtc_time` leaves behind: the returned flag, the `DateTime` behind
the pointer (`none` for a null pointer) and the trace. -/
structure RtcResult where
  ret : Bool
  dt : Option DateTime
  trace : List Event
  deriving DecidableEq, Repr

/-- The function `get_rtc_time(dt)`. The decoded bytes are stored into `int8_t` fields,
the year into an `int16_t` field. -/
def get_rtc_time (dev_open : Int) (env : ReadEnv) (dt : Option DateTime) : Option RtcResult :=
  match dt with
  | none => some { ret := false, dt := none, trace := [] }
  | some dt0 =>
    if dev_open < 0 then some { ret := false, dt := some dt0, trace := [.open_device false] }
    else do
      let r1 ← i2c_get dev_open (fun k => env k I2C_VREG_RX8025_SEC) dev_open I2C_VREG_RX8025_SEC
      let p1 := r1.attempts
      let r2 ← i2c_get dev_open (fun k => env (p1 + k) I2C_VREG_RX8025_MIN) dev_open
        I2C_VREG_RX8025_MIN
      let p2 := p1 + r2.attempts
      let r3 ← i2c_get dev_open (fun k => env (p2 + k) I2C_VREG_RX8025_HOUR) dev_open
        I2C_VREG_RX8025_HOUR
      let p3 := p2 + r3.attempts
      let r4 ← i2c_get dev_open (fun k => env (p3 + k) I2C_VREG_RX8025_WEEKDAY) dev_open
        I2C_VREG_RX8025_WEEKDAY
      let p4 := p3 + r4.attempts
      let r5 ← i2c_get dev_open (fun k => env (p4 + k) I2C_VREG_RX8025_DAY) dev_open
        I2C_VREG_RX8025_DAY
      let p5 := p4 + r5.attempts
      let r6 ← i2c_get dev_open (fun k => env (p5 + k) I2C_VREG_RX8025_MONTH) dev_open
        I2C_VREG_RX8025_MONTH
      let p6 := p5 + r6.attempts
      let r7 ← i2c_get dev_open (fun k => env (p6 + k) I2C_VREG_RX8025_YEAR) dev_open
        I2C_VREG_RX8025_YEAR
      let sec := r1.value
      let min := r2.value
      let hour := r3.value
      let wday := r4.value
      let day := r5.value
      let month := r6.value
      let year := r7.value
      let tr := [.open_device true] ++ r1.trace ++ r2.trace ++ r3.trace ++ r4.trace ++
        r5.trace ++ r6.trace ++ r7.trace ++ [.close_device]
      if sec < 0 ∨ min < 0 ∨ hour < 0 ∨ wday < 0 ∨ day < 0 ∨ month < 0 ∨ year < 0 then
        pure { ret := false, dt := some dt0, trace := tr }
      else
        pure { ret := true
               dt := some
                 { sec := to_int8 (bcd_to_dec (to_uint8 sec))
                   min := to_int8 (bcd_to_dec (to_uint8 min))
                   hour := to_int8 (bcd_to_dec (to_uint8 hour))
                   wday := to_int8 (bcd_to_dec (to_uint8 wday) &&& 0x07)
                   day := to_int8 (bcd_to_dec (to_uint8 day))
                   month := to_int8 (bcd_to_dec (to_uint8 month))
                   year := 2000 + (bcd_to_dec (to_uint8 year) : Int) }
               trace := tr }

/-! ## An ideal register store -/

/-- The registers after the successful write exchanges of a trace. -/
def store_after (regs : Nat → Nat) : List Event → Nat → Nat
  | [] => regs
  | .ioctl_write index value true :: es =>
    store_after (fun i => if i = index then value else regs i) es
  | _ :: es => store_after regs es

/-- The environment of an ideal device for writes: the lock is free, every
exchange succeeds and the register reads back what was written. -/
def ideal_write : WriteEnv := fun _ _ value => .readback value

/-- The environment of an ideal device for reads: the lock is free and every
exchange delivers the stored byte. -/
def ideal_read (regs : Nat → Nat) : ReadEnv := fun _ index => .ioctl_ok (regs index)

/-! ## Daemon main loop (`wp5d.c`) -/

/-- The condition `model != cur_model && model > MODEL_UNKNOWN && model < wittypi_models_count`
of the main loop of the daemon. -/
def daemon_arrival (cur_model model : Int) : Bool :=
  decide (model ≠ cur_model) && decide (model > MODEL_UNKNOWN) &&
    decide (model < wittypi_models_count)

/-- One pass of the main loop of the daemon, as far as `cur_model` goes: the new
value of `cur_model`, and whether the pass ran the block that synchronises the
time and logs the startup reason. -/
def daemon_observe (cur_model model : Int) : Int × Bool :=
  if daemon_arrival cur_model model then (model, true) else (cur_model, false)

/-- The passes of the main loop over a sequence of observed models: the final
`cur_model` and the number of passes that ran the synchronisation block. -/
def daemon_run : Int → List Int → Int × Nat
  | cur_model, [] => (cur_model, 0)
  | cur_model, model :: rest =>
    let step := daemon_observe cur_model model
    let (final, n) := daemon_run step.1 rest
    (final, n + (if step.2 then 1 else 0))

/-! # Theorems -/

/-! ## Buffer lemmas -/

theorem getD_append_cons (l1 l2 : List Nat) (x : Nat) :
    (l1 ++ x :: l2).getD l1.length 0 = x := by
  induction l1 with
  | nil => rfl
  | cons a l ih => simpa using ih

theorem strlen_append_nul (f rest : List Nat) (hnul : ∀ b ∈ f, b ≠ 0) :
    strlen (f ++ 0 :: rest) = f.length := by
  induction f with
  | nil => simp [strlen]
  | cons c cs ih =>
    have hc : c ≠ 0 := hnul c (List.mem_cons_self _ _)
    have hcs : ∀ b ∈ cs, b ≠ 0 := fun b hb => hnul b (List.mem_cons_of_mem _ hb)
    simp [strlen, hc, ih hcs]

theorem read_bytes_succ (c : Nat) (cs : List Nat) (n : Nat) :
    read_bytes (c :: cs) (n + 1) = c :: read_bytes cs n := by
  simp [read_bytes, List.range_succ_eq_map, List.map_map, Function.comp_def]

theorem read_bytes_append_nul (f rest : List Nat) :
    read_bytes (f ++ 0 :: rest) (f.length + 1) = f ++ [0] := by
  induction f with
  | nil => simp [read_bytes, List.range_succ]
  | cons c cs ih =>
    rw [List.cons_append, List.length_cons, read_bytes_succ, ih, List.cons_append]

theorem set_append_cons (l1 l2 : List Nat) (x y k : Nat) (hk : k = l1.length) :
    (l1 ++ x :: l2).set k y = l1 ++ y :: l2 := by
  subst hk
  induction l1 with
  | nil => simp
  | cons a l ih => simp [ih]

theorem buffer_split (out : List Nat) (n : Nat) (h : n + 5 ≤ out.length) :
    ∃ a m b1 b2 b3 t, m.length = n + 1 ∧ out = a :: (m ++ b1 :: b2 :: b3 :: t) := by
  rcases out with _ | ⟨a, o⟩
  · simp at h
  · have ho : n + 4 ≤ o.length := by simpa using h
    have hd : (o.drop (n + 1)).length = o.length - (n + 1) := List.length_drop _ _
    rcases hq : o.drop (n + 1) with _ | ⟨b1, _ | ⟨b2, _ | ⟨b3, t⟩⟩⟩
    · rw [hq] at hd; simp at hd; omega
    · rw [hq] at hd; simp at hd; omega
    · rw [hq] at hd; simp at hd; omega
    · refine ⟨a, o.take (n + 1), b1, b2, b3, t, ?_, ?_⟩
      · simp; omega
      · rw [← hq, List.take_append_drop]

/-- C1: for a non-empty filename `f` without a 0 byte, `pack_filename` returns
true and the output buffer starts with `<`, the bytes of `f`, `|`, the CRC8 of
`<` followed by `f`, `>` and 0; the bytes behind it are untouched. Dropping
the first byte and the last three bytes of the packet gives `f` back. -/
theorem pack_filename_packet (f rest out : List Nat) (hne : f ≠ [])
    (hnul : ∀ b ∈ f, b ≠ 0) (hcap : f.length + 5 ≤ out.length) :
    pack_filename (some (f ++ 0 :: rest)) (some out) =
      (true, some (PACKET_BEGIN :: f ++
        [PACKET_DELIMITER, calculate_crc8 (PACKET_BEGIN :: f) (f.length + 1), PACKET_END, 0]
        ++ out.drop (f.length + 5))) ∧
    (((PACKET_BEGIN :: f ++
        [PACKET_DELIMITER, calculate_crc8 (PACKET_BEGIN :: f) (f.length + 1), PACKET_END]).drop 1).rdrop 3
      = f) := by
  constructor
  · obtain ⟨a, m, b1, b2, b3, t, hm, rfl⟩ := buffer_split out f.length hcap
    have hlen : 0 < f.length := List.length_pos.mpr hne
    have hdrop : (a :: (m ++ b1 :: b2 :: b3 :: t)).drop (f.length + 5) = t := by
      rw [List.drop_succ_cons, List.drop_append_eq_append_drop]
      have h1 : m.drop (f.length + 4) = [] := List.drop_eq_nil_of_le (by omega)
      have h2 : f.length + 4 - m.length = 3 := by omega
      rw [h1, h2]; rfl
    have hw : write_bytes (a :: (m ++ b1 :: b2 :: b3 :: t)) 1 (f ++ [0])
        = (a :: f) ++ 0 :: b1 :: b2 :: b3 :: t := by
      unfold write_bytes
      have h3 : (a :: (m ++ b1 :: b2 :: b3 :: t)).drop (1 + (f ++ [0]).length)
          = b1 :: b2 :: b3 :: t := by
        have e : 1 + (f ++ [0]).length = (f.length + 1) + 1 := by
          rw [List.length_append, List.length_singleton]; omega
        rw [e, List.drop_succ_cons, ← hm, List.drop_left]
      rw [h3]; simp
    have hs0 : ((a :: f) ++ 0 :: b1 :: b2 :: b3 :: t).set 0 PACKET_BEGIN
        = (PACKET_BEGIN :: f) ++ 0 :: b1 :: b2 :: b3 :: t := by simp
    have hcrc : calculate_crc8 ((PACKET_BEGIN :: f) ++ 0 :: b1 :: b2 :: b3 :: t) (f.length + 1)
        = calculate_crc8 (PACKET_BEGIN :: f) (f.length + 1) := by
      unfold calculate_crc8
      rw [List.take_left' (by simp), List.take_of_length_le (by simp)]
    unfold pack_filename
    simp only [strlen_append_nul f rest hnul, read_bytes_append_nul, hw, hs0, hcrc, hdrop]
    rw [if_neg (by omega)]
    rw [set_append_cons _ _ _ _ _ (by simp)]
    rw [show (PACKET_BEGIN :: f) ++ PACKET_DELIMITER :: b1 :: b2 :: b3 :: t
        = (PACKET_BEGIN :: f ++ [PACKET_DELIMITER]) ++ b1 :: b2 :: b3 :: t by simp]
    rw [set_append_cons _ _ _ _ _ (by simp)]
    rw [show (PACKET_BEGIN :: f ++ [PACKET_DELIMITER]) ++
          calculate_crc8 (PACKET_BEGIN :: f) (f.length + 1) :: b2 :: b3 :: t
        = (PACKET_BEGIN :: f ++ [PACKET_DELIMITER,
            calculate_crc8 (PACKET_BEGIN :: f) (f.length + 1)]) ++ b2 :: b3 :: t by simp]
    rw [set_append_cons _ _ _ _ _ (by simp)]
    rw [show (PACKET_BEGIN :: f ++ [PACKET_DELIMITER,
            calculate_crc8 (PACKET_BEGIN :: f) (f.length + 1)]) ++ PACKET_END :: b3 :: t
        = (PACKET_BEGIN :: f ++ [PACKET_DELIMITER,
            calculate_crc8 (PACKET_BEGIN :: f) (f.length + 1), PACKET_END]) ++ b3 :: t by simp]
    rw [set_append_cons _ _ _ _ _ (by simp)]
    simp
  · simp [List.rdrop]


/-- C1, at the filename "sched.wpi" and a buffer of 16 bytes. -/
theorem pack_filename_packet_witness :
    ([115, 99, 104, 101, 100, 46, 119, 112, 105] ≠ ([] : List Nat)) ∧
    (∀ b ∈ [115, 99, 104, 101, 100, 46, 119, 112, 105], b ≠ 0) ∧
    ([115, 99, 104, 101, 100, 46, 119, 112, 105].length + 5 ≤ (List.replicate 16 1).length) ∧
    (pack_filename (some ([115, 99, 104, 101, 100, 46, 119, 112, 105] ++ 0 :: []))
        (some (List.replicate 16 1)) =
      (true, some (PACKET_BEGIN :: [115, 99, 104, 101, 100, 46, 119, 112, 105] ++
        [PACKET_DELIMITER,
          calculate_crc8 (PACKET_BEGIN :: [115, 99, 104, 101, 100, 46, 119, 112, 105])
            ([115, 99, 104, 101, 100, 46, 119, 112, 105].length + 1), PACKET_END, 0]
        ++ (List.replicate 16 1).drop ([115, 99, 104, 101, 100, 46, 119, 112, 105].length + 5))) ∧
    (((PACKET_BEGIN :: [115, 99, 104, 101, 100, 46, 119, 112, 105] ++
        [PACKET_DELIMITER,
          calculate_crc8 (PACKET_BEGIN :: [115, 99, 104, 101, 100, 46, 119, 112, 105])
            ([115, 99, 104, 101, 100, 46, 119, 112, 105].length + 1), PACKET_END]).drop 1).rdrop 3
      = [115, 99, 104, 101, 100, 46, 119, 112, 105])) :=
  ⟨by decide, by decide, by decide,
    pack_filename_packet [115, 99, 104, 101, 100, 46, 119, 112, 105] [] (List.replicate 16 1)
      (by decide) (by decide) (by decide)⟩

/-! ## CRC8 -/

set_option maxRecDepth 100000 in
theorem crc8_unshift_shift : ∀ a, a < 256 → crc8_unshift (crc8_shift a) = a := by
  decide

theorem crc8_shift_lt (c : Nat) : crc8_shift c < 256 := by
  unfold crc8_shift
  split <;> exact Nat.mod_lt _ (by norm_num)

theorem crc8_shift_inj (a b : Nat) (ha : a < 256) (hb : b < 256)
    (h : crc8_shift a = crc8_shift b) : a = b := by
  rw [← crc8_unshift_shift a ha, ← crc8_unshift_shift b hb, h]

theorem crc8_bits_lt (j c : Nat) (hc : c < 256) : crc8_bits j c < 256 := by
  induction j generalizing c with
  | zero => exact hc
  | succ j ih => exact ih _ (crc8_shift_lt c)

theorem crc8_bits_inj (j a b : Nat) (ha : a < 256) (hb : b < 256)
    (h : crc8_bits j a = crc8_bits j b) : a = b := by
  induction j generalizing a b with
  | zero => exact h
  | succ j ih =>
    exact crc8_shift_inj a b ha hb (ih _ _ (crc8_shift_lt a) (crc8_shift_lt b) h)

theorem byte_xor_lt (a b : Nat) (ha : a < 256) (hb : b < 256) : a ^^^ b < 256 :=
  Nat.xor_lt_two_pow (n := 8) ha hb

theorem crc8_byte_lt (s b : Nat) (hs : s < 256) (hb : b < 256) : crc8_byte s b < 256 :=
  crc8_bits_lt 8 _ (byte_xor_lt s b hs hb)

theorem crc8_byte_inj_state (s1 s2 b : Nat) (h1 : s1 < 256) (h2 : s2 < 256) (hb : b < 256)
    (h : crc8_byte s1 b = crc8_byte s2 b) : s1 = s2 :=
  Nat.xor_left_injective
    (crc8_bits_inj 8 _ _ (byte_xor_lt s1 b h1 hb) (byte_xor_lt s2 b h2 hb) h)

theorem crc8_byte_inj_data (s b1 b2 : Nat) (hs : s < 256) (h1 : b1 < 256) (h2 : b2 < 256)
    (h : crc8_byte s b1 = crc8_byte s b2) : b1 = b2 :=
  Nat.xor_right_injective
    (crc8_bits_inj 8 _ _ (byte_xor_lt s b1 hs h1) (byte_xor_lt s b2 hs h2) h)

theorem crc8_foldl_lt (data : List Nat) (s : Nat) (hs : s < 256) (hd : ∀ b ∈ data, b < 256) :
    data.foldl crc8_byte s < 256 := by
  induction data generalizing s with
  | nil => exact hs
  | cons b bs ih =>
    exact ih _ (crc8_byte_lt s b hs (hd b (List.mem_cons_self _ _)))
      (fun x hx => hd x (List.mem_cons_of_mem _ hx))

theorem crc8_foldl_ne (data : List Nat) (s1 s2 : Nat) (h1 : s1 < 256) (h2 : s2 < 256)
    (hd : ∀ b ∈ data, b < 256) (hne : s1 ≠ s2) :
    data.foldl crc8_byte s1 ≠ data.foldl crc8_byte s2 := by
  induction data generalizing s1 s2 with
  | nil => exact hne
  | cons b bs ih =>
    have hb : b < 256 := hd b (List.mem_cons_self _ _)
    exact ih _ _ (crc8_byte_lt s1 b h1 hb) (crc8_byte_lt s2 b h2 hb)
      (fun x hx => hd x (List.mem_cons_of_mem _ hx))
      (fun h => hne (crc8_byte_inj_state s1 s2 b h1 h2 hb h))

theorem flip_ne (b j : Nat) : b ^^^ (1 <<< j) ≠ b := by
  intro h
  have h0 : b ^^^ (1 <<< j) = b ^^^ 0 := by simpa using h
  have := Nat.xor_right_injective h0
  simp [Nat.shiftLeft_eq] at this

theorem flip_lt (b j : Nat) (hb : b < 256) (hj : j < 8) : b ^^^ (1 <<< j) < 256 := by
  apply byte_xor_lt _ _ hb
  rw [Nat.shiftLeft_eq, Nat.one_mul]
  calc 2 ^ j < 2 ^ 8 := Nat.pow_lt_pow_right (by norm_num) hj
    _ = 256 := by norm_num

/-- C2: inverting any one bit of any byte of a buffer changes its CRC8. -/
theorem crc8_single_bit (data : List Nat) (i j : Nat) (hd : ∀ b ∈ data, b < 256)
    (hi : i < data.length) (hj : j < 8) :
    calculate_crc8 (flip_bit data i j) (flip_bit data i j).length
      ≠ calculate_crc8 data data.length := by
  unfold calculate_crc8 flip_bit
  rw [List.take_of_length_le (le_refl _), List.take_of_length_le (le_refl _)]
  obtain ⟨pre, x, post, rfl, hpre⟩ : ∃ pre x post, data = pre ++ x :: post ∧ pre.length = i :=
    ⟨data.take i, data[i], data.drop (i + 1), by simp, by simp; omega⟩
  have hx : x < 256 := hd x (by simp)
  have hget : (pre ++ x :: post).getD i 0 = x := by
    subst hpre; exact getD_append_cons pre post x
  rw [hget, set_append_cons pre post x _ i hpre.symm]
  simp only [List.foldl_append, List.foldl_cons]
  have hs : pre.foldl crc8_byte 0 < 256 :=
    crc8_foldl_lt pre 0 (by norm_num) (fun b hb => hd b (by simp [hb]))
  apply crc8_foldl_ne post _ _ (crc8_byte_lt _ _ hs (flip_lt x j hx hj)) (crc8_byte_lt _ _ hs hx)
    (fun b hb => hd b (by simp [hb]))
  intro h
  exact flip_ne x j (crc8_byte_inj_data _ _ _ hs (flip_lt x j hx hj) hx h)


/-- C2, at the buffer `<a` with bit 3 of the second byte inverted. -/
theorem crc8_single_bit_witness :
    (∀ b ∈ [60, 97], b < 256) ∧ 1 < [60, 97].length ∧ 3 < 8 ∧
    calculate_crc8 (flip_bit [60, 97] 1 3) (flip_bit [60, 97] 1 3).length
      ≠ calculate_crc8 [60, 97] [60, 97].length :=
  ⟨by decide, by decide, by decide,
    crc8_single_bit [60, 97] 1 3 (by decide) (by decide) (by decide)⟩

/-! ## BCD -/

/-- C3: `bcd_to_dec (dec_to_bcd d) = d` for every `d` from 0 to 99. -/
theorem bcd_roundtrip : ∀ d, d < 100 → bcd_to_dec (dec_to_bcd d) = d := by
  decide

/-- C3, at `d = 59`. -/
theorem bcd_roundtrip_witness : 59 < 100 ∧ bcd_to_dec (dec_to_bcd 59) = 59 :=
  ⟨by decide, bcd_roundtrip 59 (by decide)⟩


/-! ## Validated and unvalidated reads -/

theorem ioctl_count_append (a b : List Event) :
    ioctl_count (a ++ b) = ioctl_count a + ioctl_count b := by
  simp [ioctl_count, List.countP_append]

theorem get_validated_first (bus : Nat → ReadOutcome) (index fuel b : Nat) (tr : List Event)
    (hb : bus 0 = .ioctl_ok b) :
    i2c_get_loop bus index true (fuel + 1) ⟨0, 0, 0, -1, tr⟩ =
      i2c_get_loop bus index true fuel
        ⟨1, 1, b, -1, tr ++ [.lock_file true, .ioctl_read index true, .unlock_file]⟩ := by
  simp [i2c_get_loop, hb, I2C_READ_MAX_ATTEMPTS, I2C_READ_VALIDATE_COUNT]

theorem get_validated_step (bus : Nat → ReadOutcome) (index fuel k last b : Nat) (v : Int)
    (tr : List Event) (hk1 : 1 ≤ k) (hk : k < 10) (hb : bus k = .ioctl_ok b) :
    i2c_get_loop bus index true (fuel + 1) ⟨k, 1, last, v, tr⟩ =
      if b = last then
        some ⟨k + 1, 2, last, (b : Int),
          tr ++ [.lock_file true, .ioctl_read index true, .unlock_file]⟩
      else
        i2c_get_loop bus index true fuel
          ⟨k + 1, 1, b, v, tr ++ [.lock_file true, .ioctl_read index true, .unlock_file]⟩ := by
  have hk0 : k ≠ 0 := by omega
  by_cases h : b = last
  · simp [i2c_get_loop, hb, I2C_READ_MAX_ATTEMPTS, I2C_READ_VALIDATE_COUNT, hk, hk0, h]
  · simp [i2c_get_loop, hb, I2C_READ_MAX_ATTEMPTS, I2C_READ_VALIDATE_COUNT, hk, hk0, h]

theorem get_validated_stabilises (bus : Nat → ReadOutcome) (r : Nat → Nat) (index : Nat)
    (hb : ∀ k, bus k = .ioctl_ok (r (k + 1))) (d : Nat) :
    ∀ (k fuel : Nat) (v : Int) (tr : List Event), 1 ≤ k → k + d + 1 ≤ 10 → d < fuel →
      (∀ m, k < m → m < k + d + 1 → r m ≠ r (m - 1)) → r (k + d + 1) = r (k + d) →
      ∃ tr', i2c_get_loop bus index true fuel ⟨k, 1, r k, v, tr⟩ =
          some ⟨k + d + 1, 2, r (k + d), (r (k + d + 1) : Int), tr'⟩ ∧
        ioctl_count tr' = ioctl_count tr + (d + 1) := by
  induction d with
  | zero =>
    intro k fuel v tr hk1 hk hf _ heq
    obtain ⟨fuel, rfl⟩ : ∃ f, fuel = f + 1 := ⟨fuel - 1, by omega⟩
    rw [get_validated_step bus index fuel k (r k) (r (k + 1)) v tr hk1 (by omega) (hb k)]
    have heq1 : r (k + 1) = r k := by simpa using heq
    rw [if_pos heq1]
    refine ⟨_, rfl, ?_⟩
    rw [ioctl_count_append]; simp [ioctl_count]
  | succ d ih =>
    intro k fuel v tr hk1 hk hf hne heq
    obtain ⟨fuel, rfl⟩ : ∃ f, fuel = f + 1 := ⟨fuel - 1, by omega⟩
    rw [get_validated_step bus index fuel k (r k) (r (k + 1)) v tr hk1 (by omega) (hb k)]
    have h1 : r (k + 1) ≠ r k := by simpa using hne (k + 1) (by omega) (by omega)
    rw [if_neg h1]
    obtain ⟨tr', h, hc⟩ := ih (k + 1) fuel v _ (by omega) (by omega) (by omega)
      (fun m hm1 hm2 => hne m (by omega) (by omega))
      (by rw [show k + 1 + d + 1 = k + (d + 1) + 1 by omega, show k + 1 + d = k + (d + 1) by omega]; exact heq)
    refine ⟨tr', ?_, ?_⟩
    · rw [h]
      simp only [show k + 1 + d + 1 = k + (d + 1) + 1 by omega, show k + 1 + d = k + (d + 1) by omega]
    · rw [hc, ioctl_count_append]; simp [ioctl_count]; omega

theorem get_validated_unstable (bus : Nat → ReadOutcome) (r : Nat → Nat) (index : Nat)
    (hb : ∀ k, bus k = .ioctl_ok (r (k + 1))) (d : Nat) :
    ∀ (k fuel : Nat) (v : Int) (tr : List Event), 1 ≤ k → k + d = 10 → d < fuel →
      (∀ m, k < m → m ≤ 10 → r m ≠ r (m - 1)) →
      ∃ tr', i2c_get_loop bus index true fuel ⟨k, 1, r k, v, tr⟩ =
          some ⟨10, 1, r 10, v, tr'⟩ ∧
        ioctl_count tr' = ioctl_count tr + d := by
  induction d with
  | zero =>
    intro k fuel v tr hk1 hk hf _
    obtain ⟨fuel, rfl⟩ : ∃ f, fuel = f + 1 := ⟨fuel - 1, by omega⟩
    have : k = 10 := by omega
    subst this
    exact ⟨tr, by simp [i2c_get_loop, I2C_READ_MAX_ATTEMPTS], rfl⟩
  | succ d ih =>
    intro k fuel v tr hk1 hk hf hne
    obtain ⟨fuel, rfl⟩ : ∃ f, fuel = f + 1 := ⟨fuel - 1, by omega⟩
    rw [get_validated_step bus index fuel k (r k) (r (k + 1)) v tr hk1 (by omega) (hb k)]
    have h1 : r (k + 1) ≠ r k := by simpa using hne (k + 1) (by omega) (by omega)
    rw [if_neg h1]
    obtain ⟨tr', h, hc⟩ := ih (k + 1) fuel v _ (by omega) (by omega) (by omega)
      (fun m hm1 hm2 => hne m (by omega) hm2)
    refine ⟨tr', h, ?_⟩
    rw [hc, ioctl_count_append]; simp [ioctl_count]; omega

/-- C4: in a validated read whose exchanges all succeed and yield `r 1`, `r 2`,
..., if `n` is the least index from 2 to 10 with `r n = r (n - 1)`, the call
makes exactly `n` exchanges and returns `r n`; if there is no such index it
makes exactly 10 exchanges and returns -1. -/
theorem i2c_get_validated_read (dev_open i2c_dev : Int) (index : Nat) (bus : Nat → ReadOutcome)
    (r : Nat → Nat) (hdev : 0 ≤ i2c_dev) (hb : ∀ k, bus k = .ioctl_ok (r (k + 1))) :
    (∀ n, 2 ≤ n → n ≤ 10 → r n = r (n - 1) → (∀ m, 2 ≤ m → m < n → r m ≠ r (m - 1)) →
      (i2c_get_impl dev_open bus i2c_dev index true).map
        (fun res => (res.value, res.attempts, ioctl_count res.trace)) = some ((r n : Int), n, n)) ∧
    ((∀ m, 2 ≤ m → m ≤ 10 → r m ≠ r (m - 1)) →
      (i2c_get_impl dev_open bus i2c_dev index true).map
        (fun res => (res.value, res.attempts, ioctl_count res.trace)) = some (-1, 10, 10)) := by
  have hnd : ¬ i2c_dev < 0 := by omega
  constructor
  · intro n h2 h10 heq hmin
    obtain ⟨d, rfl⟩ : ∃ d, n = 1 + d + 1 := ⟨n - 2, by omega⟩
    obtain ⟨tr', h, hc⟩ := get_validated_stabilises bus r index hb d 1 10 (-1)
      ([] ++ [.lock_file true, .ioctl_read index true, .unlock_file]) (le_refl _) (by omega)
      (by omega) (fun m hm1 hm2 => hmin m (by omega) hm2) (by simpa using heq)
    have hc' : ioctl_count tr' = 1 + d + 1 := by rw [hc]; simp [ioctl_count]; omega
    unfold i2c_get_impl
    simp only [hnd, false_and, if_false, decide_False, Bool.false_eq_true]
    rw [show I2C_READ_MAX_ATTEMPTS + 1 = 10 + 1 from rfl,
      get_validated_first bus index 10 (r 1) [] (hb 0), h]
    simp [I2C_READ_MAX_ATTEMPTS, I2C_READ_VALIDATE_COUNT, hc']
  · intro hne
    obtain ⟨tr', h, hc⟩ := get_validated_unstable bus r index hb 9 1 10 (-1)
      ([] ++ [.lock_file true, .ioctl_read index true, .unlock_file]) (le_refl _) rfl
      (by omega) (fun m hm1 hm2 => hne m (by omega) hm2)
    have hc' : ioctl_count tr' = 10 := by rw [hc]; simp [ioctl_count]
    unfold i2c_get_impl
    simp only [hnd, false_and, if_false, decide_False, Bool.false_eq_true]
    rw [show I2C_READ_MAX_ATTEMPTS + 1 = 10 + 1 from rfl,
      get_validated_first bus index 10 (r 1) [] (hb 0), h]
    simp [I2C_READ_MAX_ATTEMPTS, I2C_READ_VALIDATE_COUNT, hc']

/-- C4, at the reads 0x01, 0x02, 0x03, 0x03: the value 0x03 after the fourth read. -/
theorem i2c_get_validated_read_witness :
    (i2c_get_impl 3 (fun k => .ioctl_ok ([1, 2, 3, 3].getD k 0)) 3 0 true).map
        (fun res => (res.value, res.attempts, ioctl_count res.trace)) = some (3, 4, 4) :=
  (i2c_get_validated_read 3 3 0 (fun k => .ioctl_ok ([1, 2, 3, 3].getD k 0))
    (fun n => [1, 2, 3, 3].getD (n - 1) 0) (by decide) (fun _ => rfl)).1 4
    (by decide) (by decide) (by decide)
    (fun m h2 h4 => by interval_cases m <;> decide)

/-! ## Validated and unvalidated writes -/

theorem lock_calls_append (a b : List Event) :
    lock_calls (a ++ b) = lock_calls a + lock_calls b := by
  simp [lock_calls, List.countP_append]

theorem write_count_append (a b : List Event) :
    write_count (a ++ b) = write_count a + write_count b := by
  simp [write_count, List.countP_append]

theorem set_validated_exhausts (bus : Nat → WriteOutcome) (index value : Nat)
    (d : Nat) :
    ∀ (k fuel : Nat) (success : Bool) (tr : List Event), k + d = 10 → d < fuel →
      (∀ m, k ≤ m → m < 10 → bus m ≠ .readback value) →
      ∃ tr', i2c_set_loop bus index value true fuel ⟨k, success, tr⟩ = some ⟨11, false, tr'⟩ ∧
        lock_calls tr' = lock_calls tr + d ∧
        ((∀ m, k ≤ m → m < 10 → bus m ≠ .lock_failed) →
          write_count tr' = write_count tr + d) := by
  induction d with
  | zero =>
    intro k fuel success tr hk hf _
    obtain ⟨fuel, rfl⟩ : ∃ f, fuel = f + 1 := ⟨fuel - 1, by omega⟩
    have : k = 10 := by omega
    subst this
    exact ⟨tr, by simp [i2c_set_loop, I2C_WRITE_MAX_ATTEMPTS], rfl, fun _ => rfl⟩
  | succ d ih =>
    intro k fuel success tr hk hf hne
    obtain ⟨fuel, rfl⟩ : ∃ f, fuel = f + 1 := ⟨fuel - 1, by omega⟩
    have hk10 : ¬ (10 < k + 1) := by omega
    have hbk := hne k (le_refl _) (by omega)
    have step : ∀ (s' : Bool) (ev : List Event), lock_calls ev = 1 →
        (bus k ≠ .lock_failed → write_count ev = 1) →
        i2c_set_loop bus index value true (fuel + 1) ⟨k, success, tr⟩ =
          i2c_set_loop bus index value true fuel ⟨k + 1, s', tr ++ ev⟩ →
        ∃ tr', i2c_set_loop bus index value true (fuel + 1) ⟨k, success, tr⟩
            = some ⟨11, false, tr'⟩ ∧
          lock_calls tr' = lock_calls tr + (d + 1) ∧
          ((∀ m, k ≤ m → m < 10 → bus m ≠ .lock_failed) →
            write_count tr' = write_count tr + (d + 1)) := by
      intro s' ev hl hw hstep
      obtain ⟨tr', h, hc, hwc⟩ := ih (k + 1) fuel s' (tr ++ ev) (by omega) (by omega)
        (fun m hm1 hm2 => hne m (by omega) hm2)
      refine ⟨tr', by rw [hstep, h], by rw [hc, lock_calls_append, hl]; omega, ?_⟩
      intro hnl
      rw [hwc (fun m hm1 hm2 => hnl m (by omega) hm2), write_count_append,
        hw (hnl k (le_refl _) (by omega))]
      omega
    cases hb : bus k with
    | lock_failed =>
      exact step false [.lock_file false, .usleep 1000] (by simp [lock_calls])
        (fun h => absurd hb h) (by simp [i2c_set_loop, hb, I2C_WRITE_MAX_ATTEMPTS, hk10])
    | write_failed =>
      exact step false [.lock_file true, .ioctl_write index value false, .unlock_file]
        (by simp [lock_calls]) (fun _ => by simp [write_count])
        (by simp [i2c_set_loop, hb, I2C_WRITE_MAX_ATTEMPTS, hk10])
    | readback_failed =>
      exact step false [.lock_file true, .ioctl_write index value true,
          .usleep I2C_WRITE_VALIDATE_DELAY_US, .ioctl_read index false, .unlock_file]
        (by simp [lock_calls]) (fun _ => by simp [write_count])
        (by simp [i2c_set_loop, hb, I2C_WRITE_MAX_ATTEMPTS, hk10])
    | readback b =>
      have hbv : b ≠ value := fun h => hbk (by rw [hb, h])
      exact step success [.lock_file true, .ioctl_write index value true,
          .usleep I2C_WRITE_VALIDATE_DELAY_US, .ioctl_read index true, .unlock_file]
        (by simp [lock_calls]) (fun _ => by simp [write_count])
        (by simp [i2c_set_loop, hb, I2C_WRITE_MAX_ATTEMPTS, hk10, hbv])

theorem set_validated_succeeds (bus : Nat → WriteOutcome) (index value : Nat)
    (d : Nat) :
    ∀ (k fuel : Nat) (success : Bool) (tr : List Event), k + d < 10 → d < fuel →
      (∀ m, k ≤ m → m < k + d → bus m ≠ .readback value) → bus (k + d) = .readback value →
      ∃ tr', i2c_set_loop bus index value true fuel ⟨k, success, tr⟩
          = some ⟨k + d + 1, true, tr'⟩ ∧
        lock_calls tr' = lock_calls tr + (d + 1) ∧
        ((∀ m, k ≤ m → m < k + d → bus m ≠ .lock_failed) →
          write_count tr' = write_count tr + (d + 1)) := by
  induction d with
  | zero =>
    intro k fuel success tr hk hf _ heq
    obtain ⟨fuel, rfl⟩ : ∃ f, fuel = f + 1 := ⟨fuel - 1, by omega⟩
    have hk10 : ¬ (10 < k + 1) := by omega
    have heq' : bus k = .readback value := heq
    refine ⟨_, by simp [i2c_set_loop, heq', I2C_WRITE_MAX_ATTEMPTS, hk10]; rfl, ?_, ?_⟩
    · rw [lock_calls_append]; simp [lock_calls]
    · intro _; rw [write_count_append]; simp [write_count]
  | succ d ih =>
    intro k fuel success tr hk hf hne heq
    obtain ⟨fuel, rfl⟩ : ∃ f, fuel = f + 1 := ⟨fuel - 1, by omega⟩
    have hk10 : ¬ (10 < k + 1) := by omega
    have hbk := hne k (le_refl _) (by omega)
    have step : ∀ (s' : Bool) (ev : List Event), lock_calls ev = 1 →
        (bus k ≠ .lock_failed → write_count ev = 1) →
        i2c_set_loop bus index value true (fuel + 1) ⟨k, success, tr⟩ =
          i2c_set_loop bus index value true fuel ⟨k + 1, s', tr ++ ev⟩ →
        ∃ tr', i2c_set_loop bus index value true (fuel + 1) ⟨k, success, tr⟩
            = some ⟨k + (d + 1) + 1, true, tr'⟩ ∧
          lock_calls tr' = lock_calls tr + (d + 1 + 1) ∧
          ((∀ m, k ≤ m → m < k + (d + 1) → bus m ≠ .lock_failed) →
            write_count tr' = write_count tr + (d + 1 + 1)) := by
      intro s' ev hl hw hstep
      obtain ⟨tr', h, hc, hwc⟩ := ih (k + 1) fuel s' (tr ++ ev) (by omega) (by omega)
        (fun m hm1 hm2 => hne m (by omega) (by omega))
        (by rw [show k + 1 + d = k + (d + 1) by omega]; exact heq)
      refine ⟨tr', ?_, by rw [hc, lock_calls_append, hl]; omega, ?_⟩
      · rw [hstep, h, show k + 1 + d + 1 = k + (d + 1) + 1 by omega]
      · intro hnl
        rw [hwc (fun m hm1 hm2 => hnl m (by omega) (by omega)), write_count_append,
          hw (hnl k (le_refl _) (by omega))]
        omega
    cases hb : bus k with
    | lock_failed =>
      exact step false [.lock_file false, .usleep 1000] (by simp [lock_calls])
        (fun h => absurd hb h) (by simp [i2c_set_loop, hb, I2C_WRITE_MAX_ATTEMPTS, hk10])
    | write_failed =>
      exact step false [.lock_file true, .ioctl_write index value false, .unlock_file]
        (by simp [lock_calls]) (fun _ => by simp [write_count])
        (by simp [i2c_set_loop, hb, I2C_WRITE_MAX_ATTEMPTS, hk10])
    | readback_failed =>
      exact step false [.lock_file true, .ioctl_write index value true,
          .usleep I2C_WRITE_VALIDATE_DELAY_US, .ioctl_read index false, .unlock_file]
        (by simp [lock_calls]) (fun _ => by simp [write_count])
        (by simp [i2c_set_loop, hb, I2C_WRITE_MAX_ATTEMPTS, hk10])
    | readback b =>
      have hbv : b ≠ value := fun h => hbk (by rw [hb, h])
      exact step success [.lock_file true, .ioctl_write index value true,
          .usleep I2C_WRITE_VALIDATE_DELAY_US, .ioctl_read index true, .unlock_file]
        (by simp [lock_calls]) (fun _ => by simp [write_count])
        (by simp [i2c_set_loop, hb, I2C_WRITE_MAX_ATTEMPTS, hk10, hbv])


theorem set_validated_found (dev_open i2c_dev : Int) (index value : Nat)
    (bus : Nat → WriteOutcome) (hdev : 0 ≤ i2c_dev) (n : Nat) (hn : n < 10)
    (heq : bus n = .readback value) (hmin : ∀ m, m < n → bus m ≠ .readback value) :
    ∃ tr, i2c_set_impl dev_open bus i2c_dev index value true = some ⟨true, tr⟩ ∧
      lock_calls tr = n + 1 ∧
      ((∀ m, m < n → bus m ≠ .lock_failed) → write_count tr = n + 1) := by
  have hnd : ¬ i2c_dev < 0 := by omega
  obtain ⟨tr', h, hc, hw⟩ := set_validated_succeeds bus index value n 0 11 true []
    (by omega) (by omega) (fun m _ hm => hmin m (by omega)) (by simpa using heq)
  refine ⟨tr', ?_, by simpa [lock_calls] using hc, ?_⟩
  · unfold i2c_set_impl
    simp only [hnd, false_and, if_false, decide_False, Bool.false_eq_true]
    rw [show I2C_WRITE_MAX_ATTEMPTS + 1 = 11 from rfl, h]
    simp
  · intro hnl
    simpa [write_count] using hw (fun m _ hm => hnl m (by omega))

theorem set_validated_not_found (dev_open i2c_dev : Int) (index value : Nat)
    (bus : Nat → WriteOutcome) (hdev : 0 ≤ i2c_dev)
    (hne : ∀ m, m < 10 → bus m ≠ .readback value) :
    ∃ tr, i2c_set_impl dev_open bus i2c_dev index value true = some ⟨false, tr⟩ ∧
      lock_calls tr = 10 ∧
      ((∀ m, m < 10 → bus m ≠ .lock_failed) → write_count tr = 10) := by
  have hnd : ¬ i2c_dev < 0 := by omega
  obtain ⟨tr', h, hc, hw⟩ := set_validated_exhausts bus index value 10 0 11 true []
    (by omega) (by omega) (fun m _ hm => hne m hm)
  refine ⟨tr', ?_, by simpa [lock_calls] using hc, ?_⟩
  · unfold i2c_set_impl
    simp only [hnd, false_and, if_false, decide_False, Bool.false_eq_true]
    rw [show I2C_WRITE_MAX_ATTEMPTS + 1 = 11 from rfl, h]
    simp
  · intro hnl
    simpa [write_count] using hw (fun m _ hm => hnl m hm)

/-- C6: a validated write returns true exactly when one of the first ten
attempts reads back the written value, and stops at the first such attempt;
otherwise it makes ten attempts and returns false. A register that echoes at
once costs one write exchange, one that never echoes costs ten. -/
theorem i2c_set_validated_write (dev_open i2c_dev : Int) (index value : Nat)
    (bus : Nat → WriteOutcome) (hdev : 0 ≤ i2c_dev) :
    (∀ n, n < 10 → bus n = .readback value → (∀ m, m < n → bus m ≠ .readback value) →
      (i2c_set_impl dev_open bus i2c_dev index value true).map
        (fun res => (res.success, lock_calls res.trace)) = some (true, n + 1)) ∧
    ((∀ m, m < 10 → bus m ≠ .readback value) →
      (i2c_set_impl dev_open bus i2c_dev index value true).map
        (fun res => (res.success, lock_calls res.trace)) = some (false, 10)) ∧
    (∃ res, i2c_set_impl dev_open bus i2c_dev index value true = some res ∧
      (res.success = true ↔ ∃ n, n < 10 ∧ bus n = .readback value)) ∧
    (bus 0 = .readback value →
      (i2c_set_impl dev_open bus i2c_dev index value true).map
        (fun res => (res.success, write_count res.trace)) = some (true, 1)) ∧
    ((∀ m, m < 10 → ∃ b, b ≠ value ∧ bus m = .readback b) →
      (i2c_set_impl dev_open bus i2c_dev index value true).map
        (fun res => (res.success, write_count res.trace)) = some (false, 10)) := by
  refine ⟨?_, ?_, ?_, ?_, ?_⟩
  · intro n hn heq hmin
    obtain ⟨tr, h, hc, _⟩ := set_validated_found dev_open i2c_dev index value bus hdev n hn heq hmin
    rw [h]; simp [hc]
  · intro hne
    obtain ⟨tr, h, hc, _⟩ := set_validated_not_found dev_open i2c_dev index value bus hdev hne
    rw [h]; simp [hc]
  · by_cases hex : ∃ n, n < 10 ∧ bus n = .readback value
    · obtain ⟨tr, h, _, _⟩ := set_validated_found dev_open i2c_dev index value bus hdev
        (Nat.find hex) (Nat.find_spec hex).1 (Nat.find_spec hex).2
        (fun m hm hb => Nat.find_min hex hm ⟨by have := (Nat.find_spec hex).1; omega, hb⟩)
      exact ⟨_, h, by simpa using hex⟩
    · obtain ⟨tr, h, _, _⟩ := set_validated_not_found dev_open i2c_dev index value bus hdev
        (fun m hm hb => hex ⟨m, hm, hb⟩)
      exact ⟨_, h, by simpa using hex⟩
  · intro h0
    obtain ⟨tr, h, _, hw⟩ := set_validated_found dev_open i2c_dev index value bus hdev 0
      (by omega) h0 (fun m hm => by omega)
    rw [h]; simp [hw (fun m hm => by omega)]
  · intro hall
    obtain ⟨tr, h, _, hw⟩ := set_validated_not_found dev_open i2c_dev index value bus hdev
      (fun m hm hb => by
        obtain ⟨b, hbv, hbm⟩ := hall m hm
        rw [hbm] at hb
        exact hbv (WriteOutcome.readback.inj hb))
    rw [h]
    have := hw (fun m hm hb => by
      obtain ⟨b, _, hbm⟩ := hall m hm
      rw [hbm] at hb
      exact WriteOutcome.noConfusion hb)
    simp [this]

/-- C6, at a register that echoes 0x55 at the third attempt. -/
theorem i2c_set_validated_write_witness :
    (i2c_set_impl 3 (fun k => if k = 2 then .readback 0x55 else .readback 0) 3 22 0x55 true).map
        (fun res => (res.success, lock_calls res.trace)) = some (true, 2 + 1) :=
  (i2c_set_validated_write 3 3 22 0x55 (fun k => if k = 2 then .readback 0x55 else .readback 0)
    (by decide)).1 2 (by decide) (by decide) (by decide)

/-- C7: an unvalidated write whose first attempt gets the lock issues exactly
one exchange, carrying `index` and `value`, no read-back and no retry, and
returns true exactly when that exchange succeeded. -/
theorem i2c_set_unvalidated_write (dev_open i2c_dev : Int) (index value : Nat)
    (bus : Nat → WriteOutcome) (hdev : 0 ≤ i2c_dev) (hlock : bus 0 ≠ .lock_failed) :
    i2c_set_impl dev_open bus i2c_dev index value false =
      some ⟨decide (bus 0 ≠ .write_failed),
        [.lock_file true, .ioctl_write index value (decide (bus 0 ≠ .write_failed)),
         .unlock_file]⟩ := by
  have hnd : ¬ i2c_dev < 0 := by omega
  unfold i2c_set_impl
  simp only [hnd, false_and, if_false, decide_False, Bool.false_eq_true]
  cases hb : bus 0 with
  | lock_failed => exact absurd hb hlock
  | write_failed => simp [i2c_set_loop, hb, I2C_WRITE_MAX_ATTEMPTS]
  | readback_failed => simp [i2c_set_loop, hb, I2C_WRITE_MAX_ATTEMPTS]
  | readback b => simp [i2c_set_loop, hb, I2C_WRITE_MAX_ATTEMPTS]

/-- C7, at a write of 0xF1 to register 69 that succeeds. -/
theorem i2c_set_unvalidated_write_witness :
    (0 : Int) ≤ 3 ∧
    i2c_set_impl 3 (fun _ => .readback 0) 3 69 0xF1 false =
      some ⟨decide ((fun _ => WriteOutcome.readback 0) 0 ≠ WriteOutcome.write_failed),
        [.lock_file true,
         .ioctl_write 69 0xF1
           (decide ((fun _ => WriteOutcome.readback 0) 0 ≠ WriteOutcome.write_failed)),
         .unlock_file]⟩ :=
  ⟨by decide, i2c_set_unvalidated_write 3 3 69 0xF1 (fun _ => .readback 0) (by decide) (by decide)⟩

/-! ## Unvalidated reads and stream reads -/

theorem i2c_get_unvalidated_ok (dev_open i2c_dev : Int) (index b : Nat)
    (bus : Nat → ReadOutcome) (hdev : 0 ≤ i2c_dev) (hb : bus 0 = .ioctl_ok b) :
    i2c_get_impl dev_open bus i2c_dev index false =
      some ⟨(b : Int), 1, [.lock_file true, .ioctl_read index true, .unlock_file]⟩ := by
  have hnd : ¬ i2c_dev < 0 := by omega
  unfold i2c_get_impl
  simp [hnd, i2c_get_loop, hb, I2C_READ_MAX_ATTEMPTS]

theorem i2c_get_unvalidated_failed (dev_open i2c_dev : Int) (index stale : Nat)
    (bus : Nat → ReadOutcome) (hdev : 0 ≤ i2c_dev) (hb : bus 0 = .ioctl_failed stale) :
    i2c_get_impl dev_open bus i2c_dev index false =
      some ⟨(stale : Int), 1,
        [.lock_file true, .ioctl_read index false, .unlock_file, .usleep 1000, .unlock_file]⟩ := by
  have hnd : ¬ i2c_dev < 0 := by omega
  unfold i2c_get_impl
  simp [hnd, i2c_get_loop, hb, I2C_READ_MAX_ATTEMPTS]

/-- C5: an unvalidated read whose exchange fails does not return -1: with the
lock taken and the `ioctl` failing while `read_buffer[0]` holds 0x2A, the call
returns 0x2A after unlocking twice. -/
theorem i2c_get_unvalidated_error :
    i2c_get_impl 3 (fun _ => .ioctl_failed 0x2A) 3 0 false =
      some ⟨0x2A, 1,
        [.lock_file true, .ioctl_read 0 false, .unlock_file, .usleep 1000, .unlock_file]⟩ := by
  decide

theorem read_stream_loop_no_terminator (dev_open i2c_dev : Int) (index expected : Nat)
    (r : Nat → Nat) (size : Nat) (hdev : 0 ≤ i2c_dev)
    (hne : ∀ k, k < size → r k % 256 ≠ expected) (d : Nat) :
    ∀ (i fuel : Nat) (buf stored : List Nat) (tr : List Event), i + d = size → d < fuel →
      ∃ buf' stored' tr',
        i2c_read_stream_loop dev_open (fun k => .ioctl_ok (r k)) i2c_dev index (size : Int)
          expected fuel i i buf stored tr = some (size, buf', stored', tr') ∧
        stored'.length = stored.length + d := by
  induction d with
  | zero =>
    intro i fuel buf stored tr hi hf
    obtain ⟨fuel, rfl⟩ : ∃ f, fuel = f + 1 := ⟨fuel - 1, by omega⟩
    have : i = size := by omega
    subst this
    exact ⟨buf, stored, tr, by simp [i2c_read_stream_loop], rfl⟩
  | succ d ih =>
    intro i fuel buf stored tr hi hf
    obtain ⟨fuel, rfl⟩ : ∃ f, fuel = f + 1 := ⟨fuel - 1, by omega⟩
    have hlt : (i : Int) < (size : Int) := by omega
    have hget := i2c_get_unvalidated_ok dev_open i2c_dev index (r i)
      (fun k => (fun k => ReadOutcome.ioctl_ok (r k)) (i + k)) hdev rfl
    have hbyte : ((r i : Int) % 256).toNat = r i % 256 := by omega
    obtain ⟨buf', stored', tr', h, hl⟩ := ih (i + 1) fuel (buf.set i (r i % 256))
      (stored ++ [r i % 256])
      (tr ++ [.lock_file true, .ioctl_read index true, .unlock_file]) (by omega) (by omega)
    refine ⟨buf', stored', tr', ?_, by rw [hl]; simp; omega⟩
    unfold i2c_read_stream_loop
    rw [if_pos hlt, hget]
    simp only [hbyte, if_neg (hne i (by omega))]
    exact h

/-- When none of the first `size` bytes the register yields is the terminator,
`i2c_read_stream_util` stores `size` bytes and returns `size + 1`. -/
theorem read_stream_no_terminator (dev_open i2c_dev : Int) (index expected : Nat)
    (r : Nat → Nat) (buf : List Nat) (size : Nat) (hdev : 0 ≤ i2c_dev)
    (hne : ∀ k, k < size → r k % 256 ≠ expected) :
    (i2c_read_stream_util dev_open (fun k => .ioctl_ok (r k)) i2c_dev index buf (size : Int)
        expected).map (fun res => (res.len, res.stored.length)) = some ((size : Int) + 1, size) := by
  have hnd : ¬ i2c_dev < 0 := by omega
  obtain ⟨buf', stored', tr', h, hl⟩ := read_stream_loop_no_terminator dev_open i2c_dev index
    expected r size hdev hne size 0 (size + 1) buf [] [] (by omega) (by omega)
  unfold i2c_read_stream_util
  simp only [hnd, false_and, if_false, decide_False, Bool.false_eq_true, Int.toNat_ofNat]
  rw [h]
  simp [hl]


theorem read_stream_loop_terminator (dev_open i2c_dev : Int) (index expected : Nat)
    (r : Nat → Nat) (size t : Nat) (hdev : 0 ≤ i2c_dev) (ht : t < size)
    (heq : r t % 256 = expected) (hne : ∀ k, k < t → r k % 256 ≠ expected) (d : Nat) :
    ∀ (i fuel : Nat) (buf stored : List Nat) (tr : List Event), i + d = t → d < fuel →
      ∃ buf' stored' tr',
        i2c_read_stream_loop dev_open (fun k => .ioctl_ok (r k)) i2c_dev index (size : Int)
          expected fuel i i buf stored tr = some (t, buf', stored', tr') ∧
        stored'.length = stored.length + d + 1 := by
  induction d with
  | zero =>
    intro i fuel buf stored tr hi hf
    obtain ⟨fuel, rfl⟩ : ∃ f, fuel = f + 1 := ⟨fuel - 1, by omega⟩
    have : i = t := by omega
    subst this
    have hlt : (i : Int) < (size : Int) := by omega
    have hget := i2c_get_unvalidated_ok dev_open i2c_dev index (r i)
      (fun k => (fun k => ReadOutcome.ioctl_ok (r k)) (i + k)) hdev rfl
    have hbyte : ((r i : Int) % 256).toNat = r i % 256 := by omega
    refine ⟨buf.set i (r i % 256), stored ++ [r i % 256],
      tr ++ [.lock_file true, .ioctl_read index true, .unlock_file], ?_, ?_⟩
    · unfold i2c_read_stream_loop
      rw [if_pos hlt, hget]
      simp only [hbyte, if_pos heq]
    · simp
  | succ d ih =>
    intro i fuel buf stored tr hi hf
    obtain ⟨fuel, rfl⟩ : ∃ f, fuel = f + 1 := ⟨fuel - 1, by omega⟩
    have hlt : (i : Int) < (size : Int) := by omega
    have hget := i2c_get_unvalidated_ok dev_open i2c_dev index (r i)
      (fun k => (fun k => ReadOutcome.ioctl_ok (r k)) (i + k)) hdev rfl
    have hbyte : ((r i : Int) % 256).toNat = r i % 256 := by omega
    obtain ⟨buf', stored', tr', h, hl⟩ := ih (i + 1) fuel (buf.set i (r i % 256))
      (stored ++ [r i % 256])
      (tr ++ [.lock_file true, .ioctl_read index true, .unlock_file]) (by omega) (by omega)
    refine ⟨buf', stored', tr', ?_, by rw [hl]; simp; omega⟩
    unfold i2c_read_stream_loop
    rw [if_pos hlt, hget]
    simp only [hbyte, if_neg (hne i (by omega))]
    exact h

/-- When the terminator is first produced by read `t + 1` and `t < size`,
`i2c_read_stream_util` stores `t + 1` bytes and returns `t + 1`. -/
theorem read_stream_terminator (dev_open i2c_dev : Int) (index expected : Nat)
    (r : Nat → Nat) (buf : List Nat) (size t : Nat) (hdev : 0 ≤ i2c_dev) (ht : t < size)
    (heq : r t % 256 = expected) (hne : ∀ k, k < t → r k % 256 ≠ expected) :
    (i2c_read_stream_util dev_open (fun k => .ioctl_ok (r k)) i2c_dev index buf (size : Int)
        expected).map (fun res => (res.len, res.stored.length)) = some ((t : Int) + 1, t + 1) := by
  have hnd : ¬ i2c_dev < 0 := by omega
  obtain ⟨buf', stored', tr', h, hl⟩ := read_stream_loop_terminator dev_open i2c_dev index
    expected r size t hdev ht heq hne t 0 (size + 1) buf [] [] (by omega) (by omega)
  unfold i2c_read_stream_util
  simp only [hnd, false_and, if_false, decide_False, Bool.false_eq_true, Int.toNat_ofNat]
  rw [h]
  simp [hl]

/-- C10: the result can exceed both `size` and the number of bytes read: with
`size = 2` and a register that yields 0x41 on every read, never the terminator
`>`, `i2c_read_stream_util` stores two bytes and returns 3. -/
theorem i2c_read_stream_overcount :
    (i2c_read_stream_util 3 (fun _ => .ioctl_ok 0x41) 3 66 [0, 0, 0] 2 0x3E).map
      (fun res => (res.len, res.stored)) = some (3, [0x41, 0x41]) := by
  decide

/-! ## Listing parser -/

theorem getElem?_append_cons {α : Type} (l1 l2 : List α) (x : α) :
    (l1 ++ x :: l2)[l1.length]? = some x := by
  induction l1 with
  | nil => simp
  | cons a l ih => simpa using ih

theorem skip_filename_length_le (l : List Nat) : (skip_filename l).length ≤ l.length := by
  induction l with
  | nil => simp [skip_filename]
  | cons c cs ih =>
    unfold skip_filename
    split
    · exact Nat.le_succ_of_le ih
    · exact le_refl _

theorem list_loop_progress (cur : List Nat)
    (hc : cur.headD 0 ≠ 0 ∧ cur.headD 0 ≠ LIST_END) :
    (if (skip_filename cur).headD 0 = LIST_DELIMITER then (skip_filename cur).tail
      else skip_filename cur).length < cur.length := by
  rcases cur with _ | ⟨c, cs⟩
  · simp at hc
  · simp only [List.headD_cons] at hc
    by_cases hd : c = LIST_DELIMITER
    · have hs : skip_filename (c :: cs) = c :: cs := by simp [skip_filename, hd]
      rw [hs]; simp [hd]
    · have hs : skip_filename (c :: cs) = skip_filename cs := by
        simp [skip_filename, hc.1, hc.2, hd]
      rw [hs]
      have h1 := skip_filename_length_le cs
      split
      · simp only [List.length_tail, List.length_cons]; omega
      · simp only [List.length_cons]; omega

theorem list_loop_total (select : Int) (output : Option (List Nat)) (output_len : Int)
    (fuel : Nat) :
    ∀ (cur : List Nat) (fc : Nat) (printed : List (Nat × List Nat)), cur.length < fuel →
      ∃ rc, list_loop select output output_len fuel cur fc printed = some rc := by
  induction fuel with
  | zero => intro cur fc printed h; omega
  | succ fuel ih =>
    intro cur fc printed h
    unfold list_loop
    by_cases hc : cur.headD 0 ≠ 0 ∧ cur.headD 0 ≠ LIST_END
    · have hp := list_loop_progress cur hc
      rw [if_pos hc]
      simp only []
      split
      · split
        · exact ih _ _ _ (by omega)
        · split
          · exact ⟨_, rfl⟩
          · exact ih _ _ _ (by omega)
      · exact ih _ _ _ (by omega)
    · rw [if_neg hc]; exact ⟨_, rfl⟩

theorem list_loop_printed (select : Int) (output : Option (List Nat)) (output_len : Int)
    (fuel : Nat) :
    ∀ (cur : List Nat) (fc : Nat) (printed : List (Nat × List Nat)) (rc : ListResult),
      list_loop select output output_len fuel cur fc printed = some rc →
      ∃ D, rc.printed = printed ++ D := by
  induction fuel with
  | zero => intro cur fc printed rc h; simp [list_loop] at h
  | succ fuel ih =>
    intro cur fc printed rc h
    unfold list_loop at h
    by_cases hc : cur.headD 0 ≠ 0 ∧ cur.headD 0 ≠ LIST_END
    · rw [if_pos hc] at h
      simp only [] at h
      split at h
      · split at h
        · obtain ⟨D, hD⟩ := ih _ _ _ _ h
          exact ⟨[(fc + 1, fmt_str (cur.length - (skip_filename cur).length) cur)] ++ D,
            by rw [hD, List.append_assoc]⟩
        · split at h
          · simp only [Option.some.injEq] at h
            exact ⟨[], by rw [← h]; simp⟩
          · exact ih _ _ _ _ h
      · exact ih _ _ _ _ h
    · rw [if_neg hc] at h
      simp only [Option.some.injEq] at h
      exact ⟨[], by rw [← h]; simp⟩


theorem list_loop_select (sel : Int) (o : Option (List Nat)) (ol : Int) (hsel : sel ≤ 0)
    (k : Nat) (ob : List Nat) (output_len : Int) (hol : output_len ≠ 0) (fuel : Nat) :
    ∀ (cur : List Nat) (fc : Nat) (printed : List (Nat × List Nat)) (rc : ListResult),
      list_loop sel o ol fuel cur fc printed = some rc → fc < k → (k : Int) ≤ rc.ret →
      ∃ len fs, rc.printed[printed.length + (k - fc - 1)]? = some (k, fmt_str len fs) ∧
        ∀ p', list_loop (k : Int) (some ob) output_len fuel cur fc p' =
          some ⟨(k : Int), some (snprintf_str ob (to_size_t output_len) len fs), p'⟩ := by
  induction fuel with
  | zero => intro cur fc printed rc h; simp [list_loop] at h
  | succ fuel ih =>
    intro cur fc printed rc h hfc hk
    have hkpos : ¬ ((k : Int) ≤ 0) := by omega
    unfold list_loop at h
    by_cases hc : cur.headD 0 ≠ 0 ∧ cur.headD 0 ≠ LIST_END
    · rw [if_pos hc] at h
      simp only [] at h
      by_cases hcnt : (skip_filename cur).headD 0 ≠ LIST_END ∧
          strncmp cur IN_USE_SCRIPT_NAME (strlen IN_USE_SCRIPT_NAME) ≠ 0
      · rw [if_pos hcnt, if_pos hsel] at h
        by_cases hkeq : k = fc + 1
        · obtain ⟨D, hD⟩ := list_loop_printed _ _ _ _ _ _ _ _ h
          refine ⟨cur.length - (skip_filename cur).length, cur, ?_, ?_⟩
          · rw [hD, hkeq, show printed.length + (fc + 1 - fc - 1) = printed.length by omega,
              List.append_assoc]
            exact getElem?_append_cons _ _ _
          · intro p'
            unfold list_loop
            rw [if_pos hc]
            simp only []
            rw [if_pos hcnt, if_neg hkpos, if_pos ⟨by rw [hkeq], by simp, hol⟩]
            simp
        · obtain ⟨len, fs, h1, h2⟩ := ih _ _ _ _ h (by omega) hk
          refine ⟨len, fs, ?_, ?_⟩
          · rw [← h1]
            congr 1
            simp only [List.length_append, List.length_singleton]
            omega
          · intro p'
            unfold list_loop
            rw [if_pos hc]
            simp only []
            rw [if_pos hcnt, if_neg hkpos, if_neg (by
              intro hh
              exact hkeq (by have := hh.1; omega))]
            exact h2 p'
      · rw [if_neg hcnt] at h
        obtain ⟨len, fs, h1, h2⟩ := ih _ _ _ _ h hfc hk
        refine ⟨len, fs, h1, ?_⟩
        intro p'
        unfold list_loop
        rw [if_pos hc]
        simp only []
        rw [if_neg hcnt]
        exact h2 p'
    · rw [if_neg hc] at h
      simp only [Option.some.injEq] at h
      rw [← h] at hk
      simp only [] at hk
      omega

theorem snprintf_str_fits (ob name : List Nat) (len : Nat) (fs : List Nat) (output_len : Int)
    (hname : fmt_str len fs = name) (hlen : (name.length : Int) < output_len)
    (hint : output_len < 2 ^ 31) :
    snprintf_str ob (to_size_t output_len) len fs = write_bytes ob 0 (name ++ [0]) := by
  have hsz : to_size_t output_len = output_len.toNat := by
    unfold to_size_t
    rw [Int.emod_eq_of_lt (by omega) (by omega)]
  have hpos : 0 < output_len.toNat := by omega
  unfold snprintf_str
  rw [hsz, if_neg (by omega), hname, List.take_of_length_le (by omega)]

/-- C9: selection agrees with the order displayed in count mode. For every
listing, count mode (`select <= 0`) returns some `c` and prints entries
numbered 1 to `c`; for every `k` from 1 to `c` the call with `select = k` and
an output buffer longer than the `k`-th printed name returns `k` and writes
exactly that name, followed by 0, to the output. -/
theorem list_select_agrees (input : List Nat) (sel : Int) (o : Option (List Nat)) (ol : Int)
    (hsel : sel ≤ 0) :
    ∃ rc, list_or_select_file input sel o ol = some rc ∧
      ∀ (k : Nat) (ob : List Nat) (output_len : Int), 1 ≤ k → (k : Int) ≤ rc.ret →
        ∃ name, rc.printed[k - 1]? = some (k, name) ∧
          ((name.length : Int) < output_len → output_len < 2 ^ 31 →
            list_or_select_file input (k : Int) (some ob) output_len =
              some ⟨(k : Int), some (write_bytes ob 0 (name ++ [0])), []⟩) := by
  obtain ⟨rc, hrc⟩ := list_loop_total sel o ol (input.length + 1) input.tail 0 []
    (by simp only [List.length_tail]; omega)
  refine ⟨rc, hrc, ?_⟩
  intro k ob output_len hk1 hkc
  by_cases hol : output_len = 0
  · obtain ⟨len, fs, h1, _⟩ := list_loop_select sel o ol hsel k ob 1 (by decide)
      (input.length + 1) input.tail 0 [] rc hrc (by omega) hkc
    refine ⟨fmt_str len fs, by simpa using h1, ?_⟩
    intro hlen; omega
  · obtain ⟨len, fs, h1, h2⟩ := list_loop_select sel o ol hsel k ob output_len hol
      (input.length + 1) input.tail 0 [] rc hrc (by omega) hkc
    refine ⟨fmt_str len fs, by simpa using h1, ?_⟩
    intro hlen hint
    unfold list_or_select_file
    rw [h2 [], snprintf_str_fits ob _ len fs output_len rfl hlen hint]


theorem skip_filename_entry (e rest : List Nat) (x : Nat)
    (he : ∀ c ∈ e, c ≠ 0 ∧ c ≠ LIST_DELIMITER ∧ c ≠ LIST_END)
    (hx : x = LIST_DELIMITER ∨ x = LIST_END) :
    skip_filename (e ++ x :: rest) = x :: rest := by
  induction e with
  | nil =>
    rcases hx with hx | hx <;> simp [skip_filename, hx]
  | cons c cs ih =>
    have hc := he c (List.mem_cons_self _ _)
    simp only [List.cons_append, skip_filename, hc.1, hc.2.1, hc.2.2, ne_eq, not_false_eq_true,
      and_self, if_true]
    exact ih (fun b hb => he b (List.mem_cons_of_mem _ hb))

theorem strncmp_eq_zero_iff (p : List Nat) (hp : ∀ c ∈ p, c ≠ 0) :
    ∀ s : List Nat, strncmp s p p.length = 0 ↔ p <+: s := by
  induction p with
  | nil => intro s; simp [strncmp]
  | cons a p ih =>
    intro s
    have ha : a ≠ 0 := hp a (List.mem_cons_self _ _)
    have hp' : ∀ c ∈ p, c ≠ 0 := fun c hc => hp c (List.mem_cons_of_mem _ hc)
    rcases s with _ | ⟨b, s⟩
    · have h0 : (0 : Nat) ≠ a := fun h => ha h.symm
      simp only [List.length_cons, strncmp, List.headD_nil, List.headD_cons, ne_eq, h0,
        not_false_eq_true, if_true]
      constructor
      · intro h; exfalso; omega
      · intro h; simp at h
    · by_cases hba : b = a
      · subst hba
        simp only [List.length_cons, strncmp, List.headD_cons, ne_eq, not_true_eq_false, if_false,
          ha, List.tail_cons]
        rw [ih hp' s]
        constructor
        · intro h; exact (List.cons_prefix_cons).mpr ⟨rfl, h⟩
        · intro h; exact ((List.cons_prefix_cons).mp h).2
      · simp only [List.length_cons, strncmp, List.headD_cons, ne_eq, hba, not_false_eq_true,
          if_true]
        constructor
        · intro h; exfalso; omega
        · intro h; exact absurd ((List.cons_prefix_cons).mp h).1.symm hba

theorem prefix_entry_iff (p e rest : List Nat) (x : Nat) (hx : x ∉ p) :
    p <+: e ++ x :: rest ↔ p <+: e := by
  constructor
  · intro h
    rcases List.prefix_or_prefix_of_prefix h (List.prefix_append e (x :: rest)) with h1 | h1
    · exact h1
    · obtain ⟨t, rfl⟩ := h1
      rcases t with _ | ⟨y, t⟩
      · simp
      · exfalso
        have h2 : y :: t <+: x :: rest := (List.prefix_append_right_inj e).mp h
        have h3 : y = x := ((List.cons_prefix_cons).mp h2).1
        exact hx (by simp [h3])
  · intro h
    exact h.trans (List.prefix_append e (x :: rest))

theorem strncmp_in_use (e rest : List Nat) :
    strncmp (e ++ LIST_DELIMITER :: rest) IN_USE_SCRIPT_NAME (strlen IN_USE_SCRIPT_NAME) ≠ 0 ↔
      ¬ IN_USE_SCRIPT_NAME <+: e := by
  rw [ne_eq, show strlen IN_USE_SCRIPT_NAME = IN_USE_SCRIPT_NAME.length by decide,
    strncmp_eq_zero_iff IN_USE_SCRIPT_NAME (by decide),
    prefix_entry_iff IN_USE_SCRIPT_NAME e rest LIST_DELIMITER (by decide)]

/-- The number the code returns in count mode for the entries `es`: those
followed by a delimiter that do not begin with "schedule". -/
theorem list_loop_count (sel : Int) (o : Option (List Nat)) (ol : Int) (hsel : sel ≤ 0)
    (es : List (List Nat)) :
    (∀ e ∈ es, ∀ c ∈ e, c ≠ 0 ∧ c ≠ LIST_DELIMITER ∧ c ≠ LIST_END) →
    ∀ (fuel fc : Nat) (printed : List (Nat × List Nat)),
      (join_entries es ++ [LIST_END]).length < fuel →
      (list_loop sel o ol fuel (join_entries es ++ [LIST_END]) fc printed).map (fun rc => rc.ret)
        = some ((fc + es.dropLast.countP (fun e => decide (¬ IN_USE_SCRIPT_NAME <+: e)) : Nat) : Int) := by
  induction es with
  | nil =>
    intro _ fuel fc printed hf
    obtain ⟨fuel, rfl⟩ : ∃ f, fuel = f + 1 := ⟨fuel - 1, by omega⟩
    simp [join_entries, list_loop]
  | cons e es ih =>
    intro hes fuel fc printed hf
    obtain ⟨fuel, rfl⟩ : ∃ f, fuel = f + 1 := ⟨fuel - 1, by omega⟩
    have he := hes e (List.mem_cons_self _ _)
    rcases es with _ | ⟨e2, es⟩
    · -- the last entry, in front of the end marker
      simp only [join_entries, List.dropLast_single, List.countP_nil, Nat.add_zero]
      rcases e with _ | ⟨c, cs⟩
      · simp [list_loop]
      · have hc := he c (List.mem_cons_self _ _)
        have hskip := skip_filename_entry (c :: cs) [] LIST_END he (Or.inr rfl)
        obtain ⟨fuel, rfl⟩ : ∃ f, fuel = f + 1 := ⟨fuel - 1, by simp at hf; omega⟩
        unfold list_loop
        rw [if_pos (by simpa using ⟨hc.1, hc.2.2⟩)]
        simp only [hskip, List.headD_cons, ne_eq, not_true_eq_false, false_and, if_false]
        rw [if_neg (by decide)]
        simp [list_loop]
    · -- an entry followed by a delimiter
      have hjoin : join_entries (e :: e2 :: es) ++ [LIST_END]
          = e ++ LIST_DELIMITER :: (join_entries (e2 :: es) ++ [LIST_END]) := by
        simp [join_entries]
      have hskip := skip_filename_entry e (join_entries (e2 :: es) ++ [LIST_END]) LIST_DELIMITER
        he (Or.inl rfl)
      have hhead : (e ++ LIST_DELIMITER :: (join_entries (e2 :: es) ++ [LIST_END])).headD 0 ≠ 0 ∧
          (e ++ LIST_DELIMITER :: (join_entries (e2 :: es) ++ [LIST_END])).headD 0 ≠ LIST_END := by
        rcases e with _ | ⟨c, cs⟩
        · simp; decide
        · have hc := he c (List.mem_cons_self _ _)
          simpa using ⟨hc.1, hc.2.2⟩
      have hfuel : (join_entries (e2 :: es) ++ [LIST_END]).length < fuel := by
        rw [hjoin] at hf
        simp only [List.length_append, List.length_cons] at hf ⊢
        omega
      have ih' := ih (fun e' he' => hes e' (List.mem_cons_of_mem _ he'))
      rw [hjoin]
      unfold list_loop
      rw [if_pos hhead]
      simp only [hskip, List.headD_cons, List.tail_cons, if_true]
      by_cases hpre : IN_USE_SCRIPT_NAME <+: e
      · have hs : ¬ (strncmp (e ++ LIST_DELIMITER :: (join_entries (e2 :: es) ++ [LIST_END]))
            IN_USE_SCRIPT_NAME (strlen IN_USE_SCRIPT_NAME) ≠ 0) := by
          rw [strncmp_in_use]; exact not_not.mpr hpre
        rw [if_neg (fun h => hs h.2)]
        rw [ih' fuel fc printed hfuel]
        simp [List.dropLast, hpre]
      · have hs : strncmp (e ++ LIST_DELIMITER :: (join_entries (e2 :: es) ++ [LIST_END]))
            IN_USE_SCRIPT_NAME (strlen IN_USE_SCRIPT_NAME) ≠ 0 := by
          rw [strncmp_in_use]; exact hpre
        rw [if_pos ⟨by decide, hs⟩, if_pos hsel]
        rw [ih' fuel (fc + 1) _ hfuel]
        simp [List.dropLast, hpre]
        omega


/-- C8, as amended: for a listing `<e1|e2|...|en>` whose entries contain no 0
byte, no `|` and no `>`, count mode returns the number of entries among
`e1` ... `e(n-1)`, the ones followed by a delimiter, that do not begin with
"schedule"; the entry in front of `>` is not counted. -/
theorem list_count_delimited (es : List (List Nat)) (sel : Int) (o : Option (List Nat))
    (ol : Int) (hsel : sel ≤ 0)
    (hes : ∀ e ∈ es, ∀ c ∈ e, c ≠ 0 ∧ c ≠ LIST_DELIMITER ∧ c ≠ LIST_END) :
    (list_or_select_file (listing es) sel o ol).map (fun rc => rc.ret) =
      some ((es.dropLast.countP (fun e => decide (¬ IN_USE_SCRIPT_NAME <+: e)) : Nat) : Int) := by
  unfold list_or_select_file listing
  rw [List.tail_cons]
  have h := list_loop_count sel o ol hsel es hes
    ((LIST_BEGIN :: (join_entries es ++ [LIST_END])).length + 1) 0 []
    (by simp only [List.length_cons]; omega)
  rw [h, Nat.zero_add]

/-- C8 as amended, at the listing `<a|b|schedule|c>`: the result is 2. -/
theorem list_count_delimited_witness :
    (list_or_select_file (listing [[97], [98], [115, 99, 104, 101, 100, 117, 108, 101], [99]])
        (-1) none (-1)).map (fun rc => rc.ret) = some 2 :=
  list_count_delimited [[97], [98], [115, 99, 104, 101, 100, 117, 108, 101], [99]] (-1) none (-1)
    (by decide) (by decide)

/-- C8 as stated fails: for `<a|b|schedule|c>`, three of whose four entries
differ from "schedule", count mode returns 2; and for `<schedule.wpi|schedule>`,
one of whose entries differs from "schedule", it returns 0. -/
theorem list_count_counterexample :
    listing [[97], [98], [115, 99, 104, 101, 100, 117, 108, 101], [99]] =
      [60, 97, 124, 98, 124, 115, 99, 104, 101, 100, 117, 108, 101, 124, 99, 62] ∧
    [[97], [98], [115, 99, 104, 101, 100, 117, 108, 101], [99]].countP
      (fun e => decide (e ≠ IN_USE_SCRIPT_NAME)) = 3 ∧
    (list_or_select_file
        [60, 97, 124, 98, 124, 115, 99, 104, 101, 100, 117, 108, 101, 124, 99, 62]
        (-1) none (-1)).map (fun rc => rc.ret) = some 2 ∧
    [[115, 99, 104, 101, 100, 117, 108, 101, 46, 119, 112, 105],
      [115, 99, 104, 101, 100, 117, 108, 101]].countP
      (fun e => decide (e ≠ IN_USE_SCRIPT_NAME)) = 1 ∧
    (list_or_select_file
        [60, 115, 99, 104, 101, 100, 117, 108, 101, 46, 119, 112, 105, 124,
          115, 99, 104, 101, 100, 117, 108, 101, 62]
        (-1) none (-1)).map (fun rc => rc.ret) = some 0 := by
  refine ⟨by decide, by decide, by decide, by decide, by decide⟩

/-- C9, at the listing `<a|b|schedule|c>` and `k = 2`: the output is "b". -/
theorem list_select_agrees_witness :
    list_or_select_file
        [60, 97, 124, 98, 124, 115, 99, 104, 101, 100, 117, 108, 101, 124, 99, 62]
        2 (some [9, 9, 9, 9]) 4 = some ⟨2, some [98, 0, 9, 9], []⟩ := by
  obtain ⟨rc, hrc, h⟩ := list_select_agrees
    [60, 97, 124, 98, 124, 115, 99, 104, 101, 100, 117, 108, 101, 124, 99, 62] (-1) none (-1)
    (by decide)
  have e : list_or_select_file
      [60, 97, 124, 98, 124, 115, 99, 104, 101, 100, 117, 108, 101, 124, 99, 62] (-1) none (-1)
      = some ⟨2, none, [(1, [97]), (2, [98])]⟩ := by decide
  rw [e] at hrc
  cases hrc
  obtain ⟨name, h1, h2⟩ := h 2 [9, 9, 9, 9] 4 (by decide) (by decide)
  have hname : name = [98] := by
    simp at h1
    exact h1.symm
  subst hname
  exact h2 (by decide) (by decide)


/-! ## Trace invariants of the transaction engine -/

theorem get_loop_invariant (bus : Nat → ReadOutcome) (index : Nat) (validate : Bool)
    (P : List Event → Prop)
    (hP : ∀ tr ev, P tr → ev ∈ get_blocks index → P (tr ++ ev)) (fuel : Nat) :
    ∀ s : GetState, 1 ≤ fuel → 11 ≤ s.attempts + fuel → P s.trace →
      ∃ s', i2c_get_loop bus index validate fuel s = some s' ∧ P s'.trace := by
  induction fuel with
  | zero => intro s h; omega
  | succ fuel ih =>
    intro s _ hsum hs
    rw [i2c_get_loop]
    by_cases hc : s.attempts < I2C_READ_MAX_ATTEMPTS ∧
        s.same_value_count < (if validate = true then I2C_READ_VALIDATE_COUNT else 1)
    · rw [if_pos hc]
      have hlt : s.attempts < 10 := hc.1
      have hf : 1 ≤ fuel := by omega
      cases hb : bus s.attempts with
      | lock_failed =>
        exact ih _ hf (by simp only; omega)
          (hP _ [.lock_file false, .usleep 1000] hs (by simp [get_blocks]))
      | ioctl_failed stale =>
        have hblk := hP _ [.lock_file true, .ioctl_read index false, .unlock_file, .usleep 1000]
          hs (by simp [get_blocks])
        have hblk2 := hP _
          [.lock_file true, .ioctl_read index false, .unlock_file, .usleep 1000, .unlock_file]
          hs (by simp [get_blocks])
        dsimp only
        by_cases hv : validate = true
        · rw [if_pos hv]
          exact ih _ hf (by simp only; omega) hblk
        · rw [if_neg hv]
          refine ⟨_, rfl, ?_⟩
          simpa using hblk2
      | ioctl_ok b =>
        have hblk := hP _ [.lock_file true, .ioctl_read index true, .unlock_file]
          hs (by simp [get_blocks])
        dsimp only
        split_ifs <;> first
          | exact ⟨_, rfl, hblk⟩
          | exact ih _ hf (by simp only; omega) hblk
    · rw [if_neg hc]
      exact ⟨s, rfl, hs⟩

theorem i2c_get_impl_invariant (dev_open : Int) (bus : Nat → ReadOutcome) (i2c_dev : Int)
    (index : Nat) (validate : Bool) (P : List Event → Prop) (h0 : P [])
    (hP : ∀ tr ev, P tr → ev ∈ get_blocks index → P (tr ++ ev)) :
    ∃ r, i2c_get_impl dev_open bus i2c_dev index validate = some r ∧ P r.trace := by
  unfold i2c_get_impl
  split
  · exact ⟨_, rfl, by simpa using hP [] _ h0 (show [Event.open_device false] ∈ get_blocks index by
      simp [get_blocks])⟩
  · have hinit : P (if decide (i2c_dev < 0) = true then [Event.open_device true] else []) := by
      split
      · simpa using hP [] _ h0 (show [Event.open_device true] ∈ get_blocks index by
          simp [get_blocks])
      · exact h0
    obtain ⟨s', h, hs'⟩ := get_loop_invariant bus index validate P hP (I2C_READ_MAX_ATTEMPTS + 1)
      ⟨0, 0, 0, -1, if decide (i2c_dev < 0) = true then [Event.open_device true] else []⟩
      (by simp) (by simp [I2C_READ_MAX_ATTEMPTS]) hinit
    simp only [h]
    refine ⟨_, rfl, ?_⟩
    simp only
    split
    · exact hP _ _ hs' (by simp [get_blocks])
    · simpa using hs'

theorem set_loop_invariant (bus : Nat → WriteOutcome) (index value : Nat) (validate : Bool)
    (P : List Event → Prop)
    (hP : ∀ tr ev, P tr → ev ∈ set_blocks index value validate → P (tr ++ ev)) (fuel : Nat) :
    ∀ s : SetState, 1 ≤ fuel → 11 ≤ s.attempts + fuel → P s.trace →
      ∃ s', i2c_set_loop bus index value validate fuel s = some s' ∧ P s'.trace := by
  induction fuel with
  | zero => intro s h; omega
  | succ fuel ih =>
    intro s _ hsum hs
    rw [i2c_set_loop]
    simp only []
    by_cases hc : s.attempts + 1 > I2C_WRITE_MAX_ATTEMPTS
    · rw [if_pos hc]
      exact ⟨_, rfl, hs⟩
    · rw [if_neg hc]
      have hlt : s.attempts < 10 := by simp only [I2C_WRITE_MAX_ATTEMPTS] at hc; omega
      have hf : 1 ≤ fuel := by omega
      cases hb : bus s.attempts with
      | lock_failed =>
        exact ih _ hf (by simp only; omega) (hP _ _ hs (by simp [set_blocks]))
      | write_failed =>
        cases validate
        · exact ⟨_, rfl, hP _ _ hs (by simp [set_blocks])⟩
        · exact ih _ hf (by simp only; omega) (hP _ _ hs (by simp [set_blocks]))
      | readback_failed =>
        cases validate
        · exact ⟨_, rfl, hP _ _ hs (by simp [set_blocks])⟩
        · exact ih _ hf (by simp only; omega) (hP _ _ hs (by simp [set_blocks]))
      | readback b =>
        cases validate
        · exact ⟨_, rfl, hP _ _ hs (by simp [set_blocks])⟩
        · simp only [Bool.not_true, Bool.false_eq_true, if_false]
          split
          · exact ⟨_, rfl, hP _ _ hs (by simp [set_blocks])⟩
          · exact ih _ hf (by simp only; omega) (hP _ _ hs (by simp [set_blocks]))

theorem i2c_set_impl_invariant (dev_open : Int) (bus : Nat → WriteOutcome) (i2c_dev : Int)
    (index value : Nat) (validate : Bool) (P : List Event → Prop) (h0 : P [])
    (hP : ∀ tr ev, P tr → ev ∈ set_blocks index value validate → P (tr ++ ev)) :
    ∃ r, i2c_set_impl dev_open bus i2c_dev index value validate = some r ∧ P r.trace := by
  unfold i2c_set_impl
  split
  · have hfail := hP [] [Event.open_device false] h0 (by simp [set_blocks])
    exact ⟨_, rfl, by simpa using hfail⟩
  · have hinit : P (if decide (i2c_dev < 0) = true then [Event.open_device true] else []) := by
      split
      · have hopen := hP [] [Event.open_device true] h0 (by simp [set_blocks])
        simpa using hopen
      · exact h0
    obtain ⟨s', h, hs'⟩ := set_loop_invariant bus index value validate P hP
      (I2C_WRITE_MAX_ATTEMPTS + 1)
      ⟨0, true, if decide (i2c_dev < 0) = true then [Event.open_device true] else []⟩
      (by simp) (by simp [I2C_WRITE_MAX_ATTEMPTS]) hinit
    simp only [h]
    refine ⟨_, rfl, ?_⟩
    simp only
    split
    · exact hP _ _ hs' (by simp [set_blocks])
    · simpa using hs'

theorem i2c_set_impl_total (dev_open : Int) (bus : Nat → WriteOutcome) (i2c_dev : Int)
    (index value : Nat) (validate : Bool) :
    ∃ r, i2c_set_impl dev_open bus i2c_dev index value validate = some r := by
  obtain ⟨r, h, _⟩ := i2c_set_impl_invariant dev_open bus i2c_dev index value validate
    (fun _ => True) trivial (fun _ _ _ _ => trivial)
  exact ⟨r, h⟩

theorem i2c_get_impl_total (dev_open : Int) (bus : Nat → ReadOutcome) (i2c_dev : Int)
    (index : Nat) (validate : Bool) :
    ∃ r, i2c_get_impl dev_open bus i2c_dev index validate = some r := by
  obtain ⟨r, h, _⟩ := i2c_get_impl_invariant dev_open bus i2c_dev index validate
    (fun _ => True) trivial (fun _ _ _ _ => trivial)
  exact ⟨r, h⟩

/-! ## Bus-lock discipline -/

/-- What the two checks refuse: an exchange without the lock, a second
acquisition of the held lock, a second exchange or a sleep under one hold, a
lock that is not released at the end; and, for the validated write, a release
between a successful write and its read-back, a read-back under another hold,
a third exchange and a back-off sleep while the lock is held. -/
theorem lock_discipline_refuses :
    lock_discipline [.ioctl_read 0 true] = false ∧
    lock_discipline [.lock_file true, .ioctl_read 0 true, .lock_file true, .ioctl_read 0 true,
      .unlock_file] = false ∧
    lock_discipline [.lock_file true, .ioctl_read 0 true, .ioctl_read 0 true,
      .unlock_file] = false ∧
    lock_discipline [.lock_file true, .ioctl_read 0 true, .usleep 1000, .unlock_file] = false ∧
    lock_discipline [.lock_file true, .ioctl_read 0 true] = false ∧
    lock_discipline_validated_write [.lock_file true, .ioctl_write 0 1 true, .unlock_file,
      .lock_file true, .ioctl_read 0 true, .unlock_file] = false ∧
    lock_discipline_validated_write [.lock_file true, .ioctl_write 0 1 true, .unlock_file,
      .usleep 100, .ioctl_read 0 true] = false ∧
    lock_discipline_validated_write [.lock_file true, .ioctl_write 0 1 true, .usleep 100,
      .ioctl_read 0 true, .ioctl_read 0 true, .unlock_file] = false ∧
    lock_discipline_validated_write [.lock_file true, .ioctl_write 0 1 true, .usleep 1000,
      .ioctl_read 0 true, .unlock_file] = false ∧
    lock_discipline_validated_write [.lock_file true, .ioctl_write 0 1 true, .usleep 100,
      .ioctl_read 0 true] = false := by
  decide

theorem touches_only_append (index value : Nat) (a b : List Event) :
    touches_only index value (a ++ b) = (touches_only index value a && touches_only index value b) := by
  simp [touches_only, List.all_append]

theorem read_count_append (a b : List Event) :
    read_count (a ++ b) = read_count a + read_count b := by
  simp [read_count, List.countP_append]

theorem set_blocks_touch (index value : Nat) (validate : Bool) (ev : List Event)
    (h : ev ∈ set_blocks index value validate) : touches_only index value ev = true := by
  cases validate
  · simp only [set_blocks, List.mem_cons, List.mem_singleton, List.not_mem_nil, or_false,
      List.mem_append, Bool.false_eq_true, if_false] at h
    rcases h with (h | h | h | h | h) | h <;> subst h <;> simp [touches_only]
  · simp only [set_blocks, List.mem_cons, List.mem_singleton, List.not_mem_nil, or_false,
      List.mem_append, if_true] at h
    rcases h with (h | h | h | h | h) | h | h <;> subst h <;> simp [touches_only]

theorem set_blocks_unvalidated_no_read (index value : Nat) (ev : List Event)
    (h : ev ∈ set_blocks index value false) : read_count ev = 0 := by
  simp only [set_blocks, List.mem_cons, List.mem_singleton, List.not_mem_nil, or_false,
    List.mem_append, Bool.false_eq_true, if_false] at h
  rcases h with (h | h | h | h | h) | h <;> subst h <;> rfl

theorem high_byte_lt (psw_cmd : Nat) (h16 : psw_cmd < 65536) :
    (psw_cmd >>> 8) % 256 = psw_cmd >>> 8 := by
  rw [Nat.shiftRight_eq_div_pow]
  exact Nat.mod_eq_of_lt (by omega)

theorem low_byte_lt (psw_cmd : Nat) : (psw_cmd &&& 0xFF) % 256 = psw_cmd &&& 0xFF := by
  have h : psw_cmd &&& 0xFF = psw_cmd % 2 ^ 8 := Nat.and_pow_two_sub_one_eq_mod psw_cmd 8
  rw [h]
  exact Nat.mod_eq_of_lt (Nat.mod_lt _ (by norm_num))

/-- C12: for every 16-bit `psw_cmd` and an open bus, `run_admin_command` makes a
validated write of the high byte to the password register 68 and then an
unvalidated write, without read-back, of the low byte to the command register
69; the trace consists of the two calls in this order, no event of the first
concerns another register than 68 and none of the second another than 69,
and the result is true exactly when both writes return true. -/
theorem run_admin_command_writes (dev_open : Int) (env : WriteEnv) (psw_cmd : Nat)
    (hdev : 0 ≤ dev_open) (h16 : psw_cmd < 65536) :
    ∃ r1 r2,
      i2c_set_impl dev_open (fun k => env k 68 (psw_cmd >>> 8)) dev_open 68
        (psw_cmd >>> 8) true = some r1 ∧
      i2c_set_impl dev_open (fun k => env (set_attempts r1 + k) 69 (psw_cmd &&& 0xFF)) dev_open 69
        (psw_cmd &&& 0xFF) false = some r2 ∧
      run_admin_command dev_open env psw_cmd =
        some ⟨r1.success && r2.success,
          [.open_device true] ++ r1.trace ++ r2.trace ++ [.close_device]⟩ ∧
      touches_only 68 (psw_cmd >>> 8) r1.trace = true ∧
      touches_only 69 (psw_cmd &&& 0xFF) r2.trace = true ∧
      read_count r2.trace = 0 := by
  obtain ⟨r1, h1, ht1⟩ := i2c_set_impl_invariant dev_open (fun k => env k 68 (psw_cmd >>> 8))
    dev_open 68 (psw_cmd >>> 8) true (fun tr => touches_only 68 (psw_cmd >>> 8) tr = true) rfl
    (fun tr ev htr hev => by
      dsimp only at htr ⊢
      rw [touches_only_append, htr, set_blocks_touch 68 _ true ev hev]; rfl)
  obtain ⟨r2, h2, ht2, hr2⟩ := i2c_set_impl_invariant dev_open
    (fun k => env (set_attempts r1 + k) 69 (psw_cmd &&& 0xFF)) dev_open 69 (psw_cmd &&& 0xFF) false
    (fun tr => touches_only 69 (psw_cmd &&& 0xFF) tr = true ∧ read_count tr = 0) ⟨rfl, rfl⟩
    (fun tr ev htr hev => by
      dsimp only at htr ⊢
      refine ⟨?_, ?_⟩
      · rw [touches_only_append, htr.1, set_blocks_touch 69 _ false ev hev]; rfl
      · rw [read_count_append, htr.2, set_blocks_unvalidated_no_read 69 _ ev hev])
  refine ⟨r1, r2, h1, h2, ?_, ht1, ht2, hr2⟩
  unfold run_admin_command i2c_set
  rw [if_neg (by omega)]
  simp only [high_byte_lt psw_cmd h16, low_byte_lt psw_cmd, I2C_ADMIN_PASSWORD, I2C_ADMIN_COMMAND,
    h1, h2, Bool.true_and]

/-- C12, at the command 0xA0F1 and a device that echoes every write: 0xA0 goes to
register 68, then 0xF1 to register 69. -/
theorem run_admin_command_writes_witness :
    run_admin_command 3 (fun _ _ v => .readback v) 0xA0F1 =
      some ⟨true, [.open_device true, .lock_file true, .ioctl_write 68 0xA0 true, .usleep 100,
        .ioctl_read 68 true, .unlock_file, .lock_file true, .ioctl_write 69 0xF1 true,
        .unlock_file, .close_device]⟩ := by
  obtain ⟨r1, r2, h1, h2, h3, _⟩ :=
    run_admin_command_writes 3 (fun _ _ v => .readback v) 0xA0F1 (by decide) (by decide)
  have e1 : i2c_set_impl 3 (fun _ => WriteOutcome.readback (0xA0F1 >>> 8)) 3 68 (0xA0F1 >>> 8) true
      = some ⟨true, [.lock_file true, .ioctl_write 68 0xA0 true, .usleep 100,
        .ioctl_read 68 true, .unlock_file]⟩ := by decide
  rw [e1] at h1
  cases h1
  have e2 : i2c_set_impl 3 (fun _ => WriteOutcome.readback (0xA0F1 &&& 0xFF)) 3 69
      (0xA0F1 &&& 0xFF) false
      = some ⟨true, [.lock_file true, .ioctl_write 69 0xF1 true, .unlock_file]⟩ := by decide
  rw [e2] at h2
  cases h2
  exact h3

/-! ## Stream writes -/

theorem write_stream_loop_nonneg (dev_open : Int) (env : WriteEnv) (i2c_dev : Int)
    (index : Nat) (buf : List Nat) (size : Int) (expected : Nat) (fuel : Nat) :
    ∀ (i pos : Nat) (written : List Nat) (tr : List Event), 1 ≤ fuel →
      size.toNat < i + fuel → ∃ j w t, i2c_write_stream_loop dev_open env i2c_dev index buf size expected fuel i pos
          written tr = some (j, w, t) ∧ 0 ≤ j := by
  induction fuel with
  | zero => intro i pos written tr h; omega
  | succ fuel ih =>
    intro i pos written tr _ h
    unfold i2c_write_stream_loop
    by_cases hlt : (i : Int) < size
    · rw [if_pos hlt]
      obtain ⟨r, hr⟩ := i2c_set_impl_total dev_open (fun k => env (pos + k) index (buf.getD i 0))
        i2c_dev index (buf.getD i 0) false
      rw [hr]
      dsimp only
      have hret : ¬ ((-1 : Int) = if r.success = true then 1 else 0) := by
        split <;> decide
      rw [if_neg hret]
      split
      · exact ⟨_, _, _, rfl, by omega⟩
      · exact ih _ _ _ _ (by omega) (by omega)
    · rw [if_neg hlt]
      exact ⟨_, _, _, rfl, by omega⟩

/-- For every environment, `i2c_write_stream_util` with a valid handle returns a
length of at least 1: the failure value -1 is never returned. -/
theorem write_stream_never_fails (dev_open : Int) (env : WriteEnv) (i2c_dev : Int)
    (index : Nat) (buf : List Nat) (size : Int) (expected : Nat) (hdev : 0 ≤ i2c_dev) :
    ∃ r, i2c_write_stream_util dev_open env i2c_dev index buf size expected = some r ∧
      1 ≤ r.len := by
  have hnd : ¬ i2c_dev < 0 := by omega
  obtain ⟨j, w, t, h, hj⟩ := write_stream_loop_nonneg dev_open env i2c_dev index buf size expected
    (size.toNat + 1) 0 0 [] [] (by omega) (by omega)
  unfold i2c_write_stream_util
  simp only [hnd, false_and, if_false, decide_False, Bool.false_eq_true]
  rw [h]
  exact ⟨_, rfl, by simp only; omega⟩

/-- C11: a failed byte write is not reported. With the buffer `A>`, `size = 2`
and the terminator `>`, when the exchange of the first write fails,
`i2c_write_stream_util` goes on, writes the second byte and returns 2. -/
theorem i2c_write_stream_ignores_error :
    i2c_write_stream_util 3 (fun pos _ _ => if pos = 0 then .write_failed else .readback 0)
        3 67 [0x41, 0x3E] 2 0x3E =
      some ⟨2, [0x41, 0x3E],
        [.lock_file true, .ioctl_write 67 0x41 false, .unlock_file,
         .lock_file true, .ioctl_write 67 0x3E true, .unlock_file]⟩ := by
  decide

theorem write_stream_loop_stops (dev_open : Int) (env : WriteEnv) (i2c_dev : Int)
    (index : Nat) (buf : List Nat) (size t expected : Nat) (ht : t < size)
    (heq : buf.getD t 0 = expected) (hne : ∀ k, k < t → buf.getD k 0 ≠ expected) (d : Nat) :
    ∀ (i fuel pos : Nat) (written : List Nat) (tr : List Event), i + d = t → d < fuel →
      ∃ tr', i2c_write_stream_loop dev_open env i2c_dev index buf (size : Int) expected fuel i pos
          written tr =
        some ((t : Int), written ++ (List.range' i (d + 1)).map (fun k => buf.getD k 0), tr') := by
  induction d with
  | zero =>
    intro i fuel pos written tr hi hf
    obtain ⟨fuel, rfl⟩ : ∃ f, fuel = f + 1 := ⟨fuel - 1, by omega⟩
    have : i = t := by omega
    subst this
    have hlt : (i : Int) < (size : Int) := by omega
    obtain ⟨r, hr⟩ := i2c_set_impl_total dev_open (fun k => env (pos + k) index (buf.getD i 0))
      i2c_dev index (buf.getD i 0) false
    have hret : ¬ ((-1 : Int) = if r.success = true then 1 else 0) := by
      split <;> decide
    unfold i2c_write_stream_loop
    rw [if_pos hlt, hr]
    dsimp only
    rw [if_neg hret, if_pos heq]
    exact ⟨tr ++ r.trace, by simp⟩
  | succ d ih =>
    intro i fuel pos written tr hi hf
    obtain ⟨fuel, rfl⟩ : ∃ f, fuel = f + 1 := ⟨fuel - 1, by omega⟩
    have hlt : (i : Int) < (size : Int) := by omega
    obtain ⟨r, hr⟩ := i2c_set_impl_total dev_open (fun k => env (pos + k) index (buf.getD i 0))
      i2c_dev index (buf.getD i 0) false
    have hret : ¬ ((-1 : Int) = if r.success = true then 1 else 0) := by
      split <;> decide
    obtain ⟨tr', h⟩ := ih (i + 1) fuel (pos + set_attempts r) (written ++ [buf.getD i 0])
      (tr ++ r.trace) (by omega) (by omega)
    unfold i2c_write_stream_loop
    rw [if_pos hlt, hr]
    dsimp only
    rw [if_neg hret, if_neg (hne i (by omega)), h]
    exact ⟨tr', by simp [List.range'_succ i]⟩

/-- Whatever the writes return, `i2c_write_stream_util` with a valid handle hands
the bytes of the buffer up to and including the first terminator to
`i2c_set_impl` and returns the index of the terminator plus one. -/
theorem write_stream_stops (dev_open : Int) (env : WriteEnv) (i2c_dev : Int)
    (index : Nat) (buf : List Nat) (size t expected : Nat) (hdev : 0 ≤ i2c_dev) (ht : t < size)
    (heq : buf.getD t 0 = expected) (hne : ∀ k, k < t → buf.getD k 0 ≠ expected) :
    (i2c_write_stream_util dev_open env i2c_dev index buf (size : Int) expected).map
        (fun r => (r.len, r.written)) = some ((t : Int) + 1, read_bytes buf (t + 1)) := by
  have hnd : ¬ i2c_dev < 0 := by omega
  obtain ⟨tr', h⟩ := write_stream_loop_stops dev_open env i2c_dev index buf size t expected ht heq
    hne t 0 (size + 1) 0 [] [] (by omega) (by omega)
  unfold i2c_write_stream_util
  simp only [hnd, false_and, if_false, decide_False, Bool.false_eq_true, Int.toNat_ofNat]
  rw [h]
  simp [read_bytes, List.range_eq_range']

/-! ## Model detection -/

theorem model_unknown_range :
    0 ≤ MODEL_UNKNOWN ∧ MODEL_UNKNOWN < wittypi_models_count := by
  decide

theorem model_of_fw_id_range (fw_id : Int) :
    0 ≤ model_of_fw_id fw_id ∧ model_of_fw_id fw_id < wittypi_models_count := by
  unfold model_of_fw_id
  split_ifs <;> decide

theorem get_wittypi_model_loop_range (dev : Int) (env : ReadEnv) (fuel : Nat) :
    ∀ (attempts pos : Nat) (tr : List Event), 1 ≤ fuel → 3 ≤ attempts + fuel →
      ∃ r, get_wittypi_model_loop dev env fuel attempts pos tr = some r ∧ 0 ≤ r.model ∧
        r.model < wittypi_models_count := by
  induction fuel with
  | zero => intro attempts pos tr h; omega
  | succ fuel ih =>
    intro attempts pos tr _ hsum
    obtain ⟨r, hr⟩ := i2c_get_impl_total dev (fun k => env (pos + k) I2C_FW_ID) dev I2C_FW_ID false
    unfold get_wittypi_model_loop
    rw [hr]
    dsimp only
    by_cases h3 : attempts + 1 ≥ 3
    · rw [if_pos h3]
      exact ⟨_, rfl, model_unknown_range⟩
    · rw [if_neg h3]
      split
      · exact ih _ _ _ (by omega) (by omega)
      · exact ⟨_, rfl, model_of_fw_id_range _⟩

/-- C19: when the first read of the firmware id succeeds with the byte `v`,
`get_wittypi_model` returns 1 for 0x51, 2 for 0x52, 3 for 0x53 and 0 for every
other byte; and whatever the bus does, the result is an index into the table
`wittypi_models`, from 0 to 3. -/
theorem get_wittypi_model_maps (dev_open : Int) (env : ReadEnv) :
    (∀ v : Nat, 0 ≤ dev_open → env 0 I2C_FW_ID = .ioctl_ok v →
      (get_wittypi_model dev_open env).map (fun r => r.model) =
        some (if v = 0x51 then 1 else if v = 0x52 then 2 else if v = 0x53 then 3 else 0)) ∧
    (∃ r, get_wittypi_model dev_open env = some r ∧ 0 ≤ r.model ∧
      r.model < wittypi_models_count) := by
  constructor
  · intro v hdev hv
    have hget := i2c_get_unvalidated_ok dev_open dev_open I2C_FW_ID v
      (fun k => env (0 + k) I2C_FW_ID) hdev (by simpa using hv)
    unfold get_wittypi_model
    rw [if_neg (by omega)]
    unfold get_wittypi_model_loop
    rw [hget]
    dsimp only
    rw [if_neg (by decide), if_neg (by omega)]
    simp only [Option.map_some', model_of_fw_id, FW_ID_WITTYPI_5, FW_ID_WITTYPI_5_MINI,
      FW_ID_WITTYPI_5_L3V7, MODEL_WITTYPI_5, MODEL_WITTYPI_5_MINI, MODEL_WITTYPI_5_L3V7,
      MODEL_UNKNOWN]
    congr 1
    split_ifs <;> first | rfl | omega
  · unfold get_wittypi_model
    split
    · exact ⟨_, rfl, model_unknown_range⟩
    · exact get_wittypi_model_loop_range dev_open env 3 0 0 _ (by omega) (by omega)

/-- C19, at the firmware id 0x52: the model is 2. -/
theorem get_wittypi_model_maps_witness :
    (get_wittypi_model 3 (fun _ _ => .ioctl_ok 0x52)).map (fun r => r.model) = some 2 :=
  (get_wittypi_model_maps 3 (fun _ _ => .ioctl_ok 0x52)).1 0x52 (by decide) rfl

/-! ## Time validity -/

/-- C13 as stated fails: `is_time_valid` accepts a weekday of 7 and a year of
2100, which lie outside the documented ranges. -/
theorem is_time_valid_counterexample :
    is_time_valid (some ⟨2025, 1, 1, 0, 0, 0, 7⟩) = true ∧
    ¬ documented_time ⟨2025, 1, 1, 0, 0, 0, 7⟩ ∧
    is_time_valid (some ⟨2100, 1, 1, 0, 0, 0, 0⟩) = true ∧
    ¬ documented_time ⟨2100, 1, 1, 0, 0, 0, 0⟩ := by
  refine ⟨by decide, ?_, by decide, ?_⟩ <;> simp [documented_time]

/-- C13, as amended: for every `DateTime` whose second, minute and hour are not
negative, `is_time_valid` returns true exactly when second and minute are at
most 59, the hour is at most 23, the day is from 1 to 31, the month from 1 to
12 and the year above 2024; the weekday is not examined and the year has no
upper bound. -/
theorem is_time_valid_iff (dt : DateTime) (hsec : 0 ≤ dt.sec) (hmin : 0 ≤ dt.min)
    (hhour : 0 ≤ dt.hour) :
    is_time_valid (some dt) = true ↔
      (0 ≤ dt.sec ∧ dt.sec ≤ 59 ∧ 0 ≤ dt.min ∧ dt.min ≤ 59 ∧ 0 ≤ dt.hour ∧ dt.hour ≤ 23 ∧
        1 ≤ dt.day ∧ dt.day ≤ 31 ∧ 1 ≤ dt.month ∧ dt.month ≤ 12 ∧ 2024 < dt.year) := by
  simp only [is_time_valid, Bool.and_eq_true, decide_eq_true_eq]
  constructor
  · rintro ⟨⟨⟨⟨⟨⟨⟨h1, h2⟩, h3⟩, h4⟩, h5⟩, h6⟩, h7⟩, h8⟩
    exact ⟨hsec, by omega, hmin, by omega, hhour, by omega, by omega, h5, by omega, h7, by omega⟩
  · rintro ⟨_, h1, _, h2, _, h3, h4, h5, h6, h7, h8⟩
    exact ⟨⟨⟨⟨⟨⟨⟨by omega, by omega⟩, by omega⟩, by omega⟩, h5⟩, by omega⟩, h7⟩, by omega⟩

/-- C13 as amended, at 2025-02-29 23:59:59 with weekday 7. -/
theorem is_time_valid_iff_witness :
    is_time_valid (some ⟨2025, 2, 29, 23, 59, 59, 7⟩) = true ↔
      ((0 : Int) ≤ 59 ∧ (59 : Int) ≤ 59 ∧ (0 : Int) ≤ 59 ∧ (59 : Int) ≤ 59 ∧ (0 : Int) ≤ 23 ∧
        (23 : Int) ≤ 23 ∧ (1 : Int) ≤ 29 ∧ (29 : Int) ≤ 31 ∧ (1 : Int) ≤ 2 ∧ (2 : Int) ≤ 12 ∧
        (2024 : Int) < 2025) :=
  is_time_valid_iff ⟨2025, 2, 29, 23, 59, 59, 7⟩ (by decide) (by decide) (by decide)

/-- C14: `is_time_valid` rejects every `DateTime` with a year of 2024 or below,
whatever the other fields, and accepts every `DateTime` with a year above
2024, a month from 1 to 12, a day from 1 to 31, an hour from 0 to 23 and
minute and second from 0 to 59, so 2025-02-29 as well: the day is not compared
with the length of the month. -/
theorem is_time_valid_year_floor (dt : DateTime) :
    (dt.year ≤ 2024 → is_time_valid (some dt) = false) ∧
    (2024 < dt.year → 1 ≤ dt.month → dt.month ≤ 12 → 1 ≤ dt.day → dt.day ≤ 31 →
      0 ≤ dt.hour → dt.hour ≤ 23 → 0 ≤ dt.min → dt.min ≤ 59 → 0 ≤ dt.sec → dt.sec ≤ 59 →
      is_time_valid (some dt) = true) := by
  constructor
  · intro hy
    have h : ¬ (dt.year > 2024) := by omega
    simp [is_time_valid, h]
  · intro hy hm1 hm2 hd1 hd2 _ hh _ hmi _ hs
    simp only [is_time_valid, Bool.and_eq_true, decide_eq_true_eq]
    exact ⟨⟨⟨⟨⟨⟨⟨by omega, by omega⟩, by omega⟩, by omega⟩, hd2⟩, by omega⟩, hm2⟩, by omega⟩

/-- C14, at the year 1999 and at 2025-02-29. -/
theorem is_time_valid_year_floor_witness :
    is_time_valid (some ⟨1999, 6, 15, 12, 0, 0, 3⟩) = false ∧
    is_time_valid (some ⟨2025, 2, 29, 12, 0, 0, 6⟩) = true :=
  ⟨(is_time_valid_year_floor ⟨1999, 6, 15, 12, 0, 0, 3⟩).1 (by decide),
   (is_time_valid_year_floor ⟨2025, 2, 29, 12, 0, 0, 6⟩).2 (by decide) (by decide) (by decide)
     (by decide) (by decide) (by decide) (by decide) (by decide) (by decide) (by decide)
     (by decide)⟩

/-! ## Alarm times -/

theorem i2c_get_constant (dev_open i2c_dev : Int) (index v : Nat) (bus : Nat → ReadOutcome)
    (hdev : 0 ≤ i2c_dev) (h0 : bus 0 = .ioctl_ok v) (h1 : bus 1 = .ioctl_ok v) :
    i2c_get dev_open bus i2c_dev index =
      some ⟨(v : Int), 2,
        [.lock_file true, .ioctl_read index true, .unlock_file,
         .lock_file true, .ioctl_read index true, .unlock_file]⟩ := by
  have hnd : ¬ i2c_dev < 0 := by omega
  unfold i2c_get i2c_get_impl
  simp [hnd, i2c_get_loop, h0, h1, I2C_READ_MAX_ATTEMPTS, I2C_READ_VALIDATE_COUNT]

theorem bcd_byte_roundtrip : ∀ d, d < 100 →
    bcd_to_dec (((dec_to_bcd d : Nat) : Int) % 256).toNat = d := by
  decide

/-- C15: when the registers 32, 33, 34 and 35 deliver the BCD codes of `s`, `m`,
`h` and `d` at every exchange, with `d` from 1 to 31, `h` up to 23 and `m`, `s`
up to 59, `get_startup_time` returns true and stores `d`, `h`, `m` and `s`. -/
theorem get_startup_time_decodes (dev_open : Int) (env : ReadEnv) (d h m s d0 h0 m0 s0 : Nat)
    (hdev : 0 ≤ dev_open) (hd1 : 1 ≤ d) (hd : d ≤ 31) (hh : h ≤ 23) (hm : m ≤ 59) (hs : s ≤ 59)
    (e32 : ∀ pos, env pos 32 = .ioctl_ok (dec_to_bcd s))
    (e33 : ∀ pos, env pos 33 = .ioctl_ok (dec_to_bcd m))
    (e34 : ∀ pos, env pos 34 = .ioctl_ok (dec_to_bcd h))
    (e35 : ∀ pos, env pos 35 = .ioctl_ok (dec_to_bcd d)) :
    (get_startup_time dev_open env (some d0) (some h0) (some m0) (some s0)).map
        (fun r => (r.ret, r.date, r.hour, r.minute, r.second)) =
      some (true, some d, some h, some m, some s) := by
  have g1 := i2c_get_constant dev_open dev_open 32 (dec_to_bcd s) (fun k => env k 32) hdev
    (e32 _) (e32 _)
  have g2 := i2c_get_constant dev_open dev_open 33 (dec_to_bcd m) (fun k => env (2 + k) 33) hdev
    (e33 _) (e33 _)
  have g3 := i2c_get_constant dev_open dev_open 34 (dec_to_bcd h) (fun k => env (2 + 2 + k) 34)
    hdev (e34 _) (e34 _)
  have g4 := i2c_get_constant dev_open dev_open 35 (dec_to_bcd d)
    (fun k => env (2 + 2 + 2 + k) 35) hdev (e35 _) (e35 _)
  have hnd : ¬ dev_open < 0 := by omega
  unfold get_startup_time get_alarm_time
  simp only [I2C_CONF_ALARM1_SECOND, I2C_CONF_ALARM1_MINUTE, I2C_CONF_ALARM1_HOUR,
    I2C_CONF_ALARM1_DAY, Option.isNone_some, Bool.false_eq_true, or_self, if_false, hnd, g1, g2,
    g3, g4]
  have hneg : ¬ (((dec_to_bcd s : Nat) : Int) < 0 ∨ ((dec_to_bcd m : Nat) : Int) < 0 ∨
      ((dec_to_bcd h : Nat) : Int) < 0 ∨ ((dec_to_bcd d : Nat) : Int) < 0) := by omega
  rw [if_neg hneg]
  simp only [bcd_byte_roundtrip s (by omega), bcd_byte_roundtrip m (by omega),
    bcd_byte_roundtrip h (by omega), bcd_byte_roundtrip d (by omega), Option.map_some']
  have hok : ¬ (s > 59 ∨ m > 59 ∨ h > 23 ∨ d = 0 ∨ d > 31) := by omega
  simp [hok]

/-- C15, at the register contents BCD(15, 07, 30, 00): day 15, hour 7, minute 30,
second 0. -/
theorem get_startup_time_decodes_witness :
    (get_startup_time 3
        (fun _ idx => .ioctl_ok (if idx = 32 then 0x00 else if idx = 33 then 0x30
          else if idx = 34 then 0x07 else 0x15))
        (some 0) (some 0) (some 0) (some 0)).map
        (fun r => (r.ret, r.date, r.hour, r.minute, r.second)) =
      some (true, some 15, some 7, some 30, some 0) :=
  get_startup_time_decodes 3
    (fun _ idx => .ioctl_ok (if idx = 32 then 0x00 else if idx = 33 then 0x30
      else if idx = 34 then 0x07 else 0x15))
    15 7 30 0 0 0 0 0 (by decide) (by decide) (by decide) (by decide) (by decide) (by decide)
    (fun _ => rfl) (fun _ => rfl) (fun _ => rfl) (fun _ => rfl)

/-- C16: `set_startup_time` and `set_shutdown_time` return false for a date below
1 or above 31, an hour above 23, a minute above 59 or a second above 59, and
their trace is empty: the bus is not opened and no register is read or
written. -/
theorem set_alarm_time_rejects (dev_open : Int) (env : WriteEnv) (date hour minute second : Nat)
    (h : date < 1 ∨ date > 31 ∨ hour > 23 ∨ minute > 59 ∨ second > 59) :
    set_startup_time dev_open env date hour minute second = some ⟨false, []⟩ ∧
    set_shutdown_time dev_open env date hour minute second = some ⟨false, []⟩ := by
  unfold set_startup_time set_shutdown_time set_alarm_time
  rw [if_pos h, if_pos h]
  exact ⟨rfl, rfl⟩

/-- C16, at the hour 24. -/
theorem set_alarm_time_rejects_witness :
    set_startup_time 3 (fun _ _ v => .readback v) 15 24 0 0 = some ⟨false, []⟩ ∧
    set_shutdown_time 3 (fun _ _ v => .readback v) 15 24 0 0 = some ⟨false, []⟩ :=
  set_alarm_time_rejects 3 (fun _ _ v => .readback v) 15 24 0 0 (by decide)

/-! ## Rejected filenames -/

/-- C17: `pack_filename` returns false and leaves the output buffer as it was
when the filename is a null pointer, when it is the empty string, and when
the output is a null pointer. -/
theorem pack_filename_rejects (filename output : Option (List Nat)) :
    pack_filename none output = (false, output) ∧
    (∀ fn, strlen fn = 0 → pack_filename (some fn) output = (false, output)) ∧
    pack_filename filename none = (false, none) := by
  refine ⟨?_, ?_, ?_⟩
  · cases output <;> rfl
  · intro fn hfn
    cases output with
    | none => rfl
    | some out => simp [pack_filename, hfn]
  · cases filename <;> rfl

/-- C17, at the empty string in a buffer that holds "abc" behind the first 0. -/
theorem pack_filename_rejects_witness :
    pack_filename (some [0, 97, 98, 99]) (some [1, 2, 3, 4, 5, 6, 7]) =
      (false, some [1, 2, 3, 4, 5, 6, 7]) :=
  (pack_filename_rejects none (some [1, 2, 3, 4, 5, 6, 7])).2.1 [0, 97, 98, 99] (by decide)

/-! ## Register map -/

/-- C20: every `I2C_CONF_*` index lies in [16,63], every `I2C_ADMIN_*` index in
[64,79], every `I2C_VREG_*` index in [80,103] and every read-only index in
[0,15], the range markers included; the four classes are pairwise disjoint
and no two named registers share an index. -/
theorem register_map_ranges :
    (∀ r ∈ read_only_registers, r ≤ 15) ∧
    (∀ r ∈ I2C_CONF_FIRST :: I2C_CONF_LAST :: conf_registers, 16 ≤ r ∧ r ≤ 63) ∧
    (∀ r ∈ I2C_ADMIN_FIRST :: I2C_ADMIN_LAST :: admin_registers, 64 ≤ r ∧ r ≤ 79) ∧
    (∀ r ∈ I2C_VREG_FIRST :: I2C_VREG_LAST :: vreg_registers, 80 ≤ r ∧ r ≤ 103) ∧
    (read_only_registers ++ conf_registers ++ admin_registers ++ vreg_registers).Nodup ∧
    (∀ a ∈ read_only_registers, a ∉ conf_registers ∧ a ∉ admin_registers ∧ a ∉ vreg_registers) ∧
    (∀ a ∈ conf_registers, a ∉ admin_registers ∧ a ∉ vreg_registers) ∧
    (∀ a ∈ admin_registers, a ∉ vreg_registers) := by
  refine ⟨by decide, by decide, by decide, by decide, by decide, by decide, by decide, by decide⟩

/-! ## Action reasons and the script flag -/

set_option maxRecDepth 100000 in
theorem high_nibble : ∀ r, r < 256 → (r &&& 0xF0) >>> 4 = r >>> 4 := by
  decide

theorem high_nibble_le (n : Nat) : (n &&& 0xF0) >>> 4 ≤ 15 := by
  have h : n &&& 0xF0 ≤ 0xF0 := Nat.and_le_right
  rw [Nat.shiftRight_eq_div_pow]
  omega

theorem low_nibble_le (n : Nat) : n &&& 0x0F ≤ 15 := Nat.and_le_right

/-- C21: for every byte `r` the validated read of register 14 returns,
`get_startup_reason` returns `r >> 4` and `get_shutdown_reason` returns
`r & 0x0F`; when the read returns a negative value both return 0; and
whatever the bus does both results lie in 0..15. -/
theorem reasons_are_nibbles (dev_open : Int) (bus : Nat → ReadOutcome) :
    ∃ g, i2c_get dev_open bus (-1) I2C_ACTION_REASON = some g ∧
      (∀ r : Nat, r < 256 → g.value = (r : Int) →
        (get_startup_reason dev_open bus).map (fun x => x.ret) = some ((r >>> 4 : Nat) : Int) ∧
        (get_shutdown_reason dev_open bus).map (fun x => x.ret)
          = some ((r &&& 0x0F : Nat) : Int)) ∧
      (g.value < 0 →
        (get_startup_reason dev_open bus).map (fun x => x.ret) = some ACTION_REASON_UNKNOWN ∧
        (get_shutdown_reason dev_open bus).map (fun x => x.ret) = some ACTION_REASON_UNKNOWN) ∧
      (∃ a b, (get_startup_reason dev_open bus).map (fun x => x.ret) = some a ∧
        (get_shutdown_reason dev_open bus).map (fun x => x.ret) = some b ∧
        0 ≤ a ∧ a ≤ 15 ∧ 0 ≤ b ∧ b ≤ 15) := by
  obtain ⟨g, hg⟩ := i2c_get_impl_total dev_open bus (-1) I2C_ACTION_REASON true
  have hg' : i2c_get dev_open bus (-1) I2C_ACTION_REASON = some g := hg
  refine ⟨g, hg', ?_, ?_, ?_⟩
  · intro r hr hv
    have hnn : ¬ ((r : Int) < 0) := by omega
    simp only [get_startup_reason, get_shutdown_reason, hg', hv, hnn, if_false, Option.map_some',
      Int.toNat_ofNat, high_nibble r hr, and_self]
  · intro hneg
    simp only [get_startup_reason, get_shutdown_reason, hg', hneg, if_true, Option.map_some',
      and_self]
  · by_cases hneg : g.value < 0
    · refine ⟨0, 0, ?_, ?_, by decide, by decide, by decide, by decide⟩
      · simp only [get_startup_reason, hg', hneg, if_true, Option.map_some',
          ACTION_REASON_UNKNOWN]
      · simp only [get_shutdown_reason, hg', hneg, if_true, Option.map_some',
          ACTION_REASON_UNKNOWN]
    · refine ⟨(((g.value.toNat &&& 0xF0) >>> 4 : Nat) : Int),
        ((g.value.toNat &&& 0x0F : Nat) : Int), ?_, ?_, ?_, ?_, ?_, ?_⟩
      · simp only [get_startup_reason, hg', hneg, if_false, Option.map_some']
      · simp only [get_shutdown_reason, hg', hneg, if_false, Option.map_some']
      · exact Int.ofNat_nonneg _
      · exact_mod_cast high_nibble_le _
      · exact Int.ofNat_nonneg _
      · exact_mod_cast low_nibble_le _

/-- C21, at the register content 0x3B: startup reason 3, shutdown reason 11. -/
theorem reasons_are_nibbles_witness :
    (get_startup_reason 3 (fun _ => .ioctl_ok 0x3B)).map (fun x => x.ret) = some 3 ∧
    (get_shutdown_reason 3 (fun _ => .ioctl_ok 0x3B)).map (fun x => x.ret) = some 11 := by
  obtain ⟨g, hg, h, _⟩ := reasons_are_nibbles 3 (fun _ => .ioctl_ok 0x3B)
  have e : i2c_get 3 (fun _ => ReadOutcome.ioctl_ok 0x3B) (-1) I2C_ACTION_REASON =
      some ⟨0x3B, 2, [.open_device true, .lock_file true, .ioctl_read 14 true, .unlock_file,
        .lock_file true, .ioctl_read 14 true, .unlock_file, .close_device]⟩ := by decide
  rw [e] at hg
  cases hg
  exact h 0x3B (by decide) rfl

/-- C30: `is_script_in_use` returns true when the validated read of register 15
returns -1, as it does when the bus cannot be opened, and for a byte `r`
returned by the read it returns true exactly when `r` is odd. -/
theorem is_script_in_use_sentinel (dev_open : Int) (bus : Nat → ReadOutcome) :
    ∃ g, i2c_get dev_open bus (-1) I2C_MISC = some g ∧
      (g.value = -1 → (is_script_in_use dev_open bus).map (fun x => x.ret) = some true) ∧
      (∀ r : Nat, g.value = (r : Int) →
        (is_script_in_use dev_open bus).map (fun x => x.ret) = some (decide (r % 2 = 1))) ∧
      (dev_open < 0 → g.value = -1) := by
  obtain ⟨g, hg⟩ := i2c_get_impl_total dev_open bus (-1) I2C_MISC true
  have hg' : i2c_get dev_open bus (-1) I2C_MISC = some g := hg
  refine ⟨g, hg', ?_, ?_, ?_⟩
  · intro hv
    simp [is_script_in_use, hg', hv]
  · intro r hv
    simp only [is_script_in_use, hg', hv, Option.map_some', Option.some.injEq, decide_eq_decide]
    omega
  · intro hd
    unfold i2c_get_impl at hg
    rw [if_pos ⟨by decide, hd⟩] at hg
    cases hg
    rfl

/-- C30, at a bus that cannot be opened: the read returns -1 and the result is
true. -/
theorem is_script_in_use_sentinel_witness :
    (is_script_in_use (-1) (fun _ => .lock_failed)).map (fun x => x.ret) = some true := by
  obtain ⟨g, _, h, _, hd⟩ := is_script_in_use_sentinel (-1) (fun _ => .lock_failed)
  exact h (hd (by decide))

/-! ## The bus lock -/

/-- C26: `lock_file` makes one pass only. When `open` fails it returns -1; when
`open` succeeds and `flock` fails it closes the descriptor, sleeps and returns
the closed descriptor, which is not negative; when both succeed it returns the
descriptor. So the result is -1 exactly when `open` fails, and the branch that
gives up after `ACQUIRE_I2C_LOCK_MAX_ATTEMPTS` attempts is never taken. -/
theorem lock_file_single_pass (os : Nat → LockAnswer) :
    ((os 0).fd < 0 →
      lock_file os = some ⟨-1, 1, false, [.sys_open (os 0).fd]⟩) ∧
    (0 ≤ (os 0).fd → (os 0).flock < 0 →
      lock_file os = some ⟨(os 0).fd, 1, false,
        [.sys_open (os 0).fd, .sys_flock (os 0).fd (os 0).flock, .sys_close (os 0).fd,
         .sys_usleep ACQUIRE_I2C_LOCK_INTERVAL_US]⟩) ∧
    (0 ≤ (os 0).fd → 0 ≤ (os 0).flock →
      lock_file os = some ⟨(os 0).fd, 1, false,
        [.sys_open (os 0).fd, .sys_flock (os 0).fd (os 0).flock]⟩) ∧
    (∃ r, lock_file os = some r ∧ r.attempts = 1 ∧ r.gave_up = false ∧
      (r.ret = -1 ↔ (os 0).fd < 0)) := by
  have h1 : (os 0).fd < 0 →
      lock_file os = some ⟨-1, 1, false, [.sys_open (os 0).fd]⟩ := by
    intro h
    simp [lock_file, lock_file_loop, h]
  have h2 : 0 ≤ (os 0).fd → (os 0).flock < 0 →
      lock_file os = some ⟨(os 0).fd, 1, false,
        [.sys_open (os 0).fd, .sys_flock (os 0).fd (os 0).flock, .sys_close (os 0).fd,
         .sys_usleep ACQUIRE_I2C_LOCK_INTERVAL_US]⟩ := by
    intro h hf
    have hn : ¬ (os 0).fd < 0 := by omega
    simp [lock_file, lock_file_loop, hn, hf, ACQUIRE_I2C_LOCK_MAX_ATTEMPTS]
  have h3 : 0 ≤ (os 0).fd → 0 ≤ (os 0).flock →
      lock_file os = some ⟨(os 0).fd, 1, false,
        [.sys_open (os 0).fd, .sys_flock (os 0).fd (os 0).flock]⟩ := by
    intro h hf
    have hn : ¬ (os 0).fd < 0 := by omega
    have hfn : ¬ (os 0).flock < 0 := by omega
    simp [lock_file, lock_file_loop, hn, hfn, ACQUIRE_I2C_LOCK_MAX_ATTEMPTS]
  refine ⟨h1, h2, h3, ?_⟩
  by_cases hfd : (os 0).fd < 0
  · exact ⟨_, h1 hfd, rfl, rfl, by simp [hfd]⟩
  · by_cases hfl : (os 0).flock < 0
    · exact ⟨_, h2 (by omega) hfl, rfl, rfl, by simp only; omega⟩
    · exact ⟨_, h3 (by omega) (by omega), rfl, rfl, by simp only; omega⟩

/-- C26, at a lock file that opens as descriptor 7 and a failing `flock`. -/
theorem lock_file_single_pass_witness :
    lock_file (fun _ => ⟨7, -1⟩) = some ⟨7, 1, false,
      [.sys_open 7, .sys_flock 7 (-1), .sys_close 7, .sys_usleep 200000]⟩ :=
  (lock_file_single_pass (fun _ => ⟨7, -1⟩)).2.1 (by decide) (by decide)

/-! ## Arrival detection of the daemon -/

/-- C24 as stated fails: over the observations 1, unknown, 1 the block that
synchronises the time runs once, not twice. -/
theorem daemon_reconnect_counterexample :
    daemon_run MODEL_UNKNOWN (MODEL_WITTYPI_5 :: MODEL_UNKNOWN :: MODEL_WITTYPI_5 :: [])
      = (MODEL_WITTYPI_5, 1) := by
  decide

/-- C24, as amended: a pass of the main loop runs the synchronisation block
exactly when the observed model is a known model (1..3) different from
`cur_model`, and then stores it in `cur_model`; an observation of
`MODEL_UNKNOWN` leaves `cur_model` as it is. So the observations m, unknown, m
of one known model run the block once, and m, unknown, m' with another known
model run it twice. -/
theorem daemon_arrival_rule (cur_model model : Int) :
    ((daemon_observe cur_model model).2 = true ↔
      (model ≠ cur_model ∧ 1 ≤ model ∧ model ≤ 3)) ∧
    ((daemon_observe cur_model model).1 =
      if model ≠ cur_model ∧ 1 ≤ model ∧ model ≤ 3 then model else cur_model) ∧
    daemon_observe cur_model MODEL_UNKNOWN = (cur_model, false) ∧
    (∀ m : Int, 1 ≤ m → m ≤ 3 →
      daemon_run MODEL_UNKNOWN [m, MODEL_UNKNOWN, m] = (m, 1)) ∧
    (∀ m m' : Int, 1 ≤ m → m ≤ 3 → 1 ≤ m' → m' ≤ 3 → m' ≠ m →
      daemon_run MODEL_UNKNOWN [m, MODEL_UNKNOWN, m'] = (m', 2)) := by
  have key : ∀ c m : Int, daemon_arrival c m = true ↔ (m ≠ c ∧ 1 ≤ m ∧ m ≤ 3) := by
    intro c m
    simp only [daemon_arrival, MODEL_UNKNOWN, wittypi_models_count, Bool.and_eq_true,
      decide_eq_true_eq]
    constructor
    · rintro ⟨⟨h1, h2⟩, h3⟩; exact ⟨h1, by omega, by omega⟩
    · rintro ⟨h1, h2, h3⟩; exact ⟨⟨h1, by omega⟩, by omega⟩
  have obs : ∀ c m : Int, daemon_observe c m =
      if m ≠ c ∧ 1 ≤ m ∧ m ≤ 3 then (m, true) else (c, false) := by
    intro c m
    unfold daemon_observe
    by_cases h : m ≠ c ∧ 1 ≤ m ∧ m ≤ 3
    · rw [if_pos ((key c m).mpr h), if_pos h]
    · rw [if_neg (fun h' => h ((key c m).mp h')), if_neg h]
  have hu : MODEL_UNKNOWN = 0 := rfl
  refine ⟨?_, ?_, ?_, ?_, ?_⟩
  · rw [obs]; split <;> simp_all
  · rw [obs]; split <;> simp_all
  · rw [obs, hu, if_neg (by omega)]
  · intro m h1 h3
    have hm0 : m ≠ 0 := by omega
    simp [daemon_run, obs, hu, hm0, h1, h3]
  · intro m m' h1 h3 h1' h3' hne
    have hm0 : m ≠ 0 := by omega
    have hm0' : m' ≠ 0 := by omega
    simp [daemon_run, obs, hu, hm0, hm0', h1, h3, h1', h3', hne]

/-- C24 as amended, at the observations 2, unknown, 3: the block runs twice;
and at 2, unknown, 2 it runs once. -/
theorem daemon_arrival_rule_witness :
    daemon_run MODEL_UNKNOWN (2 :: MODEL_UNKNOWN :: 3 :: []) = (3, 2) ∧
    daemon_run MODEL_UNKNOWN (2 :: MODEL_UNKNOWN :: 2 :: []) = (2, 1) :=
  ⟨(daemon_arrival_rule 0 0).2.2.2.2 2 3 (by decide) (by decide) (by decide) (by decide)
      (by decide),
    (daemon_arrival_rule 0 0).2.2.2.1 2 (by decide) (by decide)⟩

/-! ## Failed attempts of a validated read -/

theorem get_validated_fail_step (bus : Nat → ReadOutcome) (index fuel k same last : Nat)
    (v : Int) (tr : List Event) (hf : (bus k).failed = true) (hk : k < 10) (hs : same < 2) :
    ∃ tr', i2c_get_loop bus index true (fuel + 1) ⟨k, same, last, v, tr⟩ =
      i2c_get_loop bus index true fuel ⟨k + 1, same, last, v, tr'⟩ := by
  cases hb : bus k with
  | lock_failed =>
    exact ⟨tr ++ [.lock_file false, .usleep 1000],
      by simp [i2c_get_loop, hb, I2C_READ_MAX_ATTEMPTS, I2C_READ_VALIDATE_COUNT, hk, hs]⟩
  | ioctl_failed stale =>
    exact ⟨tr ++ [.lock_file true, .ioctl_read index false, .unlock_file, .usleep 1000],
      by simp [i2c_get_loop, hb, I2C_READ_MAX_ATTEMPTS, I2C_READ_VALIDATE_COUNT, hk, hs]⟩
  | ioctl_ok b =>
    rw [hb] at hf
    simp [ReadOutcome.failed] at hf

theorem get_validated_first_late (bus : Nat → ReadOutcome) (index fuel k b : Nat)
    (v : Int) (tr : List Event) (hb : bus k = .ioctl_ok b) (hk1 : 1 ≤ k) (hk : k < 10) :
    i2c_get_loop bus index true (fuel + 1) ⟨k, 0, 0, v, tr⟩ =
      i2c_get_loop bus index true fuel
        ⟨k + 1, 1, b, v, tr ++ [.lock_file true, .ioctl_read index true, .unlock_file]⟩ := by
  have hk0 : k ≠ 0 := by omega
  by_cases h : b = 0
  · simp [i2c_get_loop, hb, I2C_READ_MAX_ATTEMPTS, I2C_READ_VALIDATE_COUNT, hk, hk0, h]
  · simp [i2c_get_loop, hb, I2C_READ_MAX_ATTEMPTS, I2C_READ_VALIDATE_COUNT, hk, hk0, h]

theorem get_validated_all_failed (bus : Nat → ReadOutcome) (index : Nat) (d : Nat) :
    ∀ (k fuel same last : Nat) (v : Int) (tr : List Event), k + d = 10 → d < fuel → same < 2 →
      (∀ m, k ≤ m → m < 10 → (bus m).failed = true) →
      ∃ tr', i2c_get_loop bus index true fuel ⟨k, same, last, v, tr⟩ =
          some ⟨10, same, last, v, tr'⟩ := by
  induction d with
  | zero =>
    intro k fuel same last v tr hk hf _ _
    obtain ⟨fuel, rfl⟩ : ∃ f, fuel = f + 1 := ⟨fuel - 1, by omega⟩
    have : k = 10 := by omega
    subst this
    exact ⟨tr, by simp [i2c_get_loop, I2C_READ_MAX_ATTEMPTS]⟩
  | succ d ih =>
    intro k fuel same last v tr hk hf hs hall
    obtain ⟨fuel, rfl⟩ : ∃ f, fuel = f + 1 := ⟨fuel - 1, by omega⟩
    obtain ⟨tr1, h1⟩ := get_validated_fail_step bus index fuel k same last v tr
      (hall k (le_refl _) (by omega)) (by omega) hs
    obtain ⟨tr2, h2⟩ := ih (k + 1) fuel same last v tr1 (by omega) (by omega) hs
      (fun m hm1 hm2 => hall m (by omega) hm2)
    exact ⟨tr2, by rw [h1, h2]⟩

/-- C29: in a validated read a failed attempt, whether the lock or the exchange
fails, counts toward the ceiling of 10 attempts and leaves the stability count
as it is. The outcomes `A`, failure, `A` return `A` at the third attempt; ten
failed attempts return -1 after exactly ten attempts; and after a failed first
attempt the first byte read, zero or not, counts once, so that the outcomes
failure, `B`, `B` return `B` at the third attempt. -/
theorem i2c_get_validated_failures (dev_open i2c_dev : Int) (index : Nat)
    (bus : Nat → ReadOutcome) (hdev : 0 ≤ i2c_dev) :
    (∀ A, bus 0 = .ioctl_ok A → (bus 1).failed = true → bus 2 = .ioctl_ok A →
      (i2c_get_impl dev_open bus i2c_dev index true).map
        (fun res => (res.value, res.attempts)) = some ((A : Int), 3)) ∧
    ((∀ m, m < 10 → (bus m).failed = true) →
      (i2c_get_impl dev_open bus i2c_dev index true).map
        (fun res => (res.value, res.attempts)) = some (-1, 10)) ∧
    (∀ B, (bus 0).failed = true → bus 1 = .ioctl_ok B → bus 2 = .ioctl_ok B →
      (i2c_get_impl dev_open bus i2c_dev index true).map
        (fun res => (res.value, res.attempts)) = some ((B : Int), 3)) := by
  have hnd : ¬ i2c_dev < 0 := by omega
  refine ⟨?_, ?_, ?_⟩
  · intro A h0 h1 h2
    obtain ⟨tr1, e1⟩ := get_validated_fail_step bus index 9 1 1 A (-1)
      ([] ++ [.lock_file true, .ioctl_read index true, .unlock_file]) h1 (by decide) (by decide)
    unfold i2c_get_impl
    simp only [hnd, false_and, if_false, decide_False, Bool.false_eq_true]
    rw [show I2C_READ_MAX_ATTEMPTS + 1 = 10 + 1 from rfl,
      get_validated_first bus index 10 A [] h0, e1,
      get_validated_step bus index 8 2 A A (-1) tr1 (by decide) (by decide) h2, if_pos rfl]
    simp [I2C_READ_MAX_ATTEMPTS]
  · intro hall
    obtain ⟨tr1, e1⟩ := get_validated_all_failed bus index 10 0 11 0 0 (-1) [] rfl (by decide)
      (by decide) (fun m _ hm => hall m hm)
    unfold i2c_get_impl
    simp only [hnd, false_and, if_false, decide_False, Bool.false_eq_true]
    rw [show I2C_READ_MAX_ATTEMPTS + 1 = 11 from rfl, e1]
    simp [I2C_READ_MAX_ATTEMPTS, I2C_READ_VALIDATE_COUNT]
  · intro B h0 h1 h2
    obtain ⟨tr1, e1⟩ := get_validated_fail_step bus index 10 0 0 0 (-1) [] h0 (by decide)
      (by decide)
    unfold i2c_get_impl
    simp only [hnd, false_and, if_false, decide_False, Bool.false_eq_true]
    rw [show I2C_READ_MAX_ATTEMPTS + 1 = 10 + 1 from rfl, e1,
      get_validated_first_late bus index 9 1 B (-1) tr1 h1 (by decide) (by decide),
      get_validated_step bus index 8 2 B B (-1) _ (by decide) (by decide) h2, if_pos rfl]
    simp [I2C_READ_MAX_ATTEMPTS]

/-- C29, at the outcomes 7, lock failure, 7: the value 7 at the third attempt. -/
theorem i2c_get_validated_failures_witness :
    (i2c_get_impl 3 (fun k => if k = 1 then .lock_failed else .ioctl_ok 7) 3 0 true).map
        (fun res => (res.value, res.attempts)) = some (7, 3) :=
  (i2c_get_validated_failures 3 3 0 (fun k => if k = 1 then .lock_failed else .ioctl_ok 7)
    (by decide)).1 7 rfl rfl rfl

/-! ## The third attempt of `get_wittypi_model` -/

theorem i2c_get_unvalidated_locked (dev_open i2c_dev : Int) (index : Nat)
    (bus : Nat → ReadOutcome) (hdev : 0 ≤ i2c_dev) (hall : ∀ m, m < 10 → bus m = .lock_failed) :
    (i2c_get_impl dev_open bus i2c_dev index false).map
      (fun res => (res.value, res.attempts)) = some (-1, 10) := by
  have hnd : ¬ i2c_dev < 0 := by omega
  unfold i2c_get_impl
  simp [hnd, i2c_get_loop, I2C_READ_MAX_ATTEMPTS, hall 0, hall 1, hall 2, hall 3, hall 4, hall 5,
    hall 6, hall 7, hall 8, hall 9]

theorem i2c_get_unvalidated_locked_result (dev_open i2c_dev : Int) (index : Nat)
    (bus : Nat → ReadOutcome) (hdev : 0 ≤ i2c_dev) (hall : ∀ m, m < 10 → bus m = .lock_failed) :
    ∃ r, i2c_get_impl dev_open bus i2c_dev index false = some r ∧ r.value = -1 ∧
      r.attempts = 10 := by
  have h := i2c_get_unvalidated_locked dev_open i2c_dev index bus hdev hall
  rw [Option.map_eq_some'] at h
  obtain ⟨r, hr, hp⟩ := h
  exact ⟨r, hr, (Prod.mk.inj hp).1, (Prod.mk.inj hp).2⟩

/-- C22 fails in the code: when the first two reads of the firmware id return -1,
here because the lock is not free in their twenty attempts, `get_wittypi_model`
returns `MODEL_UNKNOWN` whatever the third read delivers, because the test
`attempts >= 3` comes before the test of the value read. -/
theorem get_wittypi_model_third_read_lost (dev_open : Int) (env : ReadEnv)
    (hdev : 0 ≤ dev_open) (hall : ∀ pos, pos < 20 → env pos I2C_FW_ID = .lock_failed) :
    (get_wittypi_model dev_open env).map (fun r => r.model) = some MODEL_UNKNOWN := by
  have hnd : ¬ dev_open < 0 := by omega
  obtain ⟨r1, hr1, hv1, ha1⟩ := i2c_get_unvalidated_locked_result dev_open dev_open I2C_FW_ID
    (fun k => env (0 + k) I2C_FW_ID) hdev (fun m hm => hall (0 + m) (by omega))
  obtain ⟨r2, hr2, hv2, ha2⟩ := i2c_get_unvalidated_locked_result dev_open dev_open I2C_FW_ID
    (fun k => env (0 + r1.attempts + k) I2C_FW_ID) hdev
    (fun m hm => hall (0 + r1.attempts + m) (by omega))
  obtain ⟨r3, hr3⟩ := i2c_get_impl_total dev_open
    (fun k => env (0 + r1.attempts + r2.attempts + k) I2C_FW_ID) dev_open I2C_FW_ID false
  unfold get_wittypi_model
  rw [if_neg hnd]
  unfold get_wittypi_model_loop
  simp only [hr1, hv1]
  rw [if_neg (by decide), if_pos trivial]
  unfold get_wittypi_model_loop
  simp only [hr2, hv2]
  rw [if_neg (by decide), if_pos trivial]
  unfold get_wittypi_model_loop
  simp only [hr3]
  rw [if_pos (by decide)]
  rfl

/-- C22, at a bus whose lock is not free for the first twenty attempts and that
delivers the id 0x51 of the Witty Pi 5 afterwards: the third read returns 0x51
and the result is `MODEL_UNKNOWN`. -/
theorem get_wittypi_model_third_read_lost_witness :
    (i2c_get_impl 3 (fun k => if 20 + k < 20 then .lock_failed else .ioctl_ok 0x51) 3 I2C_FW_ID
        false).map (fun r => r.value) = some 0x51 ∧
    model_of_fw_id 0x51 = MODEL_WITTYPI_5 ∧
    (get_wittypi_model 3
        (fun pos _ => if pos < 20 then .lock_failed else .ioctl_ok 0x51)).map
      (fun r => r.model) = some MODEL_UNKNOWN :=
  ⟨by decide, by decide,
    get_wittypi_model_third_read_lost 3
      (fun pos _ => if pos < 20 then .lock_failed else .ioctl_ok 0x51) (by decide)
      (fun pos h => if_pos h)⟩

/-! ## A checksum equal to the stream terminator -/

theorem pack_filename_output (f rest out : List Nat) (hne : f ≠ [])
    (hnul : ∀ b ∈ f, b ≠ 0) (hcap : f.length + 5 ≤ out.length) :
    pack_filename (some (f ++ 0 :: rest)) (some out) =
      (true, some (PACKET_BEGIN :: f ++
        [PACKET_DELIMITER, calculate_crc8 (PACKET_BEGIN :: f) (f.length + 1), PACKET_END, 0]
        ++ out.drop (f.length + 5))) := by
  obtain ⟨a, m, b1, b2, b3, t, hm, rfl⟩ := buffer_split out f.length hcap
  have hlen : 0 < f.length := List.length_pos.mpr hne
  have hdrop : (a :: (m ++ b1 :: b2 :: b3 :: t)).drop (f.length + 5) = t := by
    rw [List.drop_succ_cons, List.drop_append_eq_append_drop]
    have h1 : m.drop (f.length + 4) = [] := List.drop_eq_nil_of_le (by omega)
    have h2 : f.length + 4 - m.length = 3 := by omega
    rw [h1, h2]; rfl
  have hw : write_bytes (a :: (m ++ b1 :: b2 :: b3 :: t)) 1 (f ++ [0])
      = (a :: f) ++ 0 :: b1 :: b2 :: b3 :: t := by
    unfold write_bytes
    have h3 : (a :: (m ++ b1 :: b2 :: b3 :: t)).drop (1 + (f ++ [0]).length)
        = b1 :: b2 :: b3 :: t := by
      have e : 1 + (f ++ [0]).length = (f.length + 1) + 1 := by
        rw [List.length_append, List.length_singleton]; omega
      rw [e, List.drop_succ_cons, ← hm, List.drop_left]
    rw [h3]; simp
  have hs0 : ((a :: f) ++ 0 :: b1 :: b2 :: b3 :: t).set 0 PACKET_BEGIN
      = (PACKET_BEGIN :: f) ++ 0 :: b1 :: b2 :: b3 :: t := by simp
  have hcrc : calculate_crc8 ((PACKET_BEGIN :: f) ++ 0 :: b1 :: b2 :: b3 :: t) (f.length + 1)
      = calculate_crc8 (PACKET_BEGIN :: f) (f.length + 1) := by
    unfold calculate_crc8
    rw [List.take_left' (by simp), List.take_of_length_le (by simp)]
  unfold pack_filename
  simp only [strlen_append_nul f rest hnul, read_bytes_append_nul, hw, hs0, hcrc, hdrop]
  rw [if_neg (by omega)]
  rw [set_append_cons _ _ _ _ _ (by simp)]
  rw [show (PACKET_BEGIN :: f) ++ PACKET_DELIMITER :: b1 :: b2 :: b3 :: t
      = (PACKET_BEGIN :: f ++ [PACKET_DELIMITER]) ++ b1 :: b2 :: b3 :: t by simp]
  rw [set_append_cons _ _ _ _ _ (by simp)]
  rw [show (PACKET_BEGIN :: f ++ [PACKET_DELIMITER]) ++
        calculate_crc8 (PACKET_BEGIN :: f) (f.length + 1) :: b2 :: b3 :: t
      = (PACKET_BEGIN :: f ++ [PACKET_DELIMITER,
          calculate_crc8 (PACKET_BEGIN :: f) (f.length + 1)]) ++ b2 :: b3 :: t by simp]
  rw [set_append_cons _ _ _ _ _ (by simp)]
  rw [show (PACKET_BEGIN :: f ++ [PACKET_DELIMITER,
          calculate_crc8 (PACKET_BEGIN :: f) (f.length + 1)]) ++ PACKET_END :: b3 :: t
      = (PACKET_BEGIN :: f ++ [PACKET_DELIMITER,
          calculate_crc8 (PACKET_BEGIN :: f) (f.length + 1), PACKET_END]) ++ b3 :: t by simp]
  rw [set_append_cons _ _ _ _ _ (by simp)]
  simp

theorem read_bytes_append (a b : List Nat) : read_bytes (a ++ b) a.length = a := by
  induction a with
  | nil => simp [read_bytes]
  | cons c cs ih => rw [List.cons_append, List.length_cons, read_bytes_succ, ih]

theorem getD_append_ne (l r : List Nat) (e k : Nat) (hl : ∀ b ∈ l, b ≠ e) (hk : k < l.length) :
    (l ++ r).getD k 0 ≠ e := by
  rw [List.getD_append _ _ _ _ hk, List.getD_eq_getElem _ _ hk]
  exact hl _ (List.getElem_mem hk)

theorem write_stream_stops_open (dev_open : Int) (env : WriteEnv) (i2c_dev : Int)
    (index : Nat) (buf : List Nat) (size t expected : Nat) (hdev : 0 ≤ i2c_dev ∨ 0 ≤ dev_open)
    (ht : t < size) (heq : buf.getD t 0 = expected)
    (hne : ∀ k, k < t → buf.getD k 0 ≠ expected) :
    (i2c_write_stream_util dev_open env i2c_dev index buf (size : Int) expected).map
        (fun r => (r.len, r.written)) = some ((t : Int) + 1, read_bytes buf (t + 1)) := by
  have hnd : ¬ (i2c_dev < 0 ∧ dev_open < 0) := by omega
  obtain ⟨tr', h⟩ := write_stream_loop_stops dev_open env
    (if decide (i2c_dev < 0) = true then dev_open else i2c_dev) index buf size t expected ht heq
    hne t 0 (size + 1) 0 [] (if decide (i2c_dev < 0) = true then [.open_device true] else [])
    (by omega) (by omega)
  unfold i2c_write_stream_util
  rw [if_neg hnd]
  simp only [Int.toNat_ofNat]
  rw [h]
  simp [read_bytes, List.range_eq_range']

/-- C25: for every non-empty filename `f` of `n` bytes without NUL and without
`>` whose checksum `calculate_crc8` over `<` and `f` is 0x3E, the code of `>`,
`pack_filename` succeeds and `i2c_write_stream_util` over the packet with the
terminator `>` hands `<`, `f`, the delimiter and the checksum to the writes
and returns `n + 3`: the byte at index `n + 3`, the end marker of the packet, is
not written. -/
theorem crc_collides_with_terminator (dev_open : Int) (env : WriteEnv) (i2c_dev : Int)
    (index : Nat) (f rest out : List Nat) (size : Nat) (hdev : 0 ≤ i2c_dev ∨ 0 ≤ dev_open)
    (hne : f ≠ []) (hnul : ∀ b ∈ f, b ≠ 0) (hgt : ∀ b ∈ f, b ≠ PACKET_END)
    (hcap : f.length + 5 ≤ out.length) (hsize : f.length + 2 < size)
    (hcrc : calculate_crc8 (PACKET_BEGIN :: f) (f.length + 1) = PACKET_END) :
    ∃ p, pack_filename (some (f ++ 0 :: rest)) (some out) = (true, some p) ∧
      p.getD (f.length + 3) 0 = PACKET_END ∧
      (i2c_write_stream_util dev_open env i2c_dev index p (size : Int) PACKET_END).map
          (fun r => (r.len, r.written)) =
        some ((f.length : Int) + 3, PACKET_BEGIN :: f ++ [PACKET_DELIMITER, PACKET_END]) := by
  refine ⟨_, pack_filename_output f rest out hne hnul hcap, ?_, ?_⟩
  · rw [hcrc]
    have e : PACKET_BEGIN :: f ++ [PACKET_DELIMITER, PACKET_END, PACKET_END, 0] ++
        out.drop (f.length + 5) =
        (PACKET_BEGIN :: f ++ [PACKET_DELIMITER, PACKET_END]) ++
          PACKET_END :: (0 :: out.drop (f.length + 5)) := by simp
    have hl : f.length + 3 = (PACKET_BEGIN :: f ++ [PACKET_DELIMITER, PACKET_END]).length := by
      simp
    rw [e, hl, getD_append_cons]
  · rw [hcrc]
    have e1 : PACKET_BEGIN :: f ++ [PACKET_DELIMITER, PACKET_END, PACKET_END, 0] ++
        out.drop (f.length + 5) =
        (PACKET_BEGIN :: f ++ [PACKET_DELIMITER]) ++
          PACKET_END :: (PACKET_END :: 0 :: out.drop (f.length + 5)) := by simp
    have e2 : PACKET_BEGIN :: f ++ [PACKET_DELIMITER, PACKET_END, PACKET_END, 0] ++
        out.drop (f.length + 5) =
        (PACKET_BEGIN :: f ++ [PACKET_DELIMITER, PACKET_END]) ++
          (PACKET_END :: 0 :: out.drop (f.length + 5)) := by simp
    have hl1 : f.length + 2 = (PACKET_BEGIN :: f ++ [PACKET_DELIMITER]).length := by simp
    have hl2 : f.length + 2 + 1 = (PACKET_BEGIN :: f ++ [PACKET_DELIMITER, PACKET_END]).length := by
      simp
    have hmem : ∀ b ∈ PACKET_BEGIN :: f ++ [PACKET_DELIMITER], b ≠ PACKET_END := by
      intro b hb
      simp only [List.cons_append, List.mem_cons, List.mem_append, List.mem_singleton,
        List.not_mem_nil, or_false] at hb
      rcases hb with rfl | hb | rfl
      · decide
      · exact hgt b hb
      · decide
    have h := write_stream_stops_open dev_open env i2c_dev index
      (PACKET_BEGIN :: f ++ [PACKET_DELIMITER, PACKET_END, PACKET_END, 0] ++
        out.drop (f.length + 5)) size (f.length + 2) PACKET_END hdev hsize
      (by rw [e1, hl1, getD_append_cons])
      (fun k hk => by rw [e1]; exact getD_append_ne _ _ _ _ hmem (by rw [← hl1]; exact hk))
    rw [h]
    have hr : read_bytes (PACKET_BEGIN :: f ++ [PACKET_DELIMITER, PACKET_END, PACKET_END, 0] ++
        out.drop (f.length + 5)) (f.length + 2 + 1) =
        PACKET_BEGIN :: f ++ [PACKET_DELIMITER, PACKET_END] := by
      rw [e2, hl2, read_bytes_append]
    rw [hr]
    simp only [Nat.cast_add, Nat.cast_ofNat, Option.some.injEq, Prod.mk.injEq, and_true]
    omega

/-- C25, at the filename of the single byte 0xA4: the checksum over `<` and 0xA4
is 0x3E, and the write of the packet stops after four bytes. -/
theorem crc_collides_with_terminator_witness :
    calculate_crc8 [0x3C, 0xA4] 2 = 0x3E ∧
    ∃ p, pack_filename (some ([0xA4] ++ 0 :: [])) (some [0, 0, 0, 0, 0, 0]) = (true, some p) ∧
      p.getD (([0xA4] : List Nat).length + 3) 0 = PACKET_END ∧
      (i2c_write_stream_util 3 (fun _ _ _ => .write_failed) (-1) 67 p ((512 : Nat) : Int)
          PACKET_END).map (fun r => (r.len, r.written)) =
        some (((([0xA4] : List Nat).length : Nat) : Int) + 3,
          PACKET_BEGIN :: [0xA4] ++ [PACKET_DELIMITER, PACKET_END]) :=
  ⟨by decide, crc_collides_with_terminator 3 (fun _ _ _ => .write_failed) (-1) 67 [0xA4] []
    [0, 0, 0, 0, 0, 0] 512 (by decide) (by decide) (by decide) (by decide) (by decide)
    (by decide) (by decide)⟩

/-! ## Alarm times over an ideal register store -/

theorem i2c_set_echo (dev_open i2c_dev : Int) (index value : Nat) (bus : Nat → WriteOutcome)
    (hdev : 0 ≤ i2c_dev) (h0 : bus 0 = .readback value) :
    i2c_set dev_open bus i2c_dev index value =
      some ⟨true, [.lock_file true, .ioctl_write index value true,
        .usleep I2C_WRITE_VALIDATE_DELAY_US, .ioctl_read index true, .unlock_file]⟩ := by
  have hnd : ¬ i2c_dev < 0 := by omega
  unfold i2c_set i2c_set_impl
  simp [hnd, i2c_set_loop, h0, I2C_WRITE_MAX_ATTEMPTS]

theorem set_alarm_time_ideal (sr mr hr dr : Nat) (dev_open : Int) (d h m s : Nat)
    (hdev : 0 ≤ dev_open) (hd1 : 1 ≤ d) (hd : d ≤ 31) (hh : h ≤ 23) (hm : m ≤ 59)
    (hs : s ≤ 59) :
    set_alarm_time sr mr hr dr dev_open ideal_write d h m s =
      some ⟨true,
        [.open_device true,
         .lock_file true, .ioctl_write sr (dec_to_bcd s) true,
         .usleep I2C_WRITE_VALIDATE_DELAY_US, .ioctl_read sr true, .unlock_file,
         .lock_file true, .ioctl_write mr (dec_to_bcd m) true,
         .usleep I2C_WRITE_VALIDATE_DELAY_US, .ioctl_read mr true, .unlock_file,
         .lock_file true, .ioctl_write hr (dec_to_bcd h) true,
         .usleep I2C_WRITE_VALIDATE_DELAY_US, .ioctl_read hr true, .unlock_file,
         .lock_file true, .ioctl_write dr (dec_to_bcd d) true,
         .usleep I2C_WRITE_VALIDATE_DELAY_US, .ioctl_read dr true, .unlock_file,
         .close_device]⟩ := by
  have hnd : ¬ dev_open < 0 := by omega
  have hok : ¬ (d < 1 ∨ d > 31 ∨ h > 23 ∨ m > 59 ∨ s > 59) := by omega
  have g : ∀ (p index value : Nat),
      i2c_set dev_open (fun k => ideal_write (p + k) index value) dev_open index value =
        some ⟨true, [.lock_file true, .ioctl_write index value true,
          .usleep I2C_WRITE_VALIDATE_DELAY_US, .ioctl_read index true, .unlock_file]⟩ :=
    fun p index value => i2c_set_echo dev_open dev_open index value _ hdev rfl
  have g0 : ∀ (index value : Nat),
      i2c_set dev_open (fun k => ideal_write k index value) dev_open index value =
        some ⟨true, [.lock_file true, .ioctl_write index value true,
          .usleep I2C_WRITE_VALIDATE_DELAY_US, .ioctl_read index true, .unlock_file]⟩ :=
    fun index value => i2c_set_echo dev_open dev_open index value _ hdev rfl
  unfold set_alarm_time
  rw [if_neg hok, if_neg hnd]
  simp only [g, g0]
  rfl

theorem store_after_alarm (regs : Nat → Nat) (sr mr hr dr vs vm vh vd : Nat)
    (hdist : sr ≠ mr ∧ sr ≠ hr ∧ sr ≠ dr ∧ mr ≠ hr ∧ mr ≠ dr ∧ hr ≠ dr) :
    store_after regs
        [.open_device true,
         .lock_file true, .ioctl_write sr vs true,
         .usleep I2C_WRITE_VALIDATE_DELAY_US, .ioctl_read sr true, .unlock_file,
         .lock_file true, .ioctl_write mr vm true,
         .usleep I2C_WRITE_VALIDATE_DELAY_US, .ioctl_read mr true, .unlock_file,
         .lock_file true, .ioctl_write hr vh true,
         .usleep I2C_WRITE_VALIDATE_DELAY_US, .ioctl_read hr true, .unlock_file,
         .lock_file true, .ioctl_write dr vd true,
         .usleep I2C_WRITE_VALIDATE_DELAY_US, .ioctl_read dr true, .unlock_file,
         .close_device] sr = vs ∧
    store_after regs
        [.open_device true,
         .lock_file true, .ioctl_write sr vs true,
         .usleep I2C_WRITE_VALIDATE_DELAY_US, .ioctl_read sr true, .unlock_file,
         .lock_file true, .ioctl_write mr vm true,
         .usleep I2C_WRITE_VALIDATE_DELAY_US, .ioctl_read mr true, .unlock_file,
         .lock_file true, .ioctl_write hr vh true,
         .usleep I2C_WRITE_VALIDATE_DELAY_US, .ioctl_read hr true, .unlock_file,
         .lock_file true, .ioctl_write dr vd true,
         .usleep I2C_WRITE_VALIDATE_DELAY_US, .ioctl_read dr true, .unlock_file,
         .close_device] mr = vm ∧
    store_after regs
        [.open_device true,
         .lock_file true, .ioctl_write sr vs true,
         .usleep I2C_WRITE_VALIDATE_DELAY_US, .ioctl_read sr true, .unlock_file,
         .lock_file true, .ioctl_write mr vm true,
         .usleep I2C_WRITE_VALIDATE_DELAY_US, .ioctl_read mr true, .unlock_file,
         .lock_file true, .ioctl_write hr vh true,
         .usleep I2C_WRITE_VALIDATE_DELAY_US, .ioctl_read hr true, .unlock_file,
         .lock_file true, .ioctl_write dr vd true,
         .usleep I2C_WRITE_VALIDATE_DELAY_US, .ioctl_read dr true, .unlock_file,
         .close_device] hr = vh ∧
    store_after regs
        [.open_device true,
         .lock_file true, .ioctl_write sr vs true,
         .usleep I2C_WRITE_VALIDATE_DELAY_US, .ioctl_read sr true, .unlock_file,
         .lock_file true, .ioctl_write mr vm true,
         .usleep I2C_WRITE_VALIDATE_DELAY_US, .ioctl_read mr true, .unlock_file,
         .lock_file true, .ioctl_write hr vh true,
         .usleep I2C_WRITE_VALIDATE_DELAY_US, .ioctl_read hr true, .unlock_file,
         .lock_file true, .ioctl_write dr vd true,
         .usleep I2C_WRITE_VALIDATE_DELAY_US, .ioctl_read dr true, .unlock_file,
         .close_device] dr = vd := by
  obtain ⟨h1, h2, h3, h4, h5, h6⟩ := hdist
  simp [store_after, h1, h2, h3, h4, h5, h6]

theorem get_alarm_time_stored (sr mr hr dr : Nat) (dev_open : Int) (regs : Nat → Nat)
    (d h m s d0 h0 m0 s0 : Nat) (hdev : 0 ≤ dev_open) (hd1 : 1 ≤ d) (hd : d ≤ 31)
    (hh : h ≤ 23) (hm : m ≤ 59) (hs : s ≤ 59)
    (es : regs sr = dec_to_bcd s) (em : regs mr = dec_to_bcd m)
    (eh : regs hr = dec_to_bcd h) (ed : regs dr = dec_to_bcd d) :
    (get_alarm_time sr mr hr dr dev_open (ideal_read regs) (some d0) (some h0) (some m0)
        (some s0)).map (fun r => (r.ret, r.date, r.hour, r.minute, r.second)) =
      some (true, some d, some h, some m, some s) := by
  have g1 := i2c_get_constant dev_open dev_open sr (dec_to_bcd s)
    (fun k => ideal_read regs k sr) hdev (congrArg _ es) (congrArg _ es)
  have g2 := i2c_get_constant dev_open dev_open mr (dec_to_bcd m)
    (fun k => ideal_read regs (2 + k) mr) hdev (congrArg _ em) (congrArg _ em)
  have g3 := i2c_get_constant dev_open dev_open hr (dec_to_bcd h)
    (fun k => ideal_read regs (2 + 2 + k) hr) hdev (congrArg _ eh) (congrArg _ eh)
  have g4 := i2c_get_constant dev_open dev_open dr (dec_to_bcd d)
    (fun k => ideal_read regs (2 + 2 + 2 + k) dr) hdev (congrArg _ ed) (congrArg _ ed)
  have hnd : ¬ dev_open < 0 := by omega
  unfold get_alarm_time
  simp only [Option.isNone_some, Bool.false_eq_true, or_self, if_false, hnd, g1, g2, g3, g4]
  have hneg : ¬ (((dec_to_bcd s : Nat) : Int) < 0 ∨ ((dec_to_bcd m : Nat) : Int) < 0 ∨
      ((dec_to_bcd h : Nat) : Int) < 0 ∨ ((dec_to_bcd d : Nat) : Int) < 0) := by omega
  rw [if_neg hneg]
  simp only [bcd_byte_roundtrip s (by omega), bcd_byte_roundtrip m (by omega),
    bcd_byte_roundtrip h (by omega), bcd_byte_roundtrip d (by omega), Option.map_some']
  have hok : ¬ (s > 59 ∨ m > 59 ∨ h > 23 ∨ d = 0 ∨ d > 31) := by omega
  simp [hok]

/-- C27: over an ideal register store, where every validated write reads back
what it wrote and every read delivers the byte stored last, for a day `d` from 1
to 31, an hour `h` up to 23 and `m`, `s` up to 59, `set_startup_time` returns
true, leaves the codes of `s`, `m`, `h`, `d` in the registers 32 to 35, and
`get_startup_time` on the registers it leaves returns true with exactly `d`,
`h`, `m`, `s`; the same holds for `set_shutdown_time` and `get_shutdown_time`
with the registers 36 to 39. -/
theorem alarm_round_trip (dev_open : Int) (regs : Nat → Nat) (d h m s d0 h0 m0 s0 : Nat)
    (hdev : 0 ≤ dev_open) (hd1 : 1 ≤ d) (hd : d ≤ 31) (hh : h ≤ 23) (hm : m ≤ 59)
    (hs : s ≤ 59) :
    (∃ w, set_startup_time dev_open ideal_write d h m s = some w ∧ w.success = true ∧
      (store_after regs w.trace 32 = dec_to_bcd s ∧ store_after regs w.trace 33 = dec_to_bcd m ∧
        store_after regs w.trace 34 = dec_to_bcd h ∧
        store_after regs w.trace 35 = dec_to_bcd d) ∧
      (get_startup_time dev_open (ideal_read (store_after regs w.trace)) (some d0) (some h0)
          (some m0) (some s0)).map (fun r => (r.ret, r.date, r.hour, r.minute, r.second)) =
        some (true, some d, some h, some m, some s)) ∧
    (∃ w, set_shutdown_time dev_open ideal_write d h m s = some w ∧ w.success = true ∧
      (store_after regs w.trace 36 = dec_to_bcd s ∧ store_after regs w.trace 37 = dec_to_bcd m ∧
        store_after regs w.trace 38 = dec_to_bcd h ∧
        store_after regs w.trace 39 = dec_to_bcd d) ∧
      (get_shutdown_time dev_open (ideal_read (store_after regs w.trace)) (some d0) (some h0)
          (some m0) (some s0)).map (fun r => (r.ret, r.date, r.hour, r.minute, r.second)) =
        some (true, some d, some h, some m, some s)) := by
  constructor
  · have e : store_after regs _ 32 = dec_to_bcd s ∧ store_after regs _ 33 = dec_to_bcd m ∧
        store_after regs _ 34 = dec_to_bcd h ∧ store_after regs _ 35 = dec_to_bcd d :=
      store_after_alarm regs 32 33 34 35 (dec_to_bcd s) (dec_to_bcd m) (dec_to_bcd h)
        (dec_to_bcd d) (by decide)
    exact ⟨_, set_alarm_time_ideal _ _ _ _ dev_open d h m s hdev hd1 hd hh hm hs, rfl, e,
      get_alarm_time_stored _ _ _ _ dev_open _ d h m s d0 h0 m0 s0 hdev hd1 hd hh hm hs
        e.1 e.2.1 e.2.2.1 e.2.2.2⟩
  · have e : store_after regs _ 36 = dec_to_bcd s ∧ store_after regs _ 37 = dec_to_bcd m ∧
        store_after regs _ 38 = dec_to_bcd h ∧ store_after regs _ 39 = dec_to_bcd d :=
      store_after_alarm regs 36 37 38 39 (dec_to_bcd s) (dec_to_bcd m) (dec_to_bcd h)
        (dec_to_bcd d) (by decide)
    exact ⟨_, set_alarm_time_ideal _ _ _ _ dev_open d h m s hdev hd1 hd hh hm hs, rfl, e,
      get_alarm_time_stored _ _ _ _ dev_open _ d h m s d0 h0 m0 s0 hdev hd1 hd hh hm hs
        e.1 e.2.1 e.2.2.1 e.2.2.2⟩

/-- C27, at day 15, 07:30:00. -/
theorem alarm_round_trip_witness :
    (∃ w, set_startup_time 3 ideal_write 15 7 30 0 = some w ∧ w.success = true ∧
      (store_after (fun _ => 0) w.trace 32 = dec_to_bcd 0 ∧
        store_after (fun _ => 0) w.trace 33 = dec_to_bcd 30 ∧
        store_after (fun _ => 0) w.trace 34 = dec_to_bcd 7 ∧
        store_after (fun _ => 0) w.trace 35 = dec_to_bcd 15) ∧
      (get_startup_time 3 (ideal_read (store_after (fun _ => 0) w.trace)) (some 0) (some 0)
          (some 0) (some 0)).map (fun r => (r.ret, r.date, r.hour, r.minute, r.second)) =
        some (true, some 15, some 7, some 30, some 0)) :=
  (alarm_round_trip 3 (fun _ => 0) 15 7 30 0 0 0 0 0 (by decide) (by decide) (by decide)
    (by decide) (by decide) (by decide)).1

/-! ## The weekday written by `system_to_rtc` -/

theorem to_uint8_cast (n : Nat) (h : n < 256) : to_uint8 (n : Int) = n := by
  unfold to_uint8
  omega

theorem rtc_field_roundtrip : ∀ d, d < 100 →
    to_int8 (bcd_to_dec (to_uint8 ((dec_to_bcd d : Nat) : Int))) = (d : Int) := by
  decide

theorem rtc_year_roundtrip : ∀ d, d < 100 →
    (bcd_to_dec (to_uint8 ((dec_to_bcd d : Nat) : Int)) : Int) = (d : Int) := by
  decide

theorem rtc_weekday_values : ∀ w, w < 7 →
    BIT_VALUE (dec_to_bcd w) % 256 = 1 <<< w ∧ 1 <<< w ≠ dec_to_bcd w ∧
    to_int8 (bcd_to_dec (to_uint8 ((1 <<< w : Nat) : Int)) &&& 0x07) ≠ (w : Int) := by
  decide

theorem system_to_rtc_ideal (dev_open : Int) (y mo d h mi s wd : Nat) (hdev : 0 ≤ dev_open)
    (hy : y < 256) (hmo : mo < 256) (hd : d < 256) (hh : h < 256) (hmi : mi < 256)
    (hs : s < 256) (hwd : wd < 7) :
    system_to_rtc (some ⟨2000 + (y : Int), mo, d, h, mi, s, wd⟩) dev_open ideal_write =
      some ⟨true,
        [.open_device true,
         .lock_file true, .ioctl_write 80 (dec_to_bcd s) true,
         .usleep I2C_WRITE_VALIDATE_DELAY_US, .ioctl_read 80 true, .unlock_file,
         .lock_file true, .ioctl_write 81 (dec_to_bcd mi) true,
         .usleep I2C_WRITE_VALIDATE_DELAY_US, .ioctl_read 81 true, .unlock_file,
         .lock_file true, .ioctl_write 82 (dec_to_bcd h) true,
         .usleep I2C_WRITE_VALIDATE_DELAY_US, .ioctl_read 82 true, .unlock_file,
         .lock_file true, .ioctl_write 83 (1 <<< wd) true,
         .usleep I2C_WRITE_VALIDATE_DELAY_US, .ioctl_read 83 true, .unlock_file,
         .lock_file true, .ioctl_write 84 (dec_to_bcd d) true,
         .usleep I2C_WRITE_VALIDATE_DELAY_US, .ioctl_read 84 true, .unlock_file,
         .lock_file true, .ioctl_write 85 (dec_to_bcd mo) true,
         .usleep I2C_WRITE_VALIDATE_DELAY_US, .ioctl_read 85 true, .unlock_file,
         .lock_file true, .ioctl_write 86 (dec_to_bcd y) true,
         .usleep I2C_WRITE_VALIDATE_DELAY_US, .ioctl_read 86 true, .unlock_file,
         .close_device]⟩ := by
  have hnd : ¬ dev_open < 0 := by omega
  have g : ∀ (p index value : Nat),
      i2c_set dev_open (fun k => ideal_write (p + k) index value) dev_open index value =
        some ⟨true, [.lock_file true, .ioctl_write index value true,
          .usleep I2C_WRITE_VALIDATE_DELAY_US, .ioctl_read index true, .unlock_file]⟩ :=
    fun p index value => i2c_set_echo dev_open dev_open index value _ hdev rfl
  have g0 : ∀ (index value : Nat),
      i2c_set dev_open (fun k => ideal_write k index value) dev_open index value =
        some ⟨true, [.lock_file true, .ioctl_write index value true,
          .usleep I2C_WRITE_VALIDATE_DELAY_US, .ioctl_read index true, .unlock_file]⟩ :=
    fun index value => i2c_set_echo dev_open dev_open index value _ hdev rfl
  have ey : (2000 + (y : Int)) - 2000 = (y : Int) := by omega
  unfold system_to_rtc
  simp only [if_neg hnd, ey, to_uint8_cast _ hy, to_uint8_cast _ hmo, to_uint8_cast _ hd,
    to_uint8_cast _ hh, to_uint8_cast _ hmi, to_uint8_cast _ hs,
    to_uint8_cast wd (by omega), (rtc_weekday_values wd hwd).1, g, g0, Option.bind_eq_bind,
    Option.some_bind, Option.pure_def]
  rfl

theorem system_to_rtc_store (dev_open : Int) (regs : Nat → Nat) (y mo d h mi s wd : Nat)
    (hdev : 0 ≤ dev_open) (hy : y < 256) (hmo : mo < 256) (hd : d < 256) (hh : h < 256)
    (hmi : mi < 256) (hs : s < 256) (hwd : wd < 7) :
    ∃ w, system_to_rtc (some ⟨2000 + (y : Int), mo, d, h, mi, s, wd⟩) dev_open ideal_write =
        some w ∧ w.success = true ∧
      store_after regs w.trace 80 = dec_to_bcd s ∧ store_after regs w.trace 81 = dec_to_bcd mi ∧
      store_after regs w.trace 82 = dec_to_bcd h ∧ store_after regs w.trace 83 = 1 <<< wd ∧
      store_after regs w.trace 84 = dec_to_bcd d ∧ store_after regs w.trace 85 = dec_to_bcd mo ∧
      store_after regs w.trace 86 = dec_to_bcd y := by
  refine ⟨_, system_to_rtc_ideal dev_open y mo d h mi s wd hdev hy hmo hd hh hmi hs hwd, rfl,
    ?_⟩
  simp [store_after]

theorem get_rtc_time_stored (dev_open : Int) (regs : Nat → Nat) (y mo d h mi s v : Nat)
    (dt0 : DateTime) (hdev : 0 ≤ dev_open) (hy : y < 100) (hmo : mo < 100) (hd : d < 100)
    (hh : h < 100) (hmi : mi < 100) (hs : s < 100)
    (e80 : regs 80 = dec_to_bcd s) (e81 : regs 81 = dec_to_bcd mi)
    (e82 : regs 82 = dec_to_bcd h) (e83 : regs 83 = v) (e84 : regs 84 = dec_to_bcd d)
    (e85 : regs 85 = dec_to_bcd mo) (e86 : regs 86 = dec_to_bcd y) :
    (get_rtc_time dev_open (ideal_read regs) (some dt0)).map (fun r => (r.ret, r.dt)) =
      some (true, some ⟨2000 + (y : Int), mo, d, h, mi, s,
        to_int8 (bcd_to_dec (to_uint8 (v : Int)) &&& 0x07)⟩) := by
  have hnd : ¬ dev_open < 0 := by omega
  have g : ∀ (p index : Nat),
      i2c_get dev_open (fun k => ideal_read regs (p + k) index) dev_open index =
        some ⟨(regs index : Int), 2,
          [.lock_file true, .ioctl_read index true, .unlock_file,
           .lock_file true, .ioctl_read index true, .unlock_file]⟩ :=
    fun p index => i2c_get_constant dev_open dev_open index (regs index) _ hdev rfl rfl
  have g0 : ∀ (index : Nat),
      i2c_get dev_open (fun k => ideal_read regs k index) dev_open index =
        some ⟨(regs index : Int), 2,
          [.lock_file true, .ioctl_read index true, .unlock_file,
           .lock_file true, .ioctl_read index true, .unlock_file]⟩ :=
    fun index => i2c_get_constant dev_open dev_open index (regs index) _ hdev rfl rfl
  have hneg : ∀ a b c d e f g : Nat, ¬ ((a : Int) < 0 ∨ (b : Int) < 0 ∨ (c : Int) < 0 ∨
      (d : Int) < 0 ∨ (e : Int) < 0 ∨ (f : Int) < 0 ∨ (g : Int) < 0) := by
    intro a b c d e f g
    omega
  unfold get_rtc_time
  simp only [if_neg hnd, g, g0, Option.bind_eq_bind, Option.some_bind, Option.pure_def,
    I2C_VREG_RX8025_SEC, I2C_VREG_RX8025_MIN, I2C_VREG_RX8025_HOUR, I2C_VREG_RX8025_WEEKDAY,
    I2C_VREG_RX8025_DAY, I2C_VREG_RX8025_MONTH, I2C_VREG_RX8025_YEAR, hneg, if_false,
    Option.map_some', e80, e81, e82, e83, e84, e85, e86, rtc_field_roundtrip s hs,
    rtc_field_roundtrip mi hmi, rtc_field_roundtrip h hh, rtc_field_roundtrip d hd,
    rtc_field_roundtrip mo hmo, rtc_year_roundtrip y hy]

/-- C23 fails in the code: over an ideal register store `system_to_rtc` writes
the codes `dec_to_bcd` of the second, minute, hour, day, month and year minus
2000 to the registers 80, 81, 82, 84, 85 and 86, but to the register 83 it
writes `BIT_VALUE(dec_to_bcd(wday))`, the mask `1 << wday`, which is not
`dec_to_bcd(wday)` for any weekday 0..6; `get_rtc_time` on the written registers
decodes the six other fields and a weekday different from the one written. -/
theorem system_to_rtc_weekday_mask (dev_open : Int) (regs : Nat → Nat)
    (y mo d h mi s wd : Nat) (dt0 : DateTime) (hdev : 0 ≤ dev_open) (hy : y ≤ 99)
    (hmo1 : 1 ≤ mo) (hmo : mo ≤ 12) (hd1 : 1 ≤ d) (hd : d ≤ 31) (hh : h ≤ 23) (hmi : mi ≤ 59)
    (hs : s ≤ 59) (hwd : wd ≤ 6) :
    ∃ w, system_to_rtc (some ⟨2000 + (y : Int), mo, d, h, mi, s, wd⟩) dev_open ideal_write =
        some w ∧ w.success = true ∧ write_count w.trace = 7 ∧
      store_after regs w.trace 83 = 1 <<< wd ∧ 1 <<< wd ≠ dec_to_bcd wd ∧
      ∃ wd' : Int, wd' ≠ (wd : Int) ∧
        (get_rtc_time dev_open (ideal_read (store_after regs w.trace)) (some dt0)).map
            (fun r => (r.ret, r.dt)) =
          some (true, some ⟨2000 + (y : Int), mo, d, h, mi, s, wd'⟩) := by
  obtain ⟨w, hw, hsucc, e80, e81, e82, e83, e84, e85, e86⟩ :=
    system_to_rtc_store dev_open regs y mo d h mi s wd hdev (by omega) (by omega) (by omega)
      (by omega) (by omega) (by omega) (by omega)
  have hcount : write_count w.trace = 7 := by
    have h2 := system_to_rtc_ideal dev_open y mo d h mi s wd hdev (by omega) (by omega)
      (by omega) (by omega) (by omega) (by omega) (by omega)
    rw [hw] at h2
    cases h2
    simp [write_count]
  exact ⟨w, hw, hsucc, hcount, e83, (rtc_weekday_values wd (by omega)).2.1, _,
    (rtc_weekday_values wd (by omega)).2.2,
    get_rtc_time_stored dev_open _ y mo d h mi s (1 <<< wd) dt0 hdev (by omega) (by omega)
      (by omega) (by omega) (by omega) (by omega) e80 e81 e82 e83 e84 e85 e86⟩

/-- C23, at the system time 2025-06-18 12:30:45, weekday 3: the register 83
receives 8 and `get_rtc_time` decodes the weekday 0. -/
theorem system_to_rtc_weekday_mask_witness :
    ∃ w, system_to_rtc (some ⟨2000 + ((25 : Nat) : Int), (6 : Nat), (18 : Nat), (12 : Nat),
          (30 : Nat), (45 : Nat), (3 : Nat)⟩) 3 ideal_write = some w ∧ w.success = true ∧
      write_count w.trace = 7 ∧
      store_after (fun _ => 0) w.trace 83 = 1 <<< 3 ∧ 1 <<< 3 ≠ dec_to_bcd 3 ∧
      ∃ wd' : Int, wd' ≠ ((3 : Nat) : Int) ∧
        (get_rtc_time 3 (ideal_read (store_after (fun _ => 0) w.trace))
            (some ⟨0, 0, 0, 0, 0, 0, 0⟩)).map (fun r => (r.ret, r.dt)) =
          some (true, some ⟨2000 + ((25 : Nat) : Int), (6 : Nat), (18 : Nat), (12 : Nat),
            (30 : Nat), (45 : Nat), wd'⟩) :=
  system_to_rtc_weekday_mask 3 (fun _ => 0) 25 6 18 12 30 45 3 ⟨0, 0, 0, 0, 0, 0, 0⟩
    (by decide) (by decide) (by decide) (by decide) (by decide) (by decide) (by decide)
    (by decide) (by decide) (by decide)

/-! ## The reserved name is tested as a prefix -/

theorem fmt_str_entry (e rest : List Nat) (x : Nat) (he : ∀ c ∈ e, c ≠ 0) :
    fmt_str ((e ++ x :: rest).length - (x :: rest).length) (e ++ x :: rest) = e := by
  have hl : (e ++ x :: rest).length - (x :: rest).length = e.length := by
    simp
  unfold fmt_str
  rw [hl, List.takeWhile_append_of_pos (by simpa using he), List.take_left' rfl]

theorem list_loop_last (sel : Int) (o : Option (List Nat)) (ol : Int) (e : List Nat)
    (he : ∀ c ∈ e, c ≠ 0 ∧ c ≠ LIST_DELIMITER ∧ c ≠ LIST_END) (fuel fc : Nat)
    (printed : List (Nat × List Nat)) (hf : (e ++ [LIST_END]).length < fuel) :
    list_loop sel o ol fuel (e ++ [LIST_END]) fc printed = some ⟨(fc : Int), o, printed⟩ := by
  obtain ⟨fuel, rfl⟩ : ∃ f, fuel = f + 1 := ⟨fuel - 1, by omega⟩
  rcases e with _ | ⟨c, cs⟩
  · simp [list_loop]
  · have hc := he c (List.mem_cons_self _ _)
    have hskip := skip_filename_entry (c :: cs) [] LIST_END he (Or.inr rfl)
    obtain ⟨fuel, rfl⟩ : ∃ f, fuel = f + 1 := ⟨fuel - 1, by simp at hf; omega⟩
    unfold list_loop
    rw [if_pos (by simpa using ⟨hc.1, hc.2.2⟩)]
    simp only [hskip, List.headD_cons, ne_eq, not_true_eq_false, false_and, if_false]
    rw [if_neg (by decide)]
    simp [list_loop]

theorem list_loop_names (sel : Int) (o : Option (List Nat)) (ol : Int) (hsel : sel ≤ 0)
    (es : List (List Nat)) :
    (∀ e ∈ es, ∀ c ∈ e, c ≠ 0 ∧ c ≠ LIST_DELIMITER ∧ c ≠ LIST_END) →
    ∀ (fuel fc : Nat) (printed : List (Nat × List Nat)),
      (join_entries es ++ [LIST_END]).length < fuel →
      list_loop sel o ol fuel (join_entries es ++ [LIST_END]) fc printed =
        some ⟨((fc + (es.dropLast.filter
            (fun e => decide (¬ IN_USE_SCRIPT_NAME <+: e))).length : Nat) : Int), o,
          printed ++ (es.dropLast.filter
            (fun e => decide (¬ IN_USE_SCRIPT_NAME <+: e))).enumFrom (fc + 1)⟩ := by
  induction es with
  | nil =>
    intro _ fuel fc printed hf
    obtain ⟨fuel, rfl⟩ : ∃ f, fuel = f + 1 := ⟨fuel - 1, by omega⟩
    simp [join_entries, list_loop]
  | cons e es ih =>
    intro hes fuel fc printed hf
    have he := hes e (List.mem_cons_self _ _)
    rcases es with _ | ⟨e2, es⟩
    · simp only [join_entries, List.dropLast_single, List.filter_nil, List.length_nil,
        Nat.add_zero, List.enumFrom_nil, List.append_nil]
      exact list_loop_last sel o ol e he fuel fc printed hf
    · obtain ⟨fuel, rfl⟩ : ∃ f, fuel = f + 1 := ⟨fuel - 1, by omega⟩
      have hjoin : join_entries (e :: e2 :: es) ++ [LIST_END]
          = e ++ LIST_DELIMITER :: (join_entries (e2 :: es) ++ [LIST_END]) := by
        simp [join_entries]
      have hskip := skip_filename_entry e (join_entries (e2 :: es) ++ [LIST_END]) LIST_DELIMITER
        he (Or.inl rfl)
      have hhead : (e ++ LIST_DELIMITER :: (join_entries (e2 :: es) ++ [LIST_END])).headD 0 ≠ 0 ∧
          (e ++ LIST_DELIMITER :: (join_entries (e2 :: es) ++ [LIST_END])).headD 0 ≠ LIST_END := by
        rcases e with _ | ⟨c, cs⟩
        · simp; decide
        · have hc := he c (List.mem_cons_self _ _)
          simpa using ⟨hc.1, hc.2.2⟩
      have hfuel : (join_entries (e2 :: es) ++ [LIST_END]).length < fuel := by
        rw [hjoin] at hf
        simp only [List.length_append, List.length_cons] at hf ⊢
        omega
      have ih' := ih (fun e' he' => hes e' (List.mem_cons_of_mem _ he'))
      have hfmt := fmt_str_entry e (join_entries (e2 :: es) ++ [LIST_END]) LIST_DELIMITER
        (fun c hc => (he c hc).1)
      rw [hjoin]
      unfold list_loop
      rw [if_pos hhead]
      simp only [hskip, List.headD_cons, List.tail_cons, if_true]
      by_cases hpre : IN_USE_SCRIPT_NAME <+: e
      · have hs : ¬ (strncmp (e ++ LIST_DELIMITER :: (join_entries (e2 :: es) ++ [LIST_END]))
            IN_USE_SCRIPT_NAME (strlen IN_USE_SCRIPT_NAME) ≠ 0) := by
          rw [strncmp_in_use]; exact not_not.mpr hpre
        rw [if_neg (fun h => hs h.2)]
        rw [ih' fuel fc printed hfuel]
        simp [List.dropLast, hpre]
      · have hs : strncmp (e ++ LIST_DELIMITER :: (join_entries (e2 :: es) ++ [LIST_END]))
            IN_USE_SCRIPT_NAME (strlen IN_USE_SCRIPT_NAME) ≠ 0 := by
          rw [strncmp_in_use]; exact hpre
        rw [if_pos ⟨by decide, hs⟩, if_pos hsel, hfmt]
        rw [ih' fuel (fc + 1) _ hfuel]
        simp [List.dropLast, hpre, List.enumFrom_cons]
        omega

theorem list_loop_pick (k : Nat) (ob : List Nat) (ol : Int) (hint : ol < 2 ^ 31)
    (es : List (List Nat)) :
    (∀ e ∈ es, ∀ c ∈ e, c ≠ 0 ∧ c ≠ LIST_DELIMITER ∧ c ≠ LIST_END) →
    ∀ (fuel fc : Nat) (printed : List (Nat × List Nat)) (name : List Nat),
      (join_entries es ++ [LIST_END]).length < fuel → fc < k →
      (es.dropLast.filter (fun e => decide (¬ IN_USE_SCRIPT_NAME <+: e)))[k - fc - 1]? =
        some name →
      (name.length : Int) < ol →
      list_loop (k : Int) (some ob) ol fuel (join_entries es ++ [LIST_END]) fc printed =
        some ⟨(k : Int), some (write_bytes ob 0 (name ++ [0])), printed⟩ := by
  induction es with
  | nil =>
    intro _ fuel fc printed name _ _ hname
    simp at hname
  | cons e es ih =>
    intro hes fuel fc printed name hf hfc hname hlen
    have he := hes e (List.mem_cons_self _ _)
    rcases es with _ | ⟨e2, es⟩
    · simp at hname
    · obtain ⟨fuel, rfl⟩ : ∃ f, fuel = f + 1 := ⟨fuel - 1, by omega⟩
      have hjoin : join_entries (e :: e2 :: es) ++ [LIST_END]
          = e ++ LIST_DELIMITER :: (join_entries (e2 :: es) ++ [LIST_END]) := by
        simp [join_entries]
      have hskip := skip_filename_entry e (join_entries (e2 :: es) ++ [LIST_END]) LIST_DELIMITER
        he (Or.inl rfl)
      have hhead : (e ++ LIST_DELIMITER :: (join_entries (e2 :: es) ++ [LIST_END])).headD 0 ≠ 0 ∧
          (e ++ LIST_DELIMITER :: (join_entries (e2 :: es) ++ [LIST_END])).headD 0 ≠ LIST_END := by
        rcases e with _ | ⟨c, cs⟩
        · simp; decide
        · have hc := he c (List.mem_cons_self _ _)
          simpa using ⟨hc.1, hc.2.2⟩
      have hfuel : (join_entries (e2 :: es) ++ [LIST_END]).length < fuel := by
        rw [hjoin] at hf
        simp only [List.length_append, List.length_cons] at hf ⊢
        omega
      have ih' := ih (fun e' he' => hes e' (List.mem_cons_of_mem _ he'))
      have hfmt := fmt_str_entry e (join_entries (e2 :: es) ++ [LIST_END]) LIST_DELIMITER
        (fun c hc => (he c hc).1)
      have hpos : ¬ ((k : Int) ≤ 0) := by omega
      have hdl : (e :: e2 :: es).dropLast = e :: (e2 :: es).dropLast := rfl
      rw [hjoin]
      unfold list_loop
      rw [if_pos hhead]
      simp only [hskip, List.headD_cons, List.tail_cons, if_true]
      by_cases hpre : IN_USE_SCRIPT_NAME <+: e
      · have hs : ¬ (strncmp (e ++ LIST_DELIMITER :: (join_entries (e2 :: es) ++ [LIST_END]))
            IN_USE_SCRIPT_NAME (strlen IN_USE_SCRIPT_NAME) ≠ 0) := by
          rw [strncmp_in_use]; exact not_not.mpr hpre
        rw [if_neg (fun h => hs h.2)]
        rw [hdl, List.filter_cons_of_neg (by simpa using hpre)] at hname
        exact ih' fuel fc printed name hfuel hfc hname hlen
      · have hs : strncmp (e ++ LIST_DELIMITER :: (join_entries (e2 :: es) ++ [LIST_END]))
            IN_USE_SCRIPT_NAME (strlen IN_USE_SCRIPT_NAME) ≠ 0 := by
          rw [strncmp_in_use]; exact hpre
        rw [hdl, List.filter_cons_of_pos (by simpa using hpre)] at hname
        rw [if_pos ⟨by decide, hs⟩, if_neg hpos]
        by_cases hk : k = fc + 1
        · have h0 : k - fc - 1 = 0 := by omega
          rw [h0] at hname
          simp only [List.getElem?_cons_zero, Option.some.injEq] at hname
          subst hname
          have hol : ol ≠ 0 := by omega
          rw [if_pos ⟨by rw [hk], rfl, hol⟩]
          simp only [Option.map_some']
          rw [snprintf_str_fits ob e _ _ ol hfmt hlen hint]
        · have hidx : k - fc - 1 = (k - (fc + 1) - 1) + 1 := by omega
          rw [hidx, List.getElem?_cons_succ] at hname
          rw [if_neg (fun h => hk (by have := h.1; omega))]
          exact ih' fuel (fc + 1) printed name hfuel (by omega) hname hlen

theorem list_loop_beyond (k : Nat) (o : Option (List Nat)) (ol : Int)
    (es : List (List Nat)) :
    (∀ e ∈ es, ∀ c ∈ e, c ≠ 0 ∧ c ≠ LIST_DELIMITER ∧ c ≠ LIST_END) →
    ∀ (fuel fc : Nat) (printed : List (Nat × List Nat)),
      (join_entries es ++ [LIST_END]).length < fuel →
      fc + (es.dropLast.filter (fun e => decide (¬ IN_USE_SCRIPT_NAME <+: e))).length < k →
      list_loop (k : Int) o ol fuel (join_entries es ++ [LIST_END]) fc printed =
        some ⟨((fc + (es.dropLast.filter
            (fun e => decide (¬ IN_USE_SCRIPT_NAME <+: e))).length : Nat) : Int), o, printed⟩ := by
  induction es with
  | nil =>
    intro _ fuel fc printed hf _
    obtain ⟨fuel, rfl⟩ : ∃ f, fuel = f + 1 := ⟨fuel - 1, by omega⟩
    simp [join_entries, list_loop]
  | cons e es ih =>
    intro hes fuel fc printed hf hk
    have he := hes e (List.mem_cons_self _ _)
    rcases es with _ | ⟨e2, es⟩
    · simp only [join_entries, List.dropLast_single, List.filter_nil, List.length_nil,
        Nat.add_zero]
      exact list_loop_last _ o ol e he fuel fc printed hf
    · obtain ⟨fuel, rfl⟩ : ∃ f, fuel = f + 1 := ⟨fuel - 1, by omega⟩
      have hjoin : join_entries (e :: e2 :: es) ++ [LIST_END]
          = e ++ LIST_DELIMITER :: (join_entries (e2 :: es) ++ [LIST_END]) := by
        simp [join_entries]
      have hskip := skip_filename_entry e (join_entries (e2 :: es) ++ [LIST_END]) LIST_DELIMITER
        he (Or.inl rfl)
      have hhead : (e ++ LIST_DELIMITER :: (join_entries (e2 :: es) ++ [LIST_END])).headD 0 ≠ 0 ∧
          (e ++ LIST_DELIMITER :: (join_entries (e2 :: es) ++ [LIST_END])).headD 0 ≠ LIST_END := by
        rcases e with _ | ⟨c, cs⟩
        · simp; decide
        · have hc := he c (List.mem_cons_self _ _)
          simpa using ⟨hc.1, hc.2.2⟩
      have hfuel : (join_entries (e2 :: es) ++ [LIST_END]).length < fuel := by
        rw [hjoin] at hf
        simp only [List.length_append, List.length_cons] at hf ⊢
        omega
      have ih' := ih (fun e' he' => hes e' (List.mem_cons_of_mem _ he'))
      have hdl : (e :: e2 :: es).dropLast = e :: (e2 :: es).dropLast := rfl
      rw [hjoin]
      unfold list_loop
      rw [if_pos hhead]
      simp only [hskip, List.headD_cons, List.tail_cons, if_true]
      by_cases hpre : IN_USE_SCRIPT_NAME <+: e
      · have hs : ¬ (strncmp (e ++ LIST_DELIMITER :: (join_entries (e2 :: es) ++ [LIST_END]))
            IN_USE_SCRIPT_NAME (strlen IN_USE_SCRIPT_NAME) ≠ 0) := by
          rw [strncmp_in_use]; exact not_not.mpr hpre
        rw [if_neg (fun h => hs h.2)]
        rw [hdl, List.filter_cons_of_neg (by simpa using hpre)] at hk ⊢
        exact ih' fuel fc printed hfuel hk
      · have hs : strncmp (e ++ LIST_DELIMITER :: (join_entries (e2 :: es) ++ [LIST_END]))
            IN_USE_SCRIPT_NAME (strlen IN_USE_SCRIPT_NAME) ≠ 0 := by
          rw [strncmp_in_use]; exact hpre
        rw [hdl, List.filter_cons_of_pos (by simpa using hpre)] at hk ⊢
        rw [List.length_cons] at hk ⊢
        have hpos : ¬ ((k : Int) ≤ 0) := by omega
        rw [if_pos ⟨by decide, hs⟩, if_neg hpos,
          if_neg (fun h => by have := h.1; omega)]
        rw [ih' fuel (fc + 1) printed hfuel (by omega)]
        have e3 : fc + 1 + (List.filter (fun e => decide (¬ IN_USE_SCRIPT_NAME <+: e))
            (e2 :: es).dropLast).length = fc + ((List.filter
              (fun e => decide (¬ IN_USE_SCRIPT_NAME <+: e)) (e2 :: es).dropLast).length + 1) := by
          omega
        rw [e3, List.length_cons]

/-- C28: for a listing `<e1|...|en>` whose entries contain no 0 byte, no `|` and no
`>`, let `kept` be the entries followed by a delimiter that do not begin with the
eight bytes "schedule". Count mode returns the length of `kept` and prints
exactly the entries of `kept`, numbered from 1; a selection `k` within that
range writes the `k`-th entry of `kept`, which does not begin with "schedule",
and a selection beyond it leaves the output as it is. So an entry that begins
with "schedule", such as "schedule.wpi", is neither counted nor selected, and
an entry followed by a delimiter that does not begin with it is counted. -/
theorem reserved_name_prefix_test (es : List (List Nat))
    (hes : ∀ e ∈ es, ∀ c ∈ e, c ≠ 0 ∧ c ≠ LIST_DELIMITER ∧ c ≠ LIST_END) :
    (∀ (sel : Int) (o : Option (List Nat)) (ol : Int), sel ≤ 0 →
      list_or_select_file (listing es) sel o ol =
        some ⟨(((es.dropLast.filter
            (fun e => decide (¬ IN_USE_SCRIPT_NAME <+: e))).length : Nat) : Int), o,
          (es.dropLast.filter (fun e => decide (¬ IN_USE_SCRIPT_NAME <+: e))).enumFrom 1⟩) ∧
    (∀ (k : Nat) (ob name : List Nat) (ol : Int), 1 ≤ k →
      (es.dropLast.filter (fun e => decide (¬ IN_USE_SCRIPT_NAME <+: e)))[k - 1]? = some name →
      (name.length : Int) < ol → ol < 2 ^ 31 →
      list_or_select_file (listing es) (k : Int) (some ob) ol =
          some ⟨(k : Int), some (write_bytes ob 0 (name ++ [0])), []⟩ ∧
        ¬ IN_USE_SCRIPT_NAME <+: name) ∧
    (∀ (k : Nat) (o : Option (List Nat)) (ol : Int),
      (es.dropLast.filter (fun e => decide (¬ IN_USE_SCRIPT_NAME <+: e))).length < k →
      list_or_select_file (listing es) (k : Int) o ol =
        some ⟨(((es.dropLast.filter
            (fun e => decide (¬ IN_USE_SCRIPT_NAME <+: e))).length : Nat) : Int), o, []⟩) ∧
    (∀ e ∈ es.dropLast,
      (IN_USE_SCRIPT_NAME <+: e →
        e ∉ es.dropLast.filter (fun e => decide (¬ IN_USE_SCRIPT_NAME <+: e))) ∧
      (¬ IN_USE_SCRIPT_NAME <+: e →
        e ∈ es.dropLast.filter (fun e => decide (¬ IN_USE_SCRIPT_NAME <+: e)))) := by
  have hfuel : (join_entries es ++ [LIST_END]).length < (listing es).length + 1 := by
    simp [listing]
  refine ⟨?_, ?_, ?_, ?_⟩
  · intro sel o ol hsel
    have h := list_loop_names sel o ol hsel es hes ((listing es).length + 1) 0 [] hfuel
    simpa [list_or_select_file, listing] using h
  · intro k ob name ol hk hname hlen hint
    constructor
    · have h := list_loop_pick k ob ol hint es hes ((listing es).length + 1) 0 [] name hfuel
        (by omega) (by simpa using hname) hlen
      simpa [list_or_select_file, listing] using h
    · have hmem := List.mem_iff_getElem?.mpr ⟨_, hname⟩
      simpa using (List.mem_filter.mp hmem).2
  · intro k o ol hk
    have h := list_loop_beyond k o ol es hes ((listing es).length + 1) 0 [] hfuel
      (by omega)
    simpa [list_or_select_file, listing] using h
  · intro e he
    constructor
    · intro hpre hmem
      have := (List.mem_filter.mp hmem).2
      simp [hpre] at this
    · intro hpre
      exact List.mem_filter.mpr ⟨he, by simpa using hpre⟩

/-- C28, at the listing `<schedule.wpi|a|schedule_backup.wpi|b|c>`: count mode
prints "a" and "b", and the selection 2 writes "b". -/
theorem reserved_name_prefix_test_witness :
    list_or_select_file
        (listing [[115, 99, 104, 101, 100, 117, 108, 101, 46, 119, 112, 105], [97],
          [115, 99, 104, 101, 100, 117, 108, 101, 95, 98, 97, 99, 107, 117, 112, 46, 119, 112,
            105], [98], [99]]) (-1) none (-1) =
      some ⟨2, none, [(1, [97]), (2, [98])]⟩ ∧
    list_or_select_file
        (listing [[115, 99, 104, 101, 100, 117, 108, 101, 46, 119, 112, 105], [97],
          [115, 99, 104, 101, 100, 117, 108, 101, 95, 98, 97, 99, 107, 117, 112, 46, 119, 112,
            105], [98], [99]]) ((2 : Nat) : Int) (some [9, 9, 9, 9]) 4 =
      some ⟨((2 : Nat) : Int), some (write_bytes [9, 9, 9, 9] 0 ([98] ++ [0])), []⟩ := by
  have h := reserved_name_prefix_test
    [[115, 99, 104, 101, 100, 117, 108, 101, 46, 119, 112, 105], [97],
      [115, 99, 104, 101, 100, 117, 108, 101, 95, 98, 97, 99, 107, 117, 112, 46, 119, 112,
        105], [98], [99]] (by decide)
  exact ⟨(h.1 (-1) none (-1) (by decide)).trans (by decide),
    (h.2.1 2 [9, 9, 9, 9] [98] 4 (by decide) (by decide) (by decide) (by decide)).1⟩
end WittyPi5
